import Mathlib

/-!
Verification of the staged move picker (movepick.cpp), the thread pool and split
fabric (thread.cpp) and the UCI option handling (ucioption.cpp) of the chess
engine. The board representation, move generator, evaluator and legality
predicate are external collaborators; they enter the model as an oracle
structure of lists and predicates, exactly at the interface the sources use.
-/

namespace StockfishCore

/-- Moves are opaque 16-bit encoded values; MOVE_NONE is the distinguished sentinel. -/
abbrev Move := Nat

def MOVE_NONE : Move := 0

/-- Entry of the staging buffers: a move together with its ordering score
(MoveStack in the source). -/
structure ScoredMove where
  move : Move
  score : Int
deriving DecidableEq

instance : Inhabited ScoredMove := ⟨⟨MOVE_NONE, 0⟩⟩

/-- MovePicker::MovegenPhase. PH_KILLER_1 and PH_KILLER_2 appear in the source
but are never placed in the phase table. -/
inductive MovegenPhase where
  | PH_TT_MOVE
  | PH_MATE_KILLER
  | PH_GOOD_CAPTURES
  | PH_KILLER_1
  | PH_KILLER_2
  | PH_NONCAPTURES
  | PH_BAD_CAPTURES
  | PH_EVASIONS
  | PH_QCAPTURES
  | PH_QCHECKS
  | PH_STOP
deriving DecidableEq

open MovegenPhase

/-- Initialized prefix of PhaseTable[32] as laid out by
MovePicker::init_phase_table (indices 0 to 15; slots 16 to 31 stay
zero-initialized and are never read in the modeled runs). -/
def PhaseTableList : List MovegenPhase :=
  [PH_TT_MOVE, PH_MATE_KILLER, PH_GOOD_CAPTURES, PH_NONCAPTURES, PH_BAD_CAPTURES, PH_STOP,
   PH_EVASIONS, PH_STOP,
   PH_QCAPTURES, PH_QCHECKS, PH_STOP,
   PH_QCHECKS, PH_STOP,
   PH_QCAPTURES, PH_STOP,
   PH_STOP]

/-- PhaseTable lookup. Reading a negative index is out of bounds in the source
(see the claim about index safety); the fresh-picker read at index -1 lands on
junk memory there, and every switch case then falls through to MOVE_NONE
because all cursors of a fresh picker are at zero. We give the embedding the
harmless value PH_STOP for any out-of-range index, which produces exactly that
observable behavior. -/
def PhaseTable (i : Int) : MovegenPhase :=
  if i < 0 then PH_STOP else PhaseTableList.getD i.toNat PH_STOP

def MainSearchPhaseIndex : Int := -1

def EvasionsPhaseIndex : Int := 5

def QsearchWithChecksPhaseIndex : Int := 7

def QsearchNoCapturesPhaseIndex : Int := 10

def QsearchWithoutChecksPhaseIndex : Int := 12

def NoMovesPhaseIndex : Int := 14

/-- Oracle for the externally owned position and its collaborators (move
generator, SEE, legality, history and piece-square tables). Each field models
one composite call the picker makes, e.g. midgameValueOfPieceOnTo m stands for
pos.midgame_value_of_piece_on(move_to(m)). -/
structure Pos where
  isCheck : Bool
  epSquareIsNone : Bool
  hasPawnOn7thUs : Bool
  see : Move → Int
  plMoveIsLegal : Move → Bool
  moveIsLegal : Move → Bool
  genCaptures : List Move
  genNoncaptures : List Move
  genEvasions : List Move
  genChecks : List Move
  midgameValueOfPieceOnTo : Move → Int
  typeOfPieceOnFrom : Move → Int
  movePromotion : Move → Bool
  squareIsEmptyTo : Move → Bool
  moveOrderingScore : Move → Int
  mgPstDelta : Move → Int
  queenValueMidgame : Int
  historyMax : Int

/-- Modelled from the spec: the move generator and legality predicate are
external collaborators (spec sections 1 and 3). The legal moves of a position
are, in check, exactly the generated evasions (the evasions generator produces
only legal moves), and otherwise the pseudo-legal captures and noncaptures
that pass the pin-aware legality predicate. -/
def Pos.legalMoves (p : Pos) : List Move :=
  if p.isCheck then p.genEvasions
  else (p.genCaptures ++ p.genNoncaptures).filter (fun m => p.plMoveIsLegal m)

/-- Fragment of EvalInfo consulted by the MovePicker constructor. The field
attackedByUsIntersectsThem models (ei->attackedBy[us][0] & pos.pieces_of_color(them)) being nonzero. -/
structure EvalInfo where
  attackedByUsIntersectsThem : Bool
  specializedEvalExists : Bool

/-- Fragment of SearchStack consulted by the MovePicker constructor. -/
structure SearchStack where
  mateKiller : Move
  killers0 : Move
  killers1 : Move

/-- MovePicker state. numOfMoves and numOfBadCaptures of the source are the
lengths of the moves and badCaptures lists. -/
structure MovePicker where
  pos : Pos
  pvNode : Bool
  ttMove : Move
  mateKiller : Move
  killer1 : Move
  killer2 : Move
  depth : Int
  phaseIndex : Int
  moves : List ScoredMove
  movesPicked : Nat
  badCaptures : List ScoredMove
  badCapturesPicked : Nat
  finished : Bool

/-- The noCaptures hint computed in the MovePicker constructor. -/
def noCapturesHint (p : Pos) (ei : Option EvalInfo) : Bool :=
  match ei with
  | none => false
  | some e =>
      !e.attackedByUsIntersectsThem && !e.specializedEvalExists
        && p.epSquareIsNone && !p.hasPawnOn7thUs

/-- MovePicker::MovePicker. badCapturesPicked is uninitialized in the source;
it is reset on entry to PH_BAD_CAPTURES before its first intended read, so the
embedding starts it at zero. -/
def mkMovePicker (p : Pos) (pv : Bool) (ttm : Move) (ss : SearchStack) (d : Int)
    (ei : Option EvalInfo) : MovePicker :=
  let noCaptures := noCapturesHint p ei
  { pos := p
    pvNode := pv
    ttMove := ttm
    mateKiller := if ss.mateKiller = ttm then MOVE_NONE else ss.mateKiller
    killer1 := ss.killers0
    killer2 := ss.killers1
    depth := d
    phaseIndex :=
      if p.isCheck then EvasionsPhaseIndex
      else if 0 < d then MainSearchPhaseIndex
      else if d = 0 then
        (if noCaptures then QsearchNoCapturesPhaseIndex else QsearchWithChecksPhaseIndex)
      else
        (if noCaptures then NoMovesPhaseIndex else QsearchWithoutChecksPhaseIndex)
    moves := []
    movesPicked := 0
    badCaptures := []
    badCapturesPicked := 0
    finished := false }

/-- Capture score used by score_captures and score_qcaptures: queen value for
promotions, otherwise MVV/LVA. -/
def captureScore (p : Pos) (m : Move) : Int :=
  if p.movePromotion m then p.queenValueMidgame
  else p.midgameValueOfPieceOnTo m - p.typeOfPieceOnFrom m

/-- Loop body of MovePicker::score_captures: scores each capture; captures with
negative SEE get score = SEE, are appended to badCaptures, and their slot is
compacted with the last bucket element (moves[i--] = moves[--numOfMoves]). -/
def scoreCapturesLoop (p : Pos) (ms : List ScoredMove) (bad : List ScoredMove) (i : Nat) :
    List ScoredMove × List ScoredMove :=
  if h : i < ms.length then
    let m := (ms.getD i default).move
    let seeValue := p.see m
    if 0 ≤ seeValue then
      scoreCapturesLoop p (ms.set i ⟨m, captureScore p m⟩) bad (i + 1)
    else
      scoreCapturesLoop p ((ms.set i (ms.getD (ms.length - 1) default)).dropLast)
        (bad ++ [⟨m, seeValue⟩]) i
  else (ms, bad)
termination_by ms.length - i
decreasing_by
  · simp only [List.length_set]; omega
  · simp only [List.length_dropLast, List.length_set]; omega

/-- MovePicker::score_captures on a freshly generated capture bucket. -/
def scoreCaptures (p : Pos) (ms : List ScoredMove) (bad : List ScoredMove) :
    List ScoredMove × List ScoredMove :=
  scoreCapturesLoop p ms bad 0

/-- Score of one noncapture in MovePicker::score_noncaptures: killers first,
then history (shifted above the piece-square contribution when positive),
plus the piece-square delta. -/
def noncaptureScore (p : Pos) (killer1 killer2 m : Move) : Int :=
  let hs :=
    if m = killer1 then p.historyMax + 2
    else if m = killer2 then p.historyMax + 1
    else p.moveOrderingScore m
  let hs2 := if 0 < hs then hs + 1000 else hs
  hs2 + p.mgPstDelta m

/-- Score of one evasion in MovePicker::score_evasions. -/
def evasionScore (p : Pos) (ttMove m : Move) : Int :=
  if m = ttMove then 2 * p.historyMax
  else if !p.squareIsEmptyTo m then
    let seeScore := p.see m
    if 0 ≤ seeScore then seeScore + p.historyMax else seeScore
  else p.moveOrderingScore m

def scoreNoncapturesList (p : Pos) (killer1 killer2 : Move) (ms : List Move) :
    List ScoredMove :=
  ms.map (fun m => ⟨m, noncaptureScore p killer1 killer2 m⟩)

def scoreEvasionsList (p : Pos) (ttMove : Move) (ms : List Move) : List ScoredMove :=
  ms.map (fun m => ⟨m, evasionScore p ttMove m⟩)

def scoreQcapturesList (p : Pos) (ms : List Move) : List ScoredMove :=
  ms.map (fun m => ⟨m, captureScore p m⟩)

/-- Loop of MovePicker::find_best_index, carrying the running bestIndex and
bestScore exactly like the source locals (bestScore starts at -10000000,
bestIndex at -1; a strictly greater score replaces them). -/
def findBestFrom (ms : List ScoredMove) (n i : Nat) (bestIndex bestScore : Int) :
    Int × Int :=
  if h : i < n then
    if bestScore < (ms.getD i default).score then
      findBestFrom ms n (i + 1) (i : Int) (ms.getD i default).score
    else
      findBestFrom ms n (i + 1) bestIndex bestScore
  else (bestIndex, bestScore)
termination_by n - i

/-- MovePicker::find_best_index over moves[movesPicked..numOfMoves). -/
def findBestIndex (ms : List ScoredMove) (movesPicked : Nat) : Int :=
  (findBestFrom ms ms.length movesPicked (-1) (-10000000)).1

/-- Selection-removal idiom shared by the drains: read moves[b].move, overwrite
slot b with moves[movesPicked], increment movesPicked. -/
def pickAt (mp : MovePicker) (b : Nat) : Move × MovePicker :=
  ((mp.moves.getD b default).move,
   { mp with
      moves := mp.moves.set b (mp.moves.getD mp.movesPicked default)
      movesPicked := mp.movesPicked + 1 })

/-- PH_GOOD_CAPTURES branch of MovePicker::pick_move_from_list. A result of
none models the (unreachable with sane scores) infinite loop the source enters
when find_best_index returns -1 on a nonempty range. -/
def pickLoopGoodCaptures (mp : MovePicker) : Option (Move × MovePicker) :=
  if h : mp.movesPicked < mp.moves.length then
    let bi := findBestIndex mp.moves mp.movesPicked
    if bi = -1 then none
    else
      let r := pickAt mp bi.toNat
      if r.1 ≠ mp.ttMove ∧ r.1 ≠ mp.mateKiller ∧ mp.pos.plMoveIsLegal r.1 = true then
        some r
      else pickLoopGoodCaptures r.2
  else some (MOVE_NONE, mp)
termination_by mp.moves.length - mp.movesPicked
decreasing_by simp only [pickAt, List.length_set]; omega

/-- PH_NONCAPTURES branch of MovePicker::pick_move_from_list: best-score scan
on PV nodes or while fewer than 12 moves were picked, front slot afterwards. -/
def pickLoopNoncaptures (mp : MovePicker) : Option (Move × MovePicker) :=
  if h : mp.movesPicked < mp.moves.length then
    let bi :=
      if mp.pvNode = true ∨ mp.movesPicked < 12 then findBestIndex mp.moves mp.movesPicked
      else (mp.movesPicked : Int)
    if bi = -1 then none
    else
      let r := pickAt mp bi.toNat
      if r.1 ≠ mp.ttMove ∧ r.1 ≠ mp.mateKiller ∧ mp.pos.plMoveIsLegal r.1 = true then
        some r
      else pickLoopNoncaptures r.2
  else some (MOVE_NONE, mp)
termination_by mp.moves.length - mp.movesPicked
decreasing_by simp only [pickAt, List.length_set]; omega

/-- PH_EVASIONS branch of MovePicker::pick_move_from_list: best-score pick,
returned without any legality filtering. -/
def pickLoopEvasions (mp : MovePicker) : Option (Move × MovePicker) :=
  if h : mp.movesPicked < mp.moves.length then
    let bi := findBestIndex mp.moves mp.movesPicked
    if bi = -1 then none
    else some (pickAt mp bi.toNat)
  else some (MOVE_NONE, mp)

/-- PH_BAD_CAPTURES branch of MovePicker::pick_move_from_list: drain
badCaptures in insertion order, skipping ttMove, mateKiller and illegal moves. -/
def pickLoopBadCaptures (mp : MovePicker) : Option (Move × MovePicker) :=
  if h : mp.badCapturesPicked < mp.badCaptures.length then
    let move := (mp.badCaptures.getD mp.badCapturesPicked default).move
    let mp1 : MovePicker := { mp with badCapturesPicked := mp.badCapturesPicked + 1 }
    if move ≠ mp.ttMove ∧ move ≠ mp.mateKiller ∧ mp.pos.plMoveIsLegal move = true then
      some (move, mp1)
    else pickLoopBadCaptures mp1
  else some (MOVE_NONE, mp)
termination_by mp.badCaptures.length - mp.badCapturesPicked

/-- PH_QCAPTURES branch of MovePicker::pick_move_from_list: best-score scan for
the first four picks, front slot afterwards; legality check only, the tt move
is deliberately not skipped. -/
def pickLoopQCaptures (mp : MovePicker) : Option (Move × MovePicker) :=
  if h : mp.movesPicked < mp.moves.length then
    let bi :=
      if mp.movesPicked < 4 then findBestIndex mp.moves mp.movesPicked
      else (mp.movesPicked : Int)
    if bi = -1 then none
    else
      let r := pickAt mp bi.toNat
      if mp.pos.plMoveIsLegal r.1 = true then some r
      else pickLoopQCaptures r.2
  else some (MOVE_NONE, mp)
termination_by mp.moves.length - mp.movesPicked
decreasing_by simp only [pickAt, List.length_set]; omega

/-- PH_QCHECKS branch of MovePicker::pick_move_from_list: generator order,
legality check only, the tt move is deliberately not skipped. -/
def pickLoopQChecks (mp : MovePicker) : Option (Move × MovePicker) :=
  if h : mp.movesPicked < mp.moves.length then
    let move := (mp.moves.getD mp.movesPicked default).move
    let mp1 : MovePicker := { mp with movesPicked := mp.movesPicked + 1 }
    if mp.pos.plMoveIsLegal move = true then some (move, mp1)
    else pickLoopQChecks mp1
  else some (MOVE_NONE, mp)
termination_by mp.moves.length - mp.movesPicked

/-- MovePicker::pick_move_from_list: dispatch on PhaseTable[phaseIndex]; the
single-shot and stop phases fall through to MOVE_NONE. -/
def pickMoveFromList (mp : MovePicker) : Option (Move × MovePicker) :=
  match PhaseTable mp.phaseIndex with
  | PH_GOOD_CAPTURES => pickLoopGoodCaptures mp
  | PH_NONCAPTURES => pickLoopNoncaptures mp
  | PH_EVASIONS => pickLoopEvasions mp
  | PH_BAD_CAPTURES => pickLoopBadCaptures mp
  | PH_QCAPTURES => pickLoopQCaptures mp
  | PH_QCHECKS => pickLoopQChecks mp
  | _ => some (MOVE_NONE, mp)

/-- MovePicker::get_next_move main loop, with fuel bounding the number of
phase advances within one call (16 table rows suffice for every reachable
state; the top-level entry supplies 32). -/
def getNextMoveFuel : Nat → MovePicker → Option (Move × MovePicker)
  | 0, _ => none
  | fuel + 1, mp =>
    match pickMoveFromList mp with
    | none => none
    | some (move, mp0) =>
      if move ≠ MOVE_NONE then some (move, mp0)
      else
        let mp1 : MovePicker := { mp0 with phaseIndex := mp0.phaseIndex + 1 }
        match PhaseTable mp1.phaseIndex with
        | PH_TT_MOVE =>
          if mp1.ttMove ≠ MOVE_NONE ∧ mp1.pos.moveIsLegal mp1.ttMove = true then
            some (mp1.ttMove, mp1)
          else getNextMoveFuel fuel mp1
        | PH_MATE_KILLER =>
          if mp1.mateKiller ≠ MOVE_NONE ∧ mp1.pos.moveIsLegal mp1.mateKiller = true then
            some (mp1.mateKiller, mp1)
          else getNextMoveFuel fuel mp1
        | PH_GOOD_CAPTURES =>
          let scored :=
            scoreCaptures mp1.pos (mp1.pos.genCaptures.map (fun m => ⟨m, 0⟩)) mp1.badCaptures
          getNextMoveFuel fuel
            { mp1 with moves := scored.1, badCaptures := scored.2, movesPicked := 0 }
        | PH_BAD_CAPTURES =>
          getNextMoveFuel fuel { mp1 with badCapturesPicked := 0 }
        | PH_NONCAPTURES =>
          getNextMoveFuel fuel
            { mp1 with
                moves := scoreNoncapturesList mp1.pos mp1.killer1 mp1.killer2 mp1.pos.genNoncaptures
                movesPicked := 0 }
        | PH_EVASIONS =>
          getNextMoveFuel fuel
            { mp1 with
                moves := scoreEvasionsList mp1.pos mp1.ttMove mp1.pos.genEvasions
                movesPicked := 0 }
        | PH_QCAPTURES =>
          getNextMoveFuel fuel
            { mp1 with moves := scoreQcapturesList mp1.pos mp1.pos.genCaptures, movesPicked := 0 }
        | PH_QCHECKS =>
          getNextMoveFuel fuel
            { mp1 with
                moves := mp1.pos.genChecks.map (fun m => ⟨m, 0⟩)
                movesPicked := 0 }
        | PH_STOP => some (MOVE_NONE, mp1)
        | _ => some (MOVE_NONE, mp1)

/-- MovePicker::get_next_move. -/
def getNextMove (mp : MovePicker) : Option (Move × MovePicker) :=
  getNextMoveFuel 32 mp

/-- MovePicker::get_next_move(Lock&): short-circuits on the finished latch,
otherwise pulls one move and latches finished when the pull yields the
sentinel. The mutex serializes these calls; runSchedule below models the
resulting interleavings. -/
def getNextMoveLocked (mp : MovePicker) : Option (Move × MovePicker) :=
  if mp.finished then some (MOVE_NONE, mp)
  else
    match getNextMove mp with
    | none => none
    | some (m, mp1) =>
      if m = MOVE_NONE then some (MOVE_NONE, { mp1 with finished := true })
      else some (m, mp1)

/-- MovePicker::current_move_type. -/
def currentMoveType (mp : MovePicker) : MovegenPhase :=
  PhaseTable mp.phaseIndex

/-- Sequence of moves produced by repeated get_next_move calls until the first
sentinel, each tagged with current_move_type of the state that produced it;
none when the fuel runs out before the sentinel appears. -/
def emitSeqT : Nat → MovePicker → Option (List (Move × MovegenPhase) × MovePicker)
  | 0, _ => none
  | n + 1, mp =>
    match getNextMove mp with
    | none => none
    | some (m, mp1) =>
      if m = MOVE_NONE then some ([], mp1)
      else
        match emitSeqT n mp1 with
        | none => none
        | some (l, mpF) => some ((m, currentMoveType mp1) :: l, mpF)

/-- Untagged emission sequence. -/
def emitSeq (n : Nat) (mp : MovePicker) : Option (List Move) :=
  (emitSeqT n mp).map (fun r => r.1.map Prod.fst)

/-- One worker event of a split-point schedule: the worker draws one move
through the lock-taking entry point. A schedule is the order in which the
workers acquired the shared lock, so executing it serially is exactly the
behavior the mutex enforces. -/
def runSchedule : List Nat → MovePicker → Option (List (Nat × Move) × MovePicker)
  | [], mp => some ([], mp)
  | w :: ws, mp =>
    match getNextMoveLocked mp with
    | none => none
    | some (m, mp1) =>
      match runSchedule ws mp1 with
      | none => none
      | some (evs, mpF) => some ((w, m) :: evs, mpF)

/-- SplitPoint record (thread.h fields used by thread.cpp); pointers to parent
split points and positions are modeled as abstract reference ids. -/
structure SplitPoint where
  masterIdx : Nat
  parentSplitPoint : Option Nat
  slavesMask : Nat
  depth : Int
  bestValue : Int
  bestMove : Move
  threatMove : Move
  alpha : Int
  beta : Int
  nodeType : Int
  cutNode : Bool
  moveCount : Nat
  nodes : Nat
  cutoff : Bool
deriving DecidableEq

instance : Inhabited SplitPoint :=
  ⟨⟨0, none, 0, 0, 0, MOVE_NONE, MOVE_NONE, 0, 0, 0, false, 0, 0, false⟩⟩

/-- Worker thread record (the fields thread.cpp reads and writes). -/
structure Thread where
  searching : Bool
  splitPointsSize : Nat
  splitPoints : List SplitPoint
  activeSplitPoint : Option Nat
  activePosition : Option Nat
  idx : Nat
deriving DecidableEq

/-- Thread::is_available_to: the thread must be idle, and either own no split
points or have the master bit set in the slaves mask at the top of its stack.
The source reads splitPointsSize once into a local to bound the stack access. -/
def Thread.isAvailableTo (t : Thread) (master : Thread) : Bool :=
  if t.searching then false
  else
    let size := t.splitPointsSize
    (size == 0) || (((t.splitPoints.getD (size - 1) default).slavesMask &&& (1 <<< master.idx)) != 0)

/-- Shared-field state of a split point when the master re-acquires the locks
after its idle loop: the updates the participants made under sp.mutex per the
search-body contract (best value, best move, alpha, move count, node count,
cutoff flag and the slave bits they cleared). -/
structure SplitOutcome where
  slavesMask : Nat
  alpha : Int
  bestValue : Int
  bestMove : Move
  moveCount : Nat
  nodes : Nat
  cutoff : Bool

/-- Values Thread::split hands back to its caller: the updated master record,
the position node counter, and the bestValue and bestMove out-parameters. -/
structure SplitReturn where
  master : Thread
  posNodes : Nat
  bestValue : Int
  bestMove : Move
  sp : SplitPoint

/-- Thread::split. The available-slave scan is abstracted by the list of
recruited slave indices (their bits are set exactly as the loop does), and the
work done at the split point while the master sits in its idle loop is
abstracted by a SplitOutcome applied to the shared fields; when no slave was
recruited and the split is not fake, the idle loop is skipped and the shared
fields keep their initial values. After the idle loop the master is not
searching and has no active position (the source asserts both). -/
def Thread.split (fake : Bool) (t : Thread) (posNodes : Nat) (posRef spRef : Nat)
    (alpha beta bestValue : Int) (bestMove : Move) (depth : Int) (threatMove : Move)
    (moveCount : Nat) (nodeType : Int) (cutNode : Bool)
    (recruited : List Nat) (outcome : SplitOutcome) : SplitReturn :=
  let spInit : SplitPoint :=
    { masterIdx := t.idx
      parentSplitPoint := t.activeSplitPoint
      slavesMask := recruited.foldl (fun msk j => msk ||| (1 <<< j)) (1 <<< t.idx)
      depth := depth
      bestValue := bestValue
      bestMove := bestMove
      threatMove := threatMove
      alpha := alpha
      beta := beta
      nodeType := nodeType
      cutNode := cutNode
      moveCount := moveCount
      nodes := 0
      cutoff := false }
  let m1 : Thread :=
    { t with
        splitPointsSize := t.splitPointsSize + 1
        activeSplitPoint := some spRef
        activePosition := none }
  let enteredIdleLoop := !recruited.isEmpty || fake
  let spFinal : SplitPoint :=
    if enteredIdleLoop then
      { spInit with
          slavesMask := outcome.slavesMask
          alpha := outcome.alpha
          bestValue := outcome.bestValue
          bestMove := outcome.bestMove
          moveCount := outcome.moveCount
          nodes := outcome.nodes
          cutoff := outcome.cutoff }
    else spInit
  let m2 : Thread := if enteredIdleLoop then { m1 with searching := false } else m1
  let m3 : Thread :=
    { m2 with
        searching := true
        splitPointsSize := m2.splitPointsSize - 1
        splitPoints := m2.splitPoints.set t.splitPointsSize spFinal
        activeSplitPoint := spFinal.parentSplitPoint
        activePosition := some posRef }
  { master := m3
    posNodes := posNodes + spFinal.nodes
    bestValue := spFinal.bestValue
    bestMove := spFinal.bestMove
    sp := spFinal }

/-- Unpicked remainder of the staging bucket: moves[movesPicked..numOfMoves). -/
def bucketRest (mp : MovePicker) : List ScoredMove := mp.moves.drop mp.movesPicked

/-- Unpicked remainder of the bad-capture bucket. -/
def badRest (mp : MovePicker) : List ScoredMove := mp.badCaptures.drop mp.badCapturesPicked

/-- Filter applied by the main-search drains: not the tt move, not the mate
killer, and legal. -/
def passMain (mp : MovePicker) (m : Move) : Bool :=
  (m != mp.ttMove) && (m != mp.mateKiller) && mp.pos.plMoveIsLegal m

/-- Fields of the picker that no drain loop ever changes. -/
def sameConfig (a b : MovePicker) : Prop :=
  b.pos = a.pos ∧ b.pvNode = a.pvNode ∧ b.ttMove = a.ttMove ∧ b.mateKiller = a.mateKiller ∧
    b.killer1 = a.killer1 ∧ b.killer2 = a.killer2 ∧ b.depth = a.depth ∧
    b.phaseIndex = a.phaseIndex ∧ b.finished = a.finished

/-- Upper bound on the number of phase advances one get_next_move call can
still perform from phase index i before running into a PH_STOP entry. -/
def stopDist (i : Int) : Nat := (16 - i).toNat

/-- The phaseIndex++ step of the get_next_move loop. -/
def advancePhase (mp : MovePicker) : MovePicker :=
  { mp with phaseIndex := mp.phaseIndex + 1 }

/-- State of the picker on entry to a bucket phase: the freshly generated and
scored bucket with the cursor reset, as the get_next_move switch establishes
it. -/
def phaseEntry (mp : MovePicker) : MovePicker :=
  match PhaseTable mp.phaseIndex with
  | PH_GOOD_CAPTURES =>
    let scored := scoreCaptures mp.pos (mp.pos.genCaptures.map (fun m => ⟨m, 0⟩)) mp.badCaptures
    { mp with moves := scored.1, badCaptures := scored.2, movesPicked := 0 }
  | PH_BAD_CAPTURES => { mp with badCapturesPicked := 0 }
  | PH_NONCAPTURES =>
    { mp with
        moves := scoreNoncapturesList mp.pos mp.killer1 mp.killer2 mp.pos.genNoncaptures
        movesPicked := 0 }
  | PH_EVASIONS =>
    { mp with moves := scoreEvasionsList mp.pos mp.ttMove mp.pos.genEvasions, movesPicked := 0 }
  | PH_QCAPTURES =>
    { mp with moves := scoreQcapturesList mp.pos mp.pos.genCaptures, movesPicked := 0 }
  | PH_QCHECKS =>
    { mp with moves := mp.pos.genChecks.map (fun m => ⟨m, 0⟩), movesPicked := 0 }
  | _ => mp

/-- UCI::Option restricted to spin options (currentValue is stored as a string
and parsed with stoi in the source; the spin payload is an integer). -/
structure SpinOption where
  currentValue : Int
  minValue : Int
  maxValue : Int
deriving DecidableEq

/-- UCI::Option::operator= on a spin option: an out-of-range value is ignored,
keeping the previous value; no error is surfaced either way. -/
def SpinOption.assign (o : SpinOption) (v : Int) : SpinOption :=
  if v < o.minValue || o.maxValue < v then o else { o with currentValue := v }

/-- Minimum split depth computed by ThreadPool::read_uci_options from the
configured option value (in plies) and the requested thread count; ONE_PLY is
kept abstract. -/
def readMinimumSplitDepth (onePly optMinSplitDepth : Int) (requested : Nat) : Int :=
  let msd := optMinSplitDepth * onePly
  if msd = 0 then (if requested < 8 then 4 else 7) * onePly
  else max (4 * onePly) msd

/-- A small concrete position used to exercise the theorems on closed inputs:
two captures (6 loses material, 5 does not), two noncaptures (12 is pinned and
illegal), one quiet check and two evasions. -/
def posW : Pos :=
  { isCheck := false
    epSquareIsNone := true
    hasPawnOn7thUs := false
    see := fun m => if m = 6 then -1 else 0
    plMoveIsLegal := fun m => m != 12
    moveIsLegal := fun m => (m == 5) || (m == 6) || (m == 11)
    genCaptures := [5, 6]
    genNoncaptures := [11, 12]
    genEvasions := [21, 22]
    genChecks := [6]
    midgameValueOfPieceOnTo := fun _ => 10
    typeOfPieceOnFrom := fun _ => 1
    movePromotion := fun _ => false
    squareIsEmptyTo := fun _ => true
    moveOrderingScore := fun _ => 3
    mgPstDelta := fun _ => 0
    queenValueMidgame := 900
    historyMax := 100 }

/-- A degenerate all-legal position for picker states built by hand. -/
def posX : Pos :=
  { isCheck := false
    epSquareIsNone := true
    hasPawnOn7thUs := false
    see := fun _ => 0
    plMoveIsLegal := fun _ => true
    moveIsLegal := fun _ => true
    genCaptures := []
    genNoncaptures := []
    genEvasions := []
    genChecks := []
    midgameValueOfPieceOnTo := fun _ => 0
    typeOfPieceOnFrom := fun _ => 0
    movePromotion := fun _ => false
    squareIsEmptyTo := fun _ => true
    moveOrderingScore := fun _ => 0
    mgPstDelta := fun _ => 0
    queenValueMidgame := 900
    historyMax := 100 }

/-- Search stack with no killers set. -/
def ssW : SearchStack :=
  { mateKiller := 0
    killers0 := 0
    killers1 := 0 }

/-- A picker parked in the GOOD_CAPTURES phase whose top-scored capture is the
tt move: the drain skips it, so the first yield is the lower-scored capture. -/
def mpX : MovePicker :=
  { pos := posX
    pvNode := false
    ttMove := 5
    mateKiller := 0
    killer1 := 0
    killer2 := 0
    depth := 1
    phaseIndex := 2
    moves := [⟨5, 100⟩, ⟨7, 50⟩]
    movesPicked := 0
    badCaptures := []
    badCapturesPicked := 0
    finished := false }

/-- A picker parked in the QCAPTURES phase with the tt move in the bucket. -/
def mpQ : MovePicker :=
  { pos := posX
    pvNode := false
    ttMove := 5
    mateKiller := 0
    killer1 := 0
    killer2 := 0
    depth := 0
    phaseIndex := 8
    moves := [⟨5, 9⟩, ⟨6, 9⟩]
    movesPicked := 0
    badCaptures := []
    badCapturesPicked := 0
    finished := false }

/-- A picker whose finished latch is already set. -/
def mpDone : MovePicker :=
  { pos := posX
    pvNode := false
    ttMove := 0
    mateKiller := 0
    killer1 := 0
    killer2 := 0
    depth := 1
    phaseIndex := 5
    moves := []
    movesPicked := 0
    badCaptures := []
    badCapturesPicked := 0
    finished := true }

/-! Helper lemmas about lists and multisets used by the drain proofs. -/

theorem getD_drop_add (l : List α) (n m : Nat) (d : α) :
    (l.drop n).getD m d = l.getD (n + m) d := by
  simp [List.getD_eq_getElem?_getD, List.getElem?_drop]

theorem multiset_set_cons (l : List α) (j : Nat) (hj : j < l.length) (v d : α) :
    l.getD j d ::ₘ (↑(l.set j v) : Multiset α) = v ::ₘ (↑l : Multiset α) := by
  induction l generalizing j with
  | nil => simp at hj
  | cons a t ih =>
    cases j with
    | zero =>
      simp only [List.getD_cons_zero, List.set_cons_zero, Multiset.cons_coe, Multiset.coe_eq_coe]
      exact List.Perm.swap v a t
    | succ j =>
      have hj2 : j < t.length := by simpa using hj
      have := ih j hj2
      simp only [List.getD_cons_succ, List.set_cons_succ, Multiset.cons_coe]
      calc (t.getD j d ::ₘ (a ::ₘ ↑(t.set j v)) : Multiset α)
          = a ::ₘ (t.getD j d ::ₘ ↑(t.set j v)) := Multiset.cons_swap _ _ _
        _ = a ::ₘ (v ::ₘ ↑t) := by rw [this]
        _ = v ::ₘ (a ::ₘ ↑t) := Multiset.cons_swap _ _ _

theorem drop_eq_getD_cons (l : List α) (n : Nat) (hn : n < l.length) (d : α) :
    l.drop n = l.getD n d :: l.drop (n + 1) := by
  rw [List.drop_eq_getElem_cons hn]
  simp [List.getD_eq_getElem?_getD, List.getElem?_eq_getElem hn]

/-! Specification of find_best_index. -/

theorem findBestFrom_spec (ms : List ScoredMove) (n : Nat) :
    ∀ (i : Nat) (bi bs : Int),
      (findBestFrom ms n i bi bs = (bi, bs) ∧
        ∀ j, i ≤ j → j < n → (ms.getD j default).score ≤ bs)
      ∨ (∃ k, i ≤ k ∧ k < n ∧
          findBestFrom ms n i bi bs = ((k : Int), (ms.getD k default).score) ∧
          bs < (ms.getD k default).score ∧
          ∀ j, i ≤ j → j < n → (ms.getD j default).score ≤ (ms.getD k default).score) := by
  intro i bi bs
  induction i, bi, bs using findBestFrom.induct ms n with
  | case1 i bi bs h hlt ih =>
    rw [findBestFrom, dif_pos h, if_pos hlt]
    rcases ih with ⟨heq, hall⟩ | ⟨k, hk1, hk2, heq, hgt, hall⟩
    · refine Or.inr ⟨i, le_refl i, h, heq, hlt, ?_⟩
      intro j hj1 hj2
      rcases Nat.eq_or_lt_of_le hj1 with rfl | hj1
      · exact le_refl _
      · exact hall j hj1 hj2
    · refine Or.inr ⟨k, Nat.le_of_succ_le hk1, hk2, heq, lt_trans hlt hgt, ?_⟩
      intro j hj1 hj2
      rcases Nat.eq_or_lt_of_le hj1 with rfl | hj1
      · exact le_of_lt hgt
      · exact hall j hj1 hj2
  | case2 i bi bs h hlt ih =>
    rw [findBestFrom, dif_pos h, if_neg hlt]
    rcases ih with ⟨heq, hall⟩ | ⟨k, hk1, hk2, heq, hgt, hall⟩
    · refine Or.inl ⟨heq, ?_⟩
      intro j hj1 hj2
      rcases Nat.eq_or_lt_of_le hj1 with rfl | hj1
      · exact not_lt.mp hlt
      · exact hall j hj1 hj2
    · refine Or.inr ⟨k, Nat.le_of_succ_le hk1, hk2, heq, hgt, ?_⟩
      intro j hj1 hj2
      rcases Nat.eq_or_lt_of_le hj1 with rfl | hj1
      · exact le_trans (not_lt.mp hlt) (le_of_lt hgt)
      · exact hall j hj1 hj2
  | case3 i bi bs h =>
    rw [findBestFrom, dif_neg h]
    exact Or.inl ⟨rfl, fun j hj1 hj2 => absurd (Nat.lt_of_le_of_lt hj1 hj2) h⟩

/-- Specification of findBestIndex on a nonempty range whose scores all exceed
the sentinel score: it returns an in-range index holding a maximal score. -/
theorem findBestIndex_spec (ms : List ScoredMove) (p : Nat) (hp : p < ms.length)
    (hsc : ∀ j, p ≤ j → j < ms.length → -10000000 < (ms.getD j default).score) :
    ∃ k, p ≤ k ∧ k < ms.length ∧ findBestIndex ms p = (k : Int) ∧
      ∀ j, p ≤ j → j < ms.length → (ms.getD j default).score ≤ (ms.getD k default).score := by
  rcases findBestFrom_spec ms ms.length p (-1) (-10000000) with ⟨_, hall⟩ | ⟨k, h1, h2, heq, _, hall⟩
  · exact absurd (hall p (le_refl p) hp) (not_le.mpr (hsc p (le_refl p) hp))
  · exact ⟨k, h1, h2, by rw [findBestIndex, heq], hall⟩

/-! Lemmas about the selection-removal idiom and the bucket remainder. -/

theorem mem_drop_iff_getD (l : List α) (p : Nat) (d : α) (x : α) :
    x ∈ l.drop p ↔ ∃ j, p ≤ j ∧ j < l.length ∧ l.getD j d = x := by
  rw [List.mem_iff_getElem]
  constructor
  · rintro ⟨k, hk, hx⟩
    have hk2 : p + k < l.length := by
      have := l.length_drop p; omega
    refine ⟨p + k, Nat.le_add_right p k, hk2, ?_⟩
    rw [List.getElem_drop] at hx
    simp [List.getD_eq_getElem?_getD, List.getElem?_eq_getElem hk2, hx]
  · rintro ⟨j, hj1, hj2, hx⟩
    have hk : j - p < (l.drop p).length := by simp [List.length_drop]; omega
    refine ⟨j - p, hk, ?_⟩
    have h3 : (l.drop p).getD (j - p) d = l.getD j d := by
      rw [getD_drop_add]
      congr 1
      omega
    rw [← hx, ← h3]
    simp [List.getD_eq_getElem?_getD, List.getElem?_eq_getElem hk]

theorem sameConfig_refl (mp : MovePicker) : sameConfig mp mp :=
  ⟨rfl, rfl, rfl, rfl, rfl, rfl, rfl, rfl, rfl⟩

theorem sameConfig_trans {a b c : MovePicker} (h1 : sameConfig a b) (h2 : sameConfig b c) :
    sameConfig a c := by
  obtain ⟨e1, e2, e3, e4, e5, e6, e7, e8, e9⟩ := h1
  obtain ⟨f1, f2, f3, f4, f5, f6, f7, f8, f9⟩ := h2
  exact ⟨f1.trans e1, f2.trans e2, f3.trans e3, f4.trans e4, f5.trans e5,
    f6.trans e6, f7.trans e7, f8.trans e8, f9.trans e9⟩

theorem passMain_congr {a b : MovePicker} (h : sameConfig a b) :
    passMain b = passMain a := by
  obtain ⟨e1, _, e3, e4, _⟩ := h
  funext m
  rw [passMain, passMain, e1, e3, e4]

theorem passMain_true_iff (mp : MovePicker) (m : Move) :
    passMain mp m = true ↔ (m ≠ mp.ttMove ∧ m ≠ mp.mateKiller ∧ mp.pos.plMoveIsLegal m = true) := by
  simp [passMain, and_assoc]

theorem pickAt_frame (mp : MovePicker) (b : Nat) :
    sameConfig mp (pickAt mp b).2 ∧ (pickAt mp b).2.badCaptures = mp.badCaptures ∧
      (pickAt mp b).2.badCapturesPicked = mp.badCapturesPicked ∧
      (pickAt mp b).2.movesPicked = mp.movesPicked + 1 ∧
      (pickAt mp b).2.moves.length = mp.moves.length := by
  refine ⟨⟨rfl, rfl, rfl, rfl, rfl, rfl, rfl, rfl, rfl⟩, rfl, rfl, rfl, ?_⟩
  simp [pickAt]

theorem pickAt_live (mp : MovePicker) (b : Nat) (hb1 : mp.movesPicked ≤ b)
    (hb2 : b < mp.moves.length) :
    (pickAt mp b).1 = (mp.moves.getD b default).move ∧
      (↑(bucketRest mp) : Multiset ScoredMove) =
        mp.moves.getD b default ::ₘ ↑(bucketRest (pickAt mp b).2) := by
  refine ⟨rfl, ?_⟩
  have hp : mp.movesPicked < mp.moves.length := Nat.lt_of_le_of_lt hb1 hb2
  have hrest : bucketRest (pickAt mp b).2 =
      (mp.moves.set b (mp.moves.getD mp.movesPicked default)).drop (mp.movesPicked + 1) := rfl
  rcases Nat.eq_or_lt_of_le hb1 with rfl | hlt
  · rw [hrest, List.drop_set, if_pos (Nat.lt_succ_self _)]
    rw [bucketRest, drop_eq_getD_cons mp.moves mp.movesPicked hp default]
    exact (Multiset.cons_coe _ _).symm
  · rw [hrest, List.drop_set, if_neg (by omega)]
    have ht : b - (mp.movesPicked + 1) < (mp.moves.drop (mp.movesPicked + 1)).length := by
      simp [List.length_drop]; omega
    have hgd : (mp.moves.drop (mp.movesPicked + 1)).getD (b - (mp.movesPicked + 1)) default
        = mp.moves.getD b default := by
      rw [getD_drop_add]
      congr 1
      omega
    have hms := multiset_set_cons (mp.moves.drop (mp.movesPicked + 1)) (b - (mp.movesPicked + 1))
      ht (mp.moves.getD mp.movesPicked default) default
    rw [hgd] at hms
    rw [bucketRest, drop_eq_getD_cons mp.moves mp.movesPicked hp default]
    exact hms.symm

/-! Specification of the PH_GOOD_CAPTURES drain: one call either reports the
bucket empty of acceptable moves (and fully drained), or removes from the live
bucket one acceptable move of maximal score together with a skipped multiset
of unacceptable moves. -/

theorem pickLoopGoodCaptures_spec (mp : MovePicker)
    (hsc : ∀ sm ∈ bucketRest mp, -10000000 < sm.score)
    (hnz : ∀ sm ∈ bucketRest mp, sm.move ≠ MOVE_NONE) :
    ∃ m mp2, pickLoopGoodCaptures mp = some (m, mp2) ∧
      sameConfig mp mp2 ∧ mp2.badCaptures = mp.badCaptures ∧
      mp2.badCapturesPicked = mp.badCapturesPicked ∧
      ((m = MOVE_NONE ∧ bucketRest mp2 = [] ∧
          ∀ sm ∈ bucketRest mp, passMain mp sm.move = false)
        ∨ (m ≠ MOVE_NONE ∧ passMain mp m = true ∧
            ∃ (sm : ScoredMove) (skipped : Multiset ScoredMove), sm.move = m ∧
              (↑(bucketRest mp) : Multiset ScoredMove) = skipped + (sm ::ₘ ↑(bucketRest mp2)) ∧
              (∀ x ∈ skipped, passMain mp x.move = false) ∧
              (∀ x ∈ bucketRest mp, passMain mp x.move = true → x.score ≤ sm.score))) := by
  revert hsc hnz
  induction mp using pickLoopGoodCaptures.induct with
  | case1 mp h bi hbi =>
    intro hsc hnz
    exfalso
    obtain ⟨k, hk1, hk2, hk3, _⟩ := findBestIndex_spec mp.moves mp.movesPicked h
      (fun j hj1 hj2 => hsc _ ((mem_drop_iff_getD mp.moves mp.movesPicked default _).mpr
        ⟨j, hj1, hj2, rfl⟩))
    have hbi2 : findBestIndex mp.moves mp.movesPicked = -1 := hbi
    rw [hk3] at hbi2
    omega
  | case2 mp h bi hbi r hpass =>
    intro hsc hnz
    obtain ⟨k, hk1, hk2, hk3, hmax⟩ := findBestIndex_spec mp.moves mp.movesPicked h
      (fun j hj1 hj2 => hsc _ ((mem_drop_iff_getD mp.moves mp.movesPicked default _).mpr
        ⟨j, hj1, hj2, rfl⟩))
    have hbik : bi = (k : Int) := hk3
    have hbt : bi.toNat = k := by rw [hbik]; simp
    have hres : pickLoopGoodCaptures mp = some r := by
      rw [pickLoopGoodCaptures]
      rw [dif_pos h, if_neg hbi, if_pos hpass]
    obtain ⟨hcfg, hbad, hbadp, _, _⟩ := pickAt_frame mp bi.toNat
    obtain ⟨hmv, hlive⟩ := pickAt_live mp bi.toNat (by omega) (by omega)
    refine ⟨r.1, r.2, hres, hcfg, hbad, hbadp, Or.inr ⟨?_, ?_, ?_⟩⟩
    · have hmem : mp.moves.getD k default ∈ bucketRest mp :=
        (mem_drop_iff_getD mp.moves mp.movesPicked default _).mpr ⟨k, hk1, hk2, rfl⟩
      rw [hmv, hbt]
      exact hnz _ hmem
    · exact (passMain_true_iff mp r.1).mpr hpass
    · refine ⟨mp.moves.getD k default, 0, ?_, ?_, ?_, ?_⟩
      · rw [← hbt, ← hmv]
      · rw [zero_add, ← hbt]
        exact hlive
      · intro x hx
        simp at hx
      · intro x hx hpx
        obtain ⟨j, hj1, hj2, hj3⟩ := (mem_drop_iff_getD mp.moves mp.movesPicked default x).mp hx
        rw [← hj3]
        exact hmax j hj1 hj2
  | case3 mp h bi hbi r hpass ih =>
    intro hsc hnz
    obtain ⟨k, hk1, hk2, hk3, hmax⟩ := findBestIndex_spec mp.moves mp.movesPicked h
      (fun j hj1 hj2 => hsc _ ((mem_drop_iff_getD mp.moves mp.movesPicked default _).mpr
        ⟨j, hj1, hj2, rfl⟩))
    have hbik : bi = (k : Int) := hk3
    have hbt : bi.toNat = k := by rw [hbik]; simp
    obtain ⟨hcfg1, hbad1, hbadp1, _, _⟩ := pickAt_frame mp bi.toNat
    obtain ⟨hmv, hlive⟩ := pickAt_live mp bi.toNat (by omega) (by omega)
    have hsub : ∀ x ∈ bucketRest r.2, x ∈ bucketRest mp := by
      intro x hx
      have : x ∈ (↑(bucketRest mp) : Multiset ScoredMove) := by
        rw [hlive]
        exact Multiset.mem_cons_of_mem (by exact_mod_cast hx)
      exact_mod_cast this
    obtain ⟨m2, mp2, hres2, hcfg2, hbad2, hbadp2, hcase⟩ :=
      ih (fun sm hsm => hsc sm (hsub sm hsm)) (fun sm hsm => hnz sm (hsub sm hsm))
    have hres : pickLoopGoodCaptures mp = some (m2, mp2) := by
      rw [pickLoopGoodCaptures]
      rw [dif_pos h, if_neg hbi, if_neg hpass]
      exact hres2
    have hchosen_fail : passMain mp r.1 = false := by
      rw [passMain]
      rcases not_and_or.mp hpass with h1 | h23
      · simp at h1
        simp [h1]
      · rcases not_and_or.mp h23 with h2 | h3
        · simp at h2
          simp [h2]
        · simp at h3
          simp [h3]
    have hpcongr : passMain r.2 = passMain mp := passMain_congr hcfg1
    refine ⟨m2, mp2, hres, sameConfig_trans hcfg1 hcfg2, hbad2.trans hbad1,
      hbadp2.trans hbadp1, ?_⟩
    rcases hcase with ⟨hm, hdr, hall⟩ | ⟨hm, hpm, sm, skipped, hsm, hms, hskip, hmax2⟩
    · refine Or.inl ⟨hm, hdr, ?_⟩
      intro x hx
      have hx2 : x ∈ (↑(bucketRest mp) : Multiset ScoredMove) := by exact_mod_cast hx
      rw [hlive] at hx2
      rcases Multiset.mem_cons.mp hx2 with rfl | hx3
      · rw [← hmv]
        exact hchosen_fail
      · have := hall x (by exact_mod_cast hx3)
        rw [hpcongr] at this
        exact this
    · refine Or.inr ⟨hm, by rw [← hpcongr]; exact hpm, sm,
        mp.moves.getD bi.toNat default ::ₘ skipped, hsm, ?_, ?_, ?_⟩
      · rw [hlive]
        have : (↑(bucketRest r.2) : Multiset ScoredMove) = skipped + (sm ::ₘ ↑(bucketRest mp2)) :=
          hms
        rw [this]
        simp [Multiset.cons_add]
      · intro x hx
        rcases Multiset.mem_cons.mp hx with rfl | hx2
        · rw [← hmv]
          exact hchosen_fail
        · have := hskip x hx2
          rw [hpcongr] at this
          exact this
      · intro x hx hpx
        have hx2 : x ∈ (↑(bucketRest mp) : Multiset ScoredMove) := by exact_mod_cast hx
        rw [hlive] at hx2
        rcases Multiset.mem_cons.mp hx2 with rfl | hx3
        · exfalso
          rw [← hmv, hchosen_fail] at hpx
          simp at hpx
        · have := hmax2 x (by exact_mod_cast hx3)
          rw [hpcongr] at this
          exact this hpx
  | case4 mp h =>
    intro hsc hnz
    refine ⟨MOVE_NONE, mp, ?_, sameConfig_refl mp, rfl, rfl, Or.inl ⟨rfl, ?_, ?_⟩⟩
    · rw [pickLoopGoodCaptures, dif_neg h]
    · rw [bucketRest, List.drop_eq_nil_of_le (Nat.le_of_not_lt h)]
    · intro sm hsm
      rw [bucketRest, List.drop_eq_nil_of_le (Nat.le_of_not_lt h)] at hsm
      simp at hsm

/-! Specification of the PH_NONCAPTURES drain: same acceptance filter as the
good-capture drain; the selection heuristic (best-score scan or front slot)
only affects the order, so one call removes one acceptable move plus a skipped
multiset of unacceptable ones. -/

theorem pickLoopNoncaptures_spec (mp : MovePicker)
    (hsc : ∀ sm ∈ bucketRest mp, -10000000 < sm.score)
    (hnz : ∀ sm ∈ bucketRest mp, sm.move ≠ MOVE_NONE) :
    ∃ m mp2, pickLoopNoncaptures mp = some (m, mp2) ∧
      sameConfig mp mp2 ∧ mp2.badCaptures = mp.badCaptures ∧
      mp2.badCapturesPicked = mp.badCapturesPicked ∧
      ((m = MOVE_NONE ∧ bucketRest mp2 = [] ∧
          ∀ sm ∈ bucketRest mp, passMain mp sm.move = false)
        ∨ (m ≠ MOVE_NONE ∧ passMain mp m = true ∧
            ∃ (sm : ScoredMove) (skipped : Multiset ScoredMove), sm.move = m ∧
              (↑(bucketRest mp) : Multiset ScoredMove) = skipped + (sm ::ₘ ↑(bucketRest mp2)) ∧
              (∀ x ∈ skipped, passMain mp x.move = false))) := by
  revert hsc hnz
  induction mp using pickLoopNoncaptures.induct with
  | case1 mp h bi hbi =>
    intro hsc hnz
    exfalso
    have hbieq : bi = (if mp.pvNode = true ∨ mp.movesPicked < 12
        then findBestIndex mp.moves mp.movesPicked else (mp.movesPicked : Int)) := rfl
    by_cases hc : mp.pvNode = true ∨ mp.movesPicked < 12
    · obtain ⟨k, hk1, hk2, hk3, _⟩ := findBestIndex_spec mp.moves mp.movesPicked h
        (fun j hj1 hj2 => hsc _ ((mem_drop_iff_getD mp.moves mp.movesPicked default _).mpr
          ⟨j, hj1, hj2, rfl⟩))
      rw [hbieq, if_pos hc, hk3] at hbi
      omega
    · rw [hbieq, if_neg hc] at hbi
      omega
  | case2 mp h bi hbi r hpass =>
    intro hsc hnz
    have hbieq : bi = (if mp.pvNode = true ∨ mp.movesPicked < 12
        then findBestIndex mp.moves mp.movesPicked else (mp.movesPicked : Int)) := rfl
    have hk : ∃ k, mp.movesPicked ≤ k ∧ k < mp.moves.length ∧ bi = (k : Int) := by
      by_cases hc : mp.pvNode = true ∨ mp.movesPicked < 12
      · obtain ⟨k, hk1, hk2, hk3, _⟩ := findBestIndex_spec mp.moves mp.movesPicked h
          (fun j hj1 hj2 => hsc _ ((mem_drop_iff_getD mp.moves mp.movesPicked default _).mpr
            ⟨j, hj1, hj2, rfl⟩))
        exact ⟨k, hk1, hk2, by rw [hbieq, if_pos hc, hk3]⟩
      · exact ⟨mp.movesPicked, le_refl _, h, by rw [hbieq, if_neg hc]⟩
    obtain ⟨k, hk1, hk2, hk3⟩ := hk
    have hbt : bi.toNat = k := by rw [hk3]; simp
    have hbi2 : ¬(if mp.pvNode = true ∨ mp.movesPicked < 12 then
        findBestIndex mp.moves mp.movesPicked else (mp.movesPicked : Int)) = -1 := hbi
    have hres : pickLoopNoncaptures mp = some r := by
      rw [pickLoopNoncaptures, dif_pos h]
      simp only [if_neg hbi2]
      exact if_pos hpass
    obtain ⟨hcfg, hbad, hbadp, _, _⟩ := pickAt_frame mp bi.toNat
    obtain ⟨hmv, hlive⟩ := pickAt_live mp bi.toNat (by omega) (by omega)
    refine ⟨r.1, r.2, hres, hcfg, hbad, hbadp, Or.inr ⟨?_, ?_, ?_⟩⟩
    · have hmem : mp.moves.getD k default ∈ bucketRest mp :=
        (mem_drop_iff_getD mp.moves mp.movesPicked default _).mpr ⟨k, hk1, hk2, rfl⟩
      rw [hmv, hbt]
      exact hnz _ hmem
    · exact (passMain_true_iff mp r.1).mpr hpass
    · refine ⟨mp.moves.getD k default, 0, ?_, ?_, ?_⟩
      · rw [← hbt, ← hmv]
      · rw [zero_add, ← hbt]
        exact hlive
      · intro x hx
        simp at hx
  | case3 mp h bi hbi r hpass ih =>
    intro hsc hnz
    have hbieq : bi = (if mp.pvNode = true ∨ mp.movesPicked < 12
        then findBestIndex mp.moves mp.movesPicked else (mp.movesPicked : Int)) := rfl
    have hk : ∃ k, mp.movesPicked ≤ k ∧ k < mp.moves.length ∧ bi = (k : Int) := by
      by_cases hc : mp.pvNode = true ∨ mp.movesPicked < 12
      · obtain ⟨k, hk1, hk2, hk3, _⟩ := findBestIndex_spec mp.moves mp.movesPicked h
          (fun j hj1 hj2 => hsc _ ((mem_drop_iff_getD mp.moves mp.movesPicked default _).mpr
            ⟨j, hj1, hj2, rfl⟩))
        exact ⟨k, hk1, hk2, by rw [hbieq, if_pos hc, hk3]⟩
      · exact ⟨mp.movesPicked, le_refl _, h, by rw [hbieq, if_neg hc]⟩
    obtain ⟨k, hk1, hk2, hk3⟩ := hk
    have hbt : bi.toNat = k := by rw [hk3]; simp
    obtain ⟨hcfg1, hbad1, hbadp1, _, _⟩ := pickAt_frame mp bi.toNat
    obtain ⟨hmv, hlive⟩ := pickAt_live mp bi.toNat (by omega) (by omega)
    have hsub : ∀ x ∈ bucketRest r.2, x ∈ bucketRest mp := by
      intro x hx
      have : x ∈ (↑(bucketRest mp) : Multiset ScoredMove) := by
        rw [hlive]
        exact Multiset.mem_cons_of_mem (by exact_mod_cast hx)
      exact_mod_cast this
    obtain ⟨m2, mp2, hres2, hcfg2, hbad2, hbadp2, hcase⟩ :=
      ih (fun sm hsm => hsc sm (hsub sm hsm)) (fun sm hsm => hnz sm (hsub sm hsm))
    have hbi2 : ¬(if mp.pvNode = true ∨ mp.movesPicked < 12 then
        findBestIndex mp.moves mp.movesPicked else (mp.movesPicked : Int)) = -1 := hbi
    have hres : pickLoopNoncaptures mp = some (m2, mp2) := by
      rw [pickLoopNoncaptures, dif_pos h]
      simp only [if_neg hbi2]
      exact (if_neg hpass).trans hres2
    have hchosen_fail : passMain mp r.1 = false := by
      rw [passMain]
      rcases not_and_or.mp hpass with h1 | h23
      · simp at h1
        simp [h1]
      · rcases not_and_or.mp h23 with h2 | h3
        · simp at h2
          simp [h2]
        · simp at h3
          simp [h3]
    have hpcongr : passMain r.2 = passMain mp := passMain_congr hcfg1
    refine ⟨m2, mp2, hres, sameConfig_trans hcfg1 hcfg2, hbad2.trans hbad1,
      hbadp2.trans hbadp1, ?_⟩
    rcases hcase with ⟨hm, hdr, hall⟩ | ⟨hm, hpm, sm, skipped, hsm, hms, hskip⟩
    · refine Or.inl ⟨hm, hdr, ?_⟩
      intro x hx
      have hx2 : x ∈ (↑(bucketRest mp) : Multiset ScoredMove) := by exact_mod_cast hx
      rw [hlive] at hx2
      rcases Multiset.mem_cons.mp hx2 with rfl | hx3
      · rw [← hmv]
        exact hchosen_fail
      · have := hall x (by exact_mod_cast hx3)
        rw [hpcongr] at this
        exact this
    · refine Or.inr ⟨hm, by rw [← hpcongr]; exact hpm, sm,
        mp.moves.getD bi.toNat default ::ₘ skipped, hsm, ?_, ?_⟩
      · rw [hlive]
        have : (↑(bucketRest r.2) : Multiset ScoredMove) = skipped + (sm ::ₘ ↑(bucketRest mp2)) :=
          hms
        rw [this]
        simp [Multiset.cons_add]
      · intro x hx
        rcases Multiset.mem_cons.mp hx with rfl | hx2
        · rw [← hmv]
          exact hchosen_fail
        · have := hskip x hx2
          rw [hpcongr] at this
          exact this
  | case4 mp h =>
    intro hsc hnz
    refine ⟨MOVE_NONE, mp, ?_, sameConfig_refl mp, rfl, rfl, Or.inl ⟨rfl, ?_, ?_⟩⟩
    · rw [pickLoopNoncaptures, dif_neg h]
    · rw [bucketRest, List.drop_eq_nil_of_le (Nat.le_of_not_lt h)]
    · intro sm hsm
      rw [bucketRest, List.drop_eq_nil_of_le (Nat.le_of_not_lt h)] at hsm
      simp at hsm

/-! Specification of the PH_EVASIONS drain: best-score pick with no filter at
all, so every element of the live bucket is eventually emitted. -/

theorem pickLoopEvasions_spec (mp : MovePicker)
    (hsc : ∀ sm ∈ bucketRest mp, -10000000 < sm.score)
    (hnz : ∀ sm ∈ bucketRest mp, sm.move ≠ MOVE_NONE) :
    ∃ m mp2, pickLoopEvasions mp = some (m, mp2) ∧
      sameConfig mp mp2 ∧ mp2.badCaptures = mp.badCaptures ∧
      mp2.badCapturesPicked = mp.badCapturesPicked ∧
      ((m = MOVE_NONE ∧ mp2 = mp ∧ bucketRest mp = [])
        ∨ (m ≠ MOVE_NONE ∧ ∃ sm : ScoredMove, sm.move = m ∧
            (↑(bucketRest mp) : Multiset ScoredMove) = sm ::ₘ ↑(bucketRest mp2) ∧
            ∀ x ∈ bucketRest mp, x.score ≤ sm.score)) := by
  by_cases h : mp.movesPicked < mp.moves.length
  · obtain ⟨k, hk1, hk2, hk3, hmax⟩ := findBestIndex_spec mp.moves mp.movesPicked h
      (fun j hj1 hj2 => hsc _ ((mem_drop_iff_getD mp.moves mp.movesPicked default _).mpr
        ⟨j, hj1, hj2, rfl⟩))
    have hne : ¬findBestIndex mp.moves mp.movesPicked = -1 := by rw [hk3]; omega
    have hres : pickLoopEvasions mp = some (pickAt mp (findBestIndex mp.moves mp.movesPicked).toNat) := by
      rw [pickLoopEvasions, dif_pos h]
      exact if_neg hne
    have hbt : (findBestIndex mp.moves mp.movesPicked).toNat = k := by rw [hk3]; simp
    obtain ⟨hcfg, hbad, hbadp, _, _⟩ := pickAt_frame mp (findBestIndex mp.moves mp.movesPicked).toNat
    obtain ⟨hmv, hlive⟩ := pickAt_live mp (findBestIndex mp.moves mp.movesPicked).toNat
      (by omega) (by omega)
    have hnz2 : (pickAt mp (findBestIndex mp.moves mp.movesPicked).toNat).1 ≠ MOVE_NONE := by
      have hmem : mp.moves.getD k default ∈ bucketRest mp :=
        (mem_drop_iff_getD mp.moves mp.movesPicked default _).mpr ⟨k, hk1, hk2, rfl⟩
      rw [hmv, hbt]
      exact hnz _ hmem
    refine ⟨_, _, hres, hcfg, hbad, hbadp, Or.inr ⟨hnz2, mp.moves.getD k default, ?_, ?_, ?_⟩⟩
    · rw [hbt]
    · rw [← hbt]
      exact hlive
    · intro x hx
      obtain ⟨j, hj1, hj2, hj3⟩ := (mem_drop_iff_getD mp.moves mp.movesPicked default x).mp hx
      rw [← hj3]
      exact hmax j hj1 hj2
  · refine ⟨MOVE_NONE, mp, ?_, sameConfig_refl mp, rfl, rfl, Or.inl ⟨rfl, rfl, ?_⟩⟩
    · rw [pickLoopEvasions, dif_neg h]
    · rw [bucketRest, List.drop_eq_nil_of_le (Nat.le_of_not_lt h)]

/-! Specification of the PH_BAD_CAPTURES drain: front-of-list scan in insertion
order with the same acceptance filter as the other main-search drains. -/

theorem pickLoopBadCaptures_spec (mp : MovePicker)
    (hnz : ∀ sm ∈ badRest mp, sm.move ≠ MOVE_NONE) :
    ∃ m mp2, pickLoopBadCaptures mp = some (m, mp2) ∧
      sameConfig mp mp2 ∧ mp2.moves = mp.moves ∧ mp2.movesPicked = mp.movesPicked ∧
      mp2.badCaptures = mp.badCaptures ∧
      ((m = MOVE_NONE ∧ badRest mp2 = [] ∧ ∀ sm ∈ badRest mp, passMain mp sm.move = false)
        ∨ (m ≠ MOVE_NONE ∧ passMain mp m = true ∧
            ∃ (pre : List ScoredMove) (sm : ScoredMove),
              badRest mp = pre ++ sm :: badRest mp2 ∧ sm.move = m ∧
              ∀ x ∈ pre, passMain mp x.move = false)) := by
  revert hnz
  induction mp using pickLoopBadCaptures.induct with
  | case1 mp h move hpass =>
    intro hnz
    have hres : pickLoopBadCaptures mp = some (move,
        { mp with badCapturesPicked := mp.badCapturesPicked + 1 }) := by
      rw [pickLoopBadCaptures, dif_pos h]
      exact if_pos hpass
    have hcons : badRest mp = mp.badCaptures.getD mp.badCapturesPicked default
        :: badRest { mp with badCapturesPicked := mp.badCapturesPicked + 1 } :=
      drop_eq_getD_cons mp.badCaptures mp.badCapturesPicked h default
    refine ⟨move, { mp with badCapturesPicked := mp.badCapturesPicked + 1 }, hres,
      ⟨rfl, rfl, rfl, rfl, rfl, rfl, rfl, rfl, rfl⟩, rfl, rfl, rfl,
      Or.inr ⟨?_, (passMain_true_iff mp move).mpr hpass, [],
        mp.badCaptures.getD mp.badCapturesPicked default, by simpa using hcons, rfl, ?_⟩⟩
    · exact hnz _ (by rw [hcons]; exact List.mem_cons_self _ _)
    · intro x hx
      simp at hx
  | case2 mp h move mp1 hpass ih =>
    intro hnz
    have hcons : badRest mp = mp.badCaptures.getD mp.badCapturesPicked default :: badRest mp1 :=
      drop_eq_getD_cons mp.badCaptures mp.badCapturesPicked h default
    obtain ⟨m2, mp2, hres2, hcfg2, hmv2, hmvp2, hbad2, hcase⟩ :=
      ih (fun sm hsm => hnz sm (by rw [hcons]; exact List.mem_cons_of_mem _ hsm))
    have hres : pickLoopBadCaptures mp = some (m2, mp2) := by
      rw [pickLoopBadCaptures, dif_pos h]
      exact (if_neg hpass).trans hres2
    have hchosen_fail : passMain mp move = false := by
      rw [passMain]
      rcases not_and_or.mp hpass with h1 | h23
      · simp at h1
        simp [h1]
      · rcases not_and_or.mp h23 with h2 | h3
        · simp at h2
          simp [h2]
        · simp at h3
          simp [h3]
    have hpcongr : passMain mp1 = passMain mp := rfl
    refine ⟨m2, mp2, hres, hcfg2, hmv2, hmvp2, hbad2, ?_⟩
    rcases hcase with ⟨hm, hdr, hall⟩ | ⟨hm, hpm, pre, sm, hsplit, hsm, hpre⟩
    · refine Or.inl ⟨hm, hdr, ?_⟩
      intro x hx
      rw [hcons] at hx
      rcases List.mem_cons.mp hx with rfl | hx2
      · exact hchosen_fail
      · exact hall x hx2
    · refine Or.inr ⟨hm, hpm, mp.badCaptures.getD mp.badCapturesPicked default :: pre, sm, ?_, hsm, ?_⟩
      · rw [hcons, hsplit]
        rfl
      · intro x hx
        rcases List.mem_cons.mp hx with rfl | hx2
        · exact hchosen_fail
        · exact hpre x hx2
  | case3 mp h =>
    intro hnz
    refine ⟨MOVE_NONE, mp, ?_, sameConfig_refl mp, rfl, rfl, rfl, Or.inl ⟨rfl, ?_, ?_⟩⟩
    · rw [pickLoopBadCaptures, dif_neg h]
    · rw [badRest, List.drop_eq_nil_of_le (Nat.le_of_not_lt h)]
    · intro sm hsm
      rw [badRest, List.drop_eq_nil_of_le (Nat.le_of_not_lt h)] at hsm
      simp at hsm

/-! Specification of the PH_QCHECKS drain: generator order, legality as the
only filter (in particular the tt move is not skipped). -/

theorem pickLoopQChecks_spec (mp : MovePicker)
    (hnz : ∀ sm ∈ bucketRest mp, sm.move ≠ MOVE_NONE) :
    ∃ m mp2, pickLoopQChecks mp = some (m, mp2) ∧
      sameConfig mp mp2 ∧ mp2.moves = mp.moves ∧ mp2.badCaptures = mp.badCaptures ∧
      mp2.badCapturesPicked = mp.badCapturesPicked ∧
      ((m = MOVE_NONE ∧ bucketRest mp2 = [] ∧
          ∀ sm ∈ bucketRest mp, mp.pos.plMoveIsLegal sm.move = false)
        ∨ (m ≠ MOVE_NONE ∧ mp.pos.plMoveIsLegal m = true ∧
            ∃ (pre : List ScoredMove) (sm : ScoredMove),
              bucketRest mp = pre ++ sm :: bucketRest mp2 ∧ sm.move = m ∧
              ∀ x ∈ pre, mp.pos.plMoveIsLegal x.move = false)) := by
  revert hnz
  induction mp using pickLoopQChecks.induct with
  | case1 mp h move hpass =>
    intro hnz
    have hres : pickLoopQChecks mp = some (move,
        { mp with movesPicked := mp.movesPicked + 1 }) := by
      rw [pickLoopQChecks, dif_pos h]
      exact if_pos hpass
    have hcons : bucketRest mp = mp.moves.getD mp.movesPicked default
        :: bucketRest { mp with movesPicked := mp.movesPicked + 1 } :=
      drop_eq_getD_cons mp.moves mp.movesPicked h default
    refine ⟨move, { mp with movesPicked := mp.movesPicked + 1 }, hres,
      ⟨rfl, rfl, rfl, rfl, rfl, rfl, rfl, rfl, rfl⟩, rfl, rfl, rfl,
      Or.inr ⟨?_, hpass, [], mp.moves.getD mp.movesPicked default, by simpa using hcons, rfl, ?_⟩⟩
    · exact hnz _ (by rw [hcons]; exact List.mem_cons_self _ _)
    · intro x hx
      simp at hx
  | case2 mp h move mp1 hpass ih =>
    intro hnz
    have hcons : bucketRest mp = mp.moves.getD mp.movesPicked default :: bucketRest mp1 :=
      drop_eq_getD_cons mp.moves mp.movesPicked h default
    obtain ⟨m2, mp2, hres2, hcfg2, hmv2, hbad2, hbadp2, hcase⟩ :=
      ih (fun sm hsm => hnz sm (by rw [hcons]; exact List.mem_cons_of_mem _ hsm))
    have hres : pickLoopQChecks mp = some (m2, mp2) := by
      rw [pickLoopQChecks, dif_pos h]
      exact (if_neg hpass).trans hres2
    have hchosen_fail : mp.pos.plMoveIsLegal move = false := by
      simpa using hpass
    refine ⟨m2, mp2, hres, hcfg2, hmv2.trans rfl, hbad2, hbadp2, ?_⟩
    rcases hcase with ⟨hm, hdr, hall⟩ | ⟨hm, hpm, pre, sm, hsplit, hsm, hpre⟩
    · refine Or.inl ⟨hm, hdr, ?_⟩
      intro x hx
      rw [hcons] at hx
      rcases List.mem_cons.mp hx with rfl | hx2
      · exact hchosen_fail
      · exact hall x hx2
    · refine Or.inr ⟨hm, hpm, mp.moves.getD mp.movesPicked default :: pre, sm, ?_, hsm, ?_⟩
      · rw [hcons, hsplit]
        rfl
      · intro x hx
        rcases List.mem_cons.mp hx with rfl | hx2
        · exact hchosen_fail
        · exact hpre x hx2
  | case3 mp h =>
    intro hnz
    refine ⟨MOVE_NONE, mp, ?_, sameConfig_refl mp, rfl, rfl, rfl, Or.inl ⟨rfl, ?_, ?_⟩⟩
    · rw [pickLoopQChecks, dif_neg h]
    · rw [bucketRest, List.drop_eq_nil_of_le (Nat.le_of_not_lt h)]
    · intro sm hsm
      rw [bucketRest, List.drop_eq_nil_of_le (Nat.le_of_not_lt h)] at hsm
      simp at hsm

/-! Specification of the PH_QCAPTURES drain: legality is the only filter; the
selection is a best-score scan for the first four picks and the front slot
afterwards, which the last two clauses of the emitted case record. -/

theorem pickLoopQCaptures_spec (mp : MovePicker)
    (hsc : ∀ sm ∈ bucketRest mp, -10000000 < sm.score)
    (hnz : ∀ sm ∈ bucketRest mp, sm.move ≠ MOVE_NONE) :
    ∃ m mp2, pickLoopQCaptures mp = some (m, mp2) ∧
      sameConfig mp mp2 ∧ mp2.badCaptures = mp.badCaptures ∧
      mp2.badCapturesPicked = mp.badCapturesPicked ∧
      ((m = MOVE_NONE ∧ bucketRest mp2 = [] ∧
          ∀ sm ∈ bucketRest mp, mp.pos.plMoveIsLegal sm.move = false)
        ∨ (m ≠ MOVE_NONE ∧ mp.pos.plMoveIsLegal m = true ∧
            ∃ (sm : ScoredMove) (skipped : Multiset ScoredMove), sm.move = m ∧
              (↑(bucketRest mp) : Multiset ScoredMove) = skipped + (sm ::ₘ ↑(bucketRest mp2)) ∧
              (∀ x ∈ skipped, mp.pos.plMoveIsLegal x.move = false) ∧
              (mp.movesPicked < 4 → (∀ x ∈ bucketRest mp, mp.pos.plMoveIsLegal x.move = true) →
                ∀ x ∈ bucketRest mp, x.score ≤ sm.score) ∧
              (4 ≤ mp.movesPicked →
                ∃ pre, bucketRest mp = pre ++ sm :: bucketRest mp2 ∧
                  ∀ x ∈ pre, mp.pos.plMoveIsLegal x.move = false))) := by
  revert hsc hnz
  induction mp using pickLoopQCaptures.induct with
  | case1 mp h bi hbi =>
    intro hsc hnz
    exfalso
    have hbieq : bi = (if mp.movesPicked < 4
        then findBestIndex mp.moves mp.movesPicked else (mp.movesPicked : Int)) := rfl
    by_cases hc : mp.movesPicked < 4
    · obtain ⟨k, hk1, hk2, hk3, _⟩ := findBestIndex_spec mp.moves mp.movesPicked h
        (fun j hj1 hj2 => hsc _ ((mem_drop_iff_getD mp.moves mp.movesPicked default _).mpr
          ⟨j, hj1, hj2, rfl⟩))
      rw [hbieq, if_pos hc, hk3] at hbi
      omega
    · rw [hbieq, if_neg hc] at hbi
      omega
  | case2 mp h bi hbi r hpass =>
    intro hsc hnz
    have hbieq : bi = (if mp.movesPicked < 4
        then findBestIndex mp.moves mp.movesPicked else (mp.movesPicked : Int)) := rfl
    have hbi2 : ¬(if mp.movesPicked < 4
        then findBestIndex mp.moves mp.movesPicked else (mp.movesPicked : Int)) = -1 := hbi
    have hres : pickLoopQCaptures mp = some r := by
      rw [pickLoopQCaptures, dif_pos h]
      simp only [if_neg hbi2]
      exact if_pos hpass
    by_cases hc : mp.movesPicked < 4
    · obtain ⟨k, hk1, hk2, hk3, hmax⟩ := findBestIndex_spec mp.moves mp.movesPicked h
        (fun j hj1 hj2 => hsc _ ((mem_drop_iff_getD mp.moves mp.movesPicked default _).mpr
          ⟨j, hj1, hj2, rfl⟩))
      have hbik : bi = (k : Int) := by rw [hbieq, if_pos hc, hk3]
      have hbt : bi.toNat = k := by rw [hbik]; simp
      obtain ⟨hcfg, hbad, hbadp, _, _⟩ := pickAt_frame mp bi.toNat
      obtain ⟨hmv, hlive⟩ := pickAt_live mp bi.toNat (by omega) (by omega)
      refine ⟨r.1, r.2, hres, hcfg, hbad, hbadp, Or.inr ⟨?_, hpass, ?_⟩⟩
      · have hmem : mp.moves.getD k default ∈ bucketRest mp :=
          (mem_drop_iff_getD mp.moves mp.movesPicked default _).mpr ⟨k, hk1, hk2, rfl⟩
        rw [hmv, hbt]
        exact hnz _ hmem
      · refine ⟨mp.moves.getD k default, 0, ?_, ?_, ?_, ?_, ?_⟩
        · rw [← hbt, ← hmv]
        · rw [zero_add, ← hbt]
          exact hlive
        · intro x hx
          simp at hx
        · intro _ _ x hx
          obtain ⟨j, hj1, hj2, hj3⟩ := (mem_drop_iff_getD mp.moves mp.movesPicked default x).mp hx
          rw [← hj3]
          exact hmax j hj1 hj2
        · intro hc2
          omega
    · have hbik : bi = (mp.movesPicked : Int) := by rw [hbieq, if_neg hc]
      have hbt : bi.toNat = mp.movesPicked := by rw [hbik]; simp
      obtain ⟨hcfg, hbad, hbadp, _, _⟩ := pickAt_frame mp bi.toNat
      obtain ⟨hmv, hlive⟩ := pickAt_live mp bi.toNat (by omega) (by omega)
      have hcons : bucketRest mp = mp.moves.getD mp.movesPicked default :: bucketRest r.2 := by
        have h1 : bucketRest mp = mp.moves.getD mp.movesPicked default
            :: mp.moves.drop (mp.movesPicked + 1) :=
          drop_eq_getD_cons mp.moves mp.movesPicked h default
        have h2 : bucketRest r.2 = mp.moves.drop (mp.movesPicked + 1) := by
          show (mp.moves.set bi.toNat (mp.moves.getD mp.movesPicked default)).drop
            (mp.movesPicked + 1) = mp.moves.drop (mp.movesPicked + 1)
          rw [List.drop_set, if_pos (by omega)]
        rw [h1, h2]
      refine ⟨r.1, r.2, hres, hcfg, hbad, hbadp, Or.inr ⟨?_, hpass, ?_⟩⟩
      · have hmem : mp.moves.getD mp.movesPicked default ∈ bucketRest mp := by
          rw [hcons]
          exact List.mem_cons_self _ _
        rw [hmv, hbt]
        exact hnz _ hmem
      · refine ⟨mp.moves.getD mp.movesPicked default, 0, ?_, ?_, ?_, ?_, ?_⟩
        · rw [← hbt, ← hmv]
        · rw [zero_add, hcons]
          rfl
        · intro x hx
          simp at hx
        · intro hc2
          exact absurd hc2 hc
        · intro _
          exact ⟨[], by simpa using hcons, fun x hx => by simp at hx⟩
  | case3 mp h bi hbi r hpass ih =>
    intro hsc hnz
    have hbieq : bi = (if mp.movesPicked < 4
        then findBestIndex mp.moves mp.movesPicked else (mp.movesPicked : Int)) := rfl
    have hbi2 : ¬(if mp.movesPicked < 4
        then findBestIndex mp.moves mp.movesPicked else (mp.movesPicked : Int)) = -1 := hbi
    have hk : ∃ k, mp.movesPicked ≤ k ∧ k < mp.moves.length ∧ bi = (k : Int) ∧
        (¬mp.movesPicked < 4 → k = mp.movesPicked) := by
      by_cases hc : mp.movesPicked < 4
      · obtain ⟨k, hk1, hk2, hk3, _⟩ := findBestIndex_spec mp.moves mp.movesPicked h
          (fun j hj1 hj2 => hsc _ ((mem_drop_iff_getD mp.moves mp.movesPicked default _).mpr
            ⟨j, hj1, hj2, rfl⟩))
        exact ⟨k, hk1, hk2, by rw [hbieq, if_pos hc, hk3], fun hc2 => absurd hc hc2⟩
      · exact ⟨mp.movesPicked, le_refl _, h, by rw [hbieq, if_neg hc], fun _ => rfl⟩
    obtain ⟨k, hk1, hk2, hk3, hkfront⟩ := hk
    have hbt : bi.toNat = k := by rw [hk3]; simp
    obtain ⟨hcfg1, hbad1, hbadp1, hmvp1, _⟩ := pickAt_frame mp bi.toNat
    obtain ⟨hmv, hlive⟩ := pickAt_live mp bi.toNat (by omega) (by omega)
    have hsub : ∀ x ∈ bucketRest r.2, x ∈ bucketRest mp := by
      intro x hx
      have : x ∈ (↑(bucketRest mp) : Multiset ScoredMove) := by
        rw [hlive]
        exact Multiset.mem_cons_of_mem (by exact_mod_cast hx)
      exact_mod_cast this
    obtain ⟨m2, mp2, hres2, hcfg2, hbad2, hbadp2, hcase⟩ :=
      ih (fun sm hsm => hsc sm (hsub sm hsm)) (fun sm hsm => hnz sm (hsub sm hsm))
    have hres : pickLoopQCaptures mp = some (m2, mp2) := by
      rw [pickLoopQCaptures, dif_pos h]
      simp only [if_neg hbi2]
      exact (if_neg hpass).trans hres2
    have hchosen_fail : mp.pos.plMoveIsLegal r.1 = false := by
      simpa using hpass
    have hposeq : r.2.pos = mp.pos := hcfg1.1
    refine ⟨m2, mp2, hres, sameConfig_trans hcfg1 hcfg2, hbad2.trans hbad1,
      hbadp2.trans hbadp1, ?_⟩
    rcases hcase with ⟨hm, hdr, hall⟩ | ⟨hm, hpm, sm, skipped, hsm, hms, hskip, hlt4, hge4⟩
    · refine Or.inl ⟨hm, hdr, ?_⟩
      intro x hx
      have hx2 : x ∈ (↑(bucketRest mp) : Multiset ScoredMove) := by exact_mod_cast hx
      rw [hlive] at hx2
      rcases Multiset.mem_cons.mp hx2 with rfl | hx3
      · rw [← hmv]
        exact hchosen_fail
      · have := hall x (by exact_mod_cast hx3)
        rw [hposeq] at this
        exact this
    · rw [hposeq] at hpm hskip
      refine Or.inr ⟨hm, hpm, sm, mp.moves.getD bi.toNat default ::ₘ skipped, hsm, ?_, ?_, ?_, ?_⟩
      · rw [hlive]
        have : (↑(bucketRest r.2) : Multiset ScoredMove) = skipped + (sm ::ₘ ↑(bucketRest mp2)) :=
          hms
        rw [this]
        simp [Multiset.cons_add]
      · intro x hx
        rcases Multiset.mem_cons.mp hx with rfl | hx2
        · rw [← hmv]
          exact hchosen_fail
        · exact hskip x hx2
      · intro hc4 hall
        exfalso
        have hmem : mp.moves.getD k default ∈ bucketRest mp :=
          (mem_drop_iff_getD mp.moves mp.movesPicked default _).mpr ⟨k, hk1, hk2, rfl⟩
        have hleg := hall _ hmem
        rw [hmv, hbt] at hchosen_fail
        rw [hleg] at hchosen_fail
        simp at hchosen_fail
      · intro hc4
        have hkb : k = mp.movesPicked := hkfront (by omega)
        have hcons : bucketRest mp = mp.moves.getD mp.movesPicked default :: bucketRest r.2 := by
          have h1 : bucketRest mp = mp.moves.getD mp.movesPicked default
              :: mp.moves.drop (mp.movesPicked + 1) :=
            drop_eq_getD_cons mp.moves mp.movesPicked h default
          have h2 : bucketRest r.2 = mp.moves.drop (mp.movesPicked + 1) := by
            show (mp.moves.set bi.toNat (mp.moves.getD mp.movesPicked default)).drop
              (mp.movesPicked + 1) = mp.moves.drop (mp.movesPicked + 1)
            rw [hbt, hkb, List.drop_set, if_pos (by omega)]
          rw [h1, h2]
        obtain ⟨pre, hpre1, hpre2⟩ := hge4 (by rw [hmvp1]; omega)
        refine ⟨mp.moves.getD mp.movesPicked default :: pre, ?_, ?_⟩
        · rw [hcons, hpre1]
          rfl
        · intro x hx
          rcases List.mem_cons.mp hx with rfl | hx2
          · rw [hmv, hbt, hkb] at hchosen_fail
            exact hchosen_fail
          · have := hpre2 x hx2
            rw [hposeq] at this
            exact this
  | case4 mp h =>
    intro hsc hnz
    refine ⟨MOVE_NONE, mp, ?_, sameConfig_refl mp, rfl, rfl, Or.inl ⟨rfl, ?_, ?_⟩⟩
    · rw [pickLoopQCaptures, dif_neg h]
    · rw [bucketRest, List.drop_eq_nil_of_le (Nat.le_of_not_lt h)]
    · intro sm hsm
      rw [bucketRest, List.drop_eq_nil_of_le (Nat.le_of_not_lt h)] at hsm
      simp at hsm

/-! Lemmas about the compaction idiom of score_captures. -/

theorem set_getElem_self (l : List α) (i : Nat) (v : α) (hv : l[i]? = some v) :
    l.set i v = l := by
  apply List.ext_getElem (by simp)
  intro n h1 h2
  rw [List.getElem_set]
  split
  · rename_i he
    subst he
    rw [List.getElem?_eq_getElem h2] at hv
    exact (Option.some_inj.mp hv).symm
  · rfl

theorem dropLast_set_comm (l : List α) (i : Nat) (v : α) :
    (l.set i v).dropLast = l.dropLast.set i v := by
  rw [List.dropLast_eq_take, List.dropLast_eq_take, List.length_set, List.set_take]

theorem compact_multiset (l : List α) (i : Nat) (hi : i < l.length) (d : α) :
    l.getD i d ::ₘ (↑((l.set i (l.getD (l.length - 1) d)).dropLast) : Multiset α) = ↑l := by
  have hne : l ≠ [] := List.ne_nil_of_length_pos (Nat.lt_of_le_of_lt (Nat.zero_le i) hi)
  have hb : l.length - 1 < l.length := by omega
  have hlast : l.getD (l.length - 1) d = l.getLast hne := by
    rw [List.getLast_eq_getElem]
    simp [List.getD_eq_getElem?_getD, List.getElem?_eq_getElem hb]
  have hl : (↑l : Multiset α) = l.getLast hne ::ₘ ↑l.dropLast := by
    conv_lhs => rw [← List.dropLast_concat_getLast hne]
    rw [Multiset.cons_coe]
    exact Multiset.coe_eq_coe.mpr (List.perm_append_singleton _ _)
  rw [dropLast_set_comm, hlast]
  rcases Nat.lt_or_ge i (l.length - 1) with hc | hc
  · have hi2 : i < l.dropLast.length := by rw [List.length_dropLast]; omega
    have hgd : l.dropLast.getD i d = l.getD i d := by
      rw [List.dropLast_eq_take]
      simp [List.getD_eq_getElem?_getD, List.getElem?_take_of_lt hc]
    rw [← hgd, multiset_set_cons l.dropLast i hi2 (l.getLast hne) d]
    exact hl.symm
  · have hset : l.dropLast.set i (l.getLast hne) = l.dropLast :=
      List.set_eq_of_length_le (by rw [List.length_dropLast]; omega)
    have hgd : l.getD i d = l.getLast hne := by
      have he : i = l.length - 1 := by omega
      rw [he, hlast]
    rw [hset, hgd]
    exact hl.symm

/-! Specification of score_captures: the good bucket keeps exactly the
captures of nonnegative SEE, rescored by captureScore, and the moved-out
captures are appended to badCaptures with score = SEE. -/

theorem scoreCapturesLoop_spec (p : Pos) (ms bad : List ScoredMove) (i : Nat)
    (hpre : ∀ x ∈ ms.take i, 0 ≤ p.see x.move ∧ x.score = captureScore p x.move) :
    (∀ x ∈ (scoreCapturesLoop p ms bad i).1,
        0 ≤ p.see x.move ∧ x.score = captureScore p x.move) ∧
    (↑((scoreCapturesLoop p ms bad i).1.map ScoredMove.move) : Multiset Move) =
      Multiset.filter (fun m => 0 ≤ p.see m) ↑(ms.map ScoredMove.move) ∧
    ∃ newBad : List ScoredMove,
      (scoreCapturesLoop p ms bad i).2 = bad ++ newBad ∧
      (↑(newBad.map ScoredMove.move) : Multiset Move) =
        Multiset.filter (fun m => ¬0 ≤ p.see m) ↑(ms.map ScoredMove.move) ∧
      ∀ x ∈ newBad, p.see x.move < 0 ∧ x.score = p.see x.move := by
  revert hpre
  induction ms, bad, i using scoreCapturesLoop.induct p with
  | case1 ms bad i h m seeValue hsee ih =>
    intro hpre
    have hsee2 : 0 ≤ p.see (ms.getD i default).move := hsee
    have hres : scoreCapturesLoop p ms bad i
        = scoreCapturesLoop p (ms.set i ⟨(ms.getD i default).move,
            captureScore p (ms.getD i default).move⟩) bad (i + 1) := by
      rw [scoreCapturesLoop, dif_pos h]
      exact if_pos hsee2
    have hgetd : ms.getD i default = ms[i] := by
      simp [List.getD_eq_getElem?_getD, List.getElem?_eq_getElem h]
    have hmape : (ms.set i ⟨(ms.getD i default).move,
        captureScore p (ms.getD i default).move⟩).map ScoredMove.move
          = ms.map ScoredMove.move := by
      rw [List.map_set]
      apply set_getElem_self
      rw [List.getElem?_map, List.getElem?_eq_getElem h, hgetd]
      rfl
    have hlen : (ms.take i).length = i := by rw [List.length_take]; omega
    have htake : (ms.set i ⟨(ms.getD i default).move,
        captureScore p (ms.getD i default).move⟩).take (i + 1)
          = ms.take i ++ [⟨(ms.getD i default).move, captureScore p (ms.getD i default).move⟩] := by
      rw [List.set_take, ← List.take_concat_get ms i h, List.concat_eq_append,
        List.set_append_right _ _ (le_of_eq hlen), hlen, Nat.sub_self]
      rfl
    obtain ⟨ih1, ih2, newBad, ih3, ih4, ih5⟩ := ih (by
      intro x hx
      rw [htake] at hx
      rcases List.mem_append.mp hx with hx1 | hx2
      · exact hpre x hx1
      · have hx3 : x = ⟨(ms.getD i default).move, captureScore p (ms.getD i default).move⟩ := by
          simpa using hx2
        subst hx3
        exact ⟨hsee2, rfl⟩)
    rw [hmape] at ih2 ih4
    rw [hres]
    exact ⟨ih1, ih2, newBad, ih3, ih4, ih5⟩
  | case2 ms bad i h m seeValue hsee ih =>
    intro hpre
    have hsee2 : ¬0 ≤ p.see (ms.getD i default).move := hsee
    have hres : scoreCapturesLoop p ms bad i
        = scoreCapturesLoop p ((ms.set i (ms.getD (ms.length - 1) default)).dropLast)
            (bad ++ [⟨(ms.getD i default).move, p.see (ms.getD i default).move⟩]) i := by
      rw [scoreCapturesLoop, dif_pos h]
      exact if_neg hsee2
    have htake : ((ms.set i (ms.getD (ms.length - 1) default)).dropLast).take i = ms.take i := by
      rw [List.dropLast_eq_take, List.take_take, List.length_set, Nat.min_def,
        if_pos (by omega : i ≤ ms.length - 1), List.set_take]
      apply List.set_eq_of_length_le
      rw [List.length_take]
      omega
    obtain ⟨ih1, ih2, newBad, ih3, ih4, ih5⟩ := ih (by
      intro x hx
      rw [htake] at hx
      exact hpre x hx)
    have hcomp := compact_multiset ms i h default
    have hcompmap : (ms.getD i default).move ::ₘ
        (↑((((ms.set i (ms.getD (ms.length - 1) default)).dropLast)).map ScoredMove.move) :
          Multiset Move) = ↑(ms.map ScoredMove.move) := by
      have hmapped := congrArg (Multiset.map ScoredMove.move) hcomp
      simpa [Multiset.map_coe] using hmapped
    have hseeneg : p.see (ms.getD i default).move < 0 := by omega
    rw [hres]
    refine ⟨ih1, ?_, ⟨(ms.getD i default).move, p.see (ms.getD i default).move⟩ :: newBad,
      ?_, ?_, ?_⟩
    · rw [ih2, ← hcompmap]
      exact (@Multiset.filter_cons_of_neg Move (fun m => 0 ≤ p.see m) _ _ _ hsee2).symm
    · rw [ih3, List.append_assoc]
      rfl
    · rw [← hcompmap,
        @Multiset.filter_cons_of_pos Move (fun m => ¬0 ≤ p.see m) _ _ _ hsee2]
      rw [List.map_cons, ← Multiset.cons_coe, ih4]
    · intro x hx
      rcases List.mem_cons.mp hx with rfl | hx2
      · exact ⟨hseeneg, rfl⟩
      · exact ih5 x hx2
  | case3 ms bad i h =>
    intro hpre
    have hres : scoreCapturesLoop p ms bad i = (ms, bad) := by
      rw [scoreCapturesLoop, dif_neg h]
    have hall : ∀ x ∈ ms, 0 ≤ p.see x.move ∧ x.score = captureScore p x.move := by
      intro x hx
      exact hpre x (by rw [List.take_of_length_le (Nat.le_of_not_lt h)]; exact hx)
    rw [hres]
    refine ⟨hall, ?_, [], (List.append_nil bad).symm, ?_, by simp⟩
    · rw [Multiset.filter_eq_self.mpr]
      intro a ha
      rw [Multiset.mem_coe, List.mem_map] at ha
      obtain ⟨x, hx, rfl⟩ := ha
      exact (hall x hx).1
    · symm
      rw [List.map_nil, Multiset.coe_nil, Multiset.filter_eq_nil]
      intro a ha
      rw [Multiset.mem_coe, List.mem_map] at ha
      obtain ⟨x, hx, rfl⟩ := ha
      exact not_not_intro (hall x hx).1

/-! Unconditional phase preservation: no drain loop touches phaseIndex. -/

theorem pickLoopGoodCaptures_phase : ∀ (mp : MovePicker) (r : Move × MovePicker),
    pickLoopGoodCaptures mp = some r → r.2.phaseIndex = mp.phaseIndex := by
  intro mp
  induction mp using pickLoopGoodCaptures.induct with
  | case1 mp h bi hbi =>
    intro r hr
    have hnone : pickLoopGoodCaptures mp = none := by
      rw [pickLoopGoodCaptures, dif_pos h]
      exact if_pos hbi
    rw [hnone] at hr
    cases hr
  | case2 mp h bi hbi r0 hpass =>
    intro r hr
    have hres : pickLoopGoodCaptures mp = some r0 := by
      rw [pickLoopGoodCaptures, dif_pos h]
      have hbi2 : ¬findBestIndex mp.moves mp.movesPicked = -1 := hbi
      simp only [if_neg hbi2]
      exact if_pos hpass
    rw [hres] at hr
    cases hr
    rfl
  | case3 mp h bi hbi r0 hpass ih =>
    intro r hr
    have hres : pickLoopGoodCaptures mp = pickLoopGoodCaptures r0.2 := by
      rw [pickLoopGoodCaptures, dif_pos h]
      have hbi2 : ¬findBestIndex mp.moves mp.movesPicked = -1 := hbi
      simp only [if_neg hbi2]
      exact if_neg hpass
    rw [hres] at hr
    exact (ih r hr).trans rfl
  | case4 mp h =>
    intro r hr
    rw [pickLoopGoodCaptures, dif_neg h] at hr
    cases hr
    rfl

theorem pickLoopNoncaptures_phase : ∀ (mp : MovePicker) (r : Move × MovePicker),
    pickLoopNoncaptures mp = some r → r.2.phaseIndex = mp.phaseIndex := by
  intro mp
  induction mp using pickLoopNoncaptures.induct with
  | case1 mp h bi hbi =>
    intro r hr
    have hbi2 : (if mp.pvNode = true ∨ mp.movesPicked < 12 then
        findBestIndex mp.moves mp.movesPicked else (mp.movesPicked : Int)) = -1 := hbi
    have hnone : pickLoopNoncaptures mp = none := by
      rw [pickLoopNoncaptures, dif_pos h]
      exact if_pos hbi2
    rw [hnone] at hr
    cases hr
  | case2 mp h bi hbi r0 hpass =>
    intro r hr
    have hbi2 : ¬(if mp.pvNode = true ∨ mp.movesPicked < 12 then
        findBestIndex mp.moves mp.movesPicked else (mp.movesPicked : Int)) = -1 := hbi
    have hres : pickLoopNoncaptures mp = some r0 := by
      rw [pickLoopNoncaptures, dif_pos h]
      simp only [if_neg hbi2]
      exact if_pos hpass
    rw [hres] at hr
    cases hr
    rfl
  | case3 mp h bi hbi r0 hpass ih =>
    intro r hr
    have hbi2 : ¬(if mp.pvNode = true ∨ mp.movesPicked < 12 then
        findBestIndex mp.moves mp.movesPicked else (mp.movesPicked : Int)) = -1 := hbi
    have hres : pickLoopNoncaptures mp = pickLoopNoncaptures r0.2 := by
      rw [pickLoopNoncaptures, dif_pos h]
      simp only [if_neg hbi2]
      exact if_neg hpass
    rw [hres] at hr
    exact (ih r hr).trans rfl
  | case4 mp h =>
    intro r hr
    rw [pickLoopNoncaptures, dif_neg h] at hr
    cases hr
    rfl

theorem pickLoopEvasions_phase (mp : MovePicker) (r : Move × MovePicker)
    (hr : pickLoopEvasions mp = some r) : r.2.phaseIndex = mp.phaseIndex := by
  rw [pickLoopEvasions] at hr
  by_cases h : mp.movesPicked < mp.moves.length
  · rw [dif_pos h] at hr
    by_cases hbi : findBestIndex mp.moves mp.movesPicked = -1
    · rw [if_pos hbi] at hr
      cases hr
    · rw [if_neg hbi] at hr
      cases hr
      rfl
  · rw [dif_neg h] at hr
    cases hr
    rfl

theorem pickLoopBadCaptures_phase : ∀ (mp : MovePicker) (r : Move × MovePicker),
    pickLoopBadCaptures mp = some r → r.2.phaseIndex = mp.phaseIndex := by
  intro mp
  induction mp using pickLoopBadCaptures.induct with
  | case1 mp h move hpass =>
    intro r hr
    have hres : pickLoopBadCaptures mp = some (move,
        { mp with badCapturesPicked := mp.badCapturesPicked + 1 }) := by
      rw [pickLoopBadCaptures, dif_pos h]
      exact if_pos hpass
    rw [hres] at hr
    cases hr
    rfl
  | case2 mp h move mp1 hpass ih =>
    intro r hr
    have hres : pickLoopBadCaptures mp = pickLoopBadCaptures mp1 := by
      rw [pickLoopBadCaptures, dif_pos h]
      exact if_neg hpass
    rw [hres] at hr
    exact (ih r hr).trans rfl
  | case3 mp h =>
    intro r hr
    rw [pickLoopBadCaptures, dif_neg h] at hr
    cases hr
    rfl

theorem pickLoopQCaptures_phase : ∀ (mp : MovePicker) (r : Move × MovePicker),
    pickLoopQCaptures mp = some r → r.2.phaseIndex = mp.phaseIndex := by
  intro mp
  induction mp using pickLoopQCaptures.induct with
  | case1 mp h bi hbi =>
    intro r hr
    have hbi2 : (if mp.movesPicked < 4 then
        findBestIndex mp.moves mp.movesPicked else (mp.movesPicked : Int)) = -1 := hbi
    have hnone : pickLoopQCaptures mp = none := by
      rw [pickLoopQCaptures, dif_pos h]
      exact if_pos hbi2
    rw [hnone] at hr
    cases hr
  | case2 mp h bi hbi r0 hpass =>
    intro r hr
    have hbi2 : ¬(if mp.movesPicked < 4 then
        findBestIndex mp.moves mp.movesPicked else (mp.movesPicked : Int)) = -1 := hbi
    have hres : pickLoopQCaptures mp = some r0 := by
      rw [pickLoopQCaptures, dif_pos h]
      simp only [if_neg hbi2]
      exact if_pos hpass
    rw [hres] at hr
    cases hr
    rfl
  | case3 mp h bi hbi r0 hpass ih =>
    intro r hr
    have hbi2 : ¬(if mp.movesPicked < 4 then
        findBestIndex mp.moves mp.movesPicked else (mp.movesPicked : Int)) = -1 := hbi
    have hres : pickLoopQCaptures mp = pickLoopQCaptures r0.2 := by
      rw [pickLoopQCaptures, dif_pos h]
      simp only [if_neg hbi2]
      exact if_neg hpass
    rw [hres] at hr
    exact (ih r hr).trans rfl
  | case4 mp h =>
    intro r hr
    rw [pickLoopQCaptures, dif_neg h] at hr
    cases hr
    rfl

theorem pickLoopQChecks_phase : ∀ (mp : MovePicker) (r : Move × MovePicker),
    pickLoopQChecks mp = some r → r.2.phaseIndex = mp.phaseIndex := by
  intro mp
  induction mp using pickLoopQChecks.induct with
  | case1 mp h move hpass =>
    intro r hr
    have hres : pickLoopQChecks mp = some (move,
        { mp with movesPicked := mp.movesPicked + 1 }) := by
      rw [pickLoopQChecks, dif_pos h]
      exact if_pos hpass
    rw [hres] at hr
    cases hr
    rfl
  | case2 mp h move mp1 hpass ih =>
    intro r hr
    have hres : pickLoopQChecks mp = pickLoopQChecks mp1 := by
      rw [pickLoopQChecks, dif_pos h]
      exact if_neg hpass
    rw [hres] at hr
    exact (ih r hr).trans rfl
  | case3 mp h =>
    intro r hr
    rw [pickLoopQChecks, dif_neg h] at hr
    cases hr
    rfl

theorem pickMoveFromList_phase (mp : MovePicker) (r : Move × MovePicker)
    (hr : pickMoveFromList mp = some r) : r.2.phaseIndex = mp.phaseIndex := by
  rw [pickMoveFromList] at hr
  cases hmatch : PhaseTable mp.phaseIndex <;> rw [hmatch] at hr
  case PH_GOOD_CAPTURES => exact pickLoopGoodCaptures_phase mp r hr
  case PH_NONCAPTURES => exact pickLoopNoncaptures_phase mp r hr
  case PH_EVASIONS => exact pickLoopEvasions_phase mp r hr
  case PH_BAD_CAPTURES => exact pickLoopBadCaptures_phase mp r hr
  case PH_QCAPTURES => exact pickLoopQCaptures_phase mp r hr
  case PH_QCHECKS => exact pickLoopQChecks_phase mp r hr
  all_goals (cases hr; rfl)

/-! Fuel insensitivity of get_next_move: one call performs at most stopDist
phase advances, so any two sufficiently large fuels give the same result. -/

theorem phaseTable_ne_stop {j : Int} (h : PhaseTable j ≠ PH_STOP) : 0 ≤ j ∧ j < 16 := by
  by_contra hc
  apply h
  rw [PhaseTable]
  rcases not_and_or.mp hc with h1 | h2
  · rw [if_pos (by omega)]
  · rw [not_lt] at h2
    by_cases h3 : j < 0
    · rw [if_pos h3]
    · rw [if_neg h3, List.getD_eq_getElem?_getD, List.getElem?_eq_none (by
        show PhaseTableList.length ≤ j.toNat
        have : PhaseTableList.length = 16 := rfl
        omega)]
      rfl

theorem phaseEntry_phase (mp : MovePicker) : (phaseEntry mp).phaseIndex = mp.phaseIndex := by
  rw [phaseEntry]
  cases PhaseTable mp.phaseIndex <;> rfl

theorem gnmf_none (f : Nat) (mp : MovePicker) (hp : pickMoveFromList mp = none) :
    getNextMoveFuel (f + 1) mp = none := by
  simp [getNextMoveFuel, hp]

theorem gnmf_emit (f : Nat) (mp : MovePicker) (move : Move) (mp0 : MovePicker)
    (hp : pickMoveFromList mp = some (move, mp0)) (hmv : move ≠ MOVE_NONE) :
    getNextMoveFuel (f + 1) mp = some (move, mp0) := by
  simp [getNextMoveFuel, hp, hmv]

theorem gnmf_tt_emit (f : Nat) (mp mp0 : MovePicker)
    (hp : pickMoveFromList mp = some (MOVE_NONE, mp0))
    (hm : PhaseTable (mp0.phaseIndex + 1) = PH_TT_MOVE)
    (hc : mp0.ttMove ≠ MOVE_NONE ∧ mp0.pos.moveIsLegal mp0.ttMove = true) :
    getNextMoveFuel (f + 1) mp = some (mp0.ttMove, advancePhase mp0) := by
  simp [getNextMoveFuel, hp, advancePhase, hm, hc.1, hc.2]

theorem gnmf_tt_skip (f : Nat) (mp mp0 : MovePicker)
    (hp : pickMoveFromList mp = some (MOVE_NONE, mp0))
    (hm : PhaseTable (mp0.phaseIndex + 1) = PH_TT_MOVE)
    (hc : ¬(mp0.ttMove ≠ MOVE_NONE ∧ mp0.pos.moveIsLegal mp0.ttMove = true)) :
    getNextMoveFuel (f + 1) mp = getNextMoveFuel f (advancePhase mp0) := by
  simp [getNextMoveFuel, hp, advancePhase, hm, hc]

theorem gnmf_mk_emit (f : Nat) (mp mp0 : MovePicker)
    (hp : pickMoveFromList mp = some (MOVE_NONE, mp0))
    (hm : PhaseTable (mp0.phaseIndex + 1) = PH_MATE_KILLER)
    (hc : mp0.mateKiller ≠ MOVE_NONE ∧ mp0.pos.moveIsLegal mp0.mateKiller = true) :
    getNextMoveFuel (f + 1) mp = some (mp0.mateKiller, advancePhase mp0) := by
  simp [getNextMoveFuel, hp, advancePhase, hm, hc.1, hc.2]

theorem gnmf_mk_skip (f : Nat) (mp mp0 : MovePicker)
    (hp : pickMoveFromList mp = some (MOVE_NONE, mp0))
    (hm : PhaseTable (mp0.phaseIndex + 1) = PH_MATE_KILLER)
    (hc : ¬(mp0.mateKiller ≠ MOVE_NONE ∧ mp0.pos.moveIsLegal mp0.mateKiller = true)) :
    getNextMoveFuel (f + 1) mp = getNextMoveFuel f (advancePhase mp0) := by
  simp [getNextMoveFuel, hp, advancePhase, hm, hc]

theorem gnmf_gc (f : Nat) (mp mp0 : MovePicker)
    (hp : pickMoveFromList mp = some (MOVE_NONE, mp0))
    (hm : PhaseTable (mp0.phaseIndex + 1) = PH_GOOD_CAPTURES) :
    getNextMoveFuel (f + 1) mp = getNextMoveFuel f (phaseEntry (advancePhase mp0)) := by
  simp [getNextMoveFuel, hp, advancePhase, phaseEntry, hm]

theorem gnmf_bad (f : Nat) (mp mp0 : MovePicker)
    (hp : pickMoveFromList mp = some (MOVE_NONE, mp0))
    (hm : PhaseTable (mp0.phaseIndex + 1) = PH_BAD_CAPTURES) :
    getNextMoveFuel (f + 1) mp = getNextMoveFuel f (phaseEntry (advancePhase mp0)) := by
  simp [getNextMoveFuel, hp, advancePhase, phaseEntry, hm]

theorem gnmf_nc (f : Nat) (mp mp0 : MovePicker)
    (hp : pickMoveFromList mp = some (MOVE_NONE, mp0))
    (hm : PhaseTable (mp0.phaseIndex + 1) = PH_NONCAPTURES) :
    getNextMoveFuel (f + 1) mp = getNextMoveFuel f (phaseEntry (advancePhase mp0)) := by
  simp [getNextMoveFuel, hp, advancePhase, phaseEntry, hm]

theorem gnmf_ev (f : Nat) (mp mp0 : MovePicker)
    (hp : pickMoveFromList mp = some (MOVE_NONE, mp0))
    (hm : PhaseTable (mp0.phaseIndex + 1) = PH_EVASIONS) :
    getNextMoveFuel (f + 1) mp = getNextMoveFuel f (phaseEntry (advancePhase mp0)) := by
  simp [getNextMoveFuel, hp, advancePhase, phaseEntry, hm]

theorem gnmf_qcap (f : Nat) (mp mp0 : MovePicker)
    (hp : pickMoveFromList mp = some (MOVE_NONE, mp0))
    (hm : PhaseTable (mp0.phaseIndex + 1) = PH_QCAPTURES) :
    getNextMoveFuel (f + 1) mp = getNextMoveFuel f (phaseEntry (advancePhase mp0)) := by
  simp [getNextMoveFuel, hp, advancePhase, phaseEntry, hm]

theorem gnmf_qchk (f : Nat) (mp mp0 : MovePicker)
    (hp : pickMoveFromList mp = some (MOVE_NONE, mp0))
    (hm : PhaseTable (mp0.phaseIndex + 1) = PH_QCHECKS) :
    getNextMoveFuel (f + 1) mp = getNextMoveFuel f (phaseEntry (advancePhase mp0)) := by
  simp [getNextMoveFuel, hp, advancePhase, phaseEntry, hm]

theorem gnmf_stop (f : Nat) (mp mp0 : MovePicker)
    (hp : pickMoveFromList mp = some (MOVE_NONE, mp0))
    (hm : PhaseTable (mp0.phaseIndex + 1) = PH_STOP) :
    getNextMoveFuel (f + 1) mp = some (MOVE_NONE, advancePhase mp0) := by
  simp [getNextMoveFuel, hp, advancePhase, hm]

theorem gnmf_k1 (f : Nat) (mp mp0 : MovePicker)
    (hp : pickMoveFromList mp = some (MOVE_NONE, mp0))
    (hm : PhaseTable (mp0.phaseIndex + 1) = PH_KILLER_1) :
    getNextMoveFuel (f + 1) mp = some (MOVE_NONE, advancePhase mp0) := by
  simp [getNextMoveFuel, hp, advancePhase, hm]

theorem gnmf_k2 (f : Nat) (mp mp0 : MovePicker)
    (hp : pickMoveFromList mp = some (MOVE_NONE, mp0))
    (hm : PhaseTable (mp0.phaseIndex + 1) = PH_KILLER_2) :
    getNextMoveFuel (f + 1) mp = some (MOVE_NONE, advancePhase mp0) := by
  simp [getNextMoveFuel, hp, advancePhase, hm]

theorem getNextMoveFuel_stopDist : ∀ (k : Nat) (mp : MovePicker) (f : Nat),
    stopDist mp.phaseIndex ≤ k → k < f →
    getNextMoveFuel f mp = getNextMoveFuel (k + 1) mp := by
  intro k
  induction k using Nat.strong_induction_on with
  | _ k ih =>
  intro mp f hsd hf
  obtain ⟨f1, rfl⟩ : ∃ f1, f = f1 + 1 := ⟨f - 1, by omega⟩
  cases hp : pickMoveFromList mp with
  | none => rw [gnmf_none f1 mp hp, gnmf_none k mp hp]
  | some r =>
    obtain ⟨move, mp0⟩ := r
    by_cases hmv : move = MOVE_NONE
    case neg => rw [gnmf_emit f1 mp move mp0 hp hmv, gnmf_emit k mp move mp0 hp hmv]
    case pos =>
    subst hmv
    have hph : mp0.phaseIndex = mp.phaseIndex :=
      pickMoveFromList_phase mp (MOVE_NONE, mp0) hp
    have hbound : PhaseTable (mp0.phaseIndex + 1) ≠ PH_STOP →
        stopDist (mp0.phaseIndex + 1) ≤ k - 1 ∧ 1 ≤ k := by
      intro hne
      obtain ⟨hb1, hb2⟩ := phaseTable_ne_stop hne
      rw [hph] at hb1 hb2
      rw [stopDist] at hsd ⊢
      rw [hph]
      omega
    have hphadv : ∀ mpx : MovePicker, mpx.phaseIndex = mp0.phaseIndex →
        (phaseEntry (advancePhase mpx)).phaseIndex = mp0.phaseIndex + 1 := by
      intro mpx hx
      rw [phaseEntry_phase, advancePhase, hx]
    cases hm : PhaseTable (mp0.phaseIndex + 1) with
    | PH_TT_MOVE =>
      obtain ⟨hs1, hs2⟩ := hbound (by rw [hm]; simp)
      obtain ⟨k1, rfl⟩ : ∃ k1, k = k1 + 1 := ⟨k - 1, by omega⟩
      by_cases hc : mp0.ttMove ≠ MOVE_NONE ∧ mp0.pos.moveIsLegal mp0.ttMove = true
      · rw [gnmf_tt_emit f1 mp mp0 hp hm hc, gnmf_tt_emit (k1 + 1) mp mp0 hp hm hc]
      · rw [gnmf_tt_skip f1 mp mp0 hp hm hc, gnmf_tt_skip (k1 + 1) mp mp0 hp hm hc]
        exact ih k1 (by omega) _ f1 (by rw [advancePhase]; simpa using hs1) (by omega)
    | PH_MATE_KILLER =>
      obtain ⟨hs1, hs2⟩ := hbound (by rw [hm]; simp)
      obtain ⟨k1, rfl⟩ : ∃ k1, k = k1 + 1 := ⟨k - 1, by omega⟩
      by_cases hc : mp0.mateKiller ≠ MOVE_NONE ∧ mp0.pos.moveIsLegal mp0.mateKiller = true
      · rw [gnmf_mk_emit f1 mp mp0 hp hm hc, gnmf_mk_emit (k1 + 1) mp mp0 hp hm hc]
      · rw [gnmf_mk_skip f1 mp mp0 hp hm hc, gnmf_mk_skip (k1 + 1) mp mp0 hp hm hc]
        exact ih k1 (by omega) _ f1 (by rw [advancePhase]; simpa using hs1) (by omega)
    | PH_GOOD_CAPTURES =>
      obtain ⟨hs1, hs2⟩ := hbound (by rw [hm]; simp)
      obtain ⟨k1, rfl⟩ : ∃ k1, k = k1 + 1 := ⟨k - 1, by omega⟩
      rw [gnmf_gc f1 mp mp0 hp hm, gnmf_gc (k1 + 1) mp mp0 hp hm]
      exact ih k1 (by omega) _ f1 (by rw [hphadv mp0 rfl]; exact hs1) (by omega)
    | PH_BAD_CAPTURES =>
      obtain ⟨hs1, hs2⟩ := hbound (by rw [hm]; simp)
      obtain ⟨k1, rfl⟩ : ∃ k1, k = k1 + 1 := ⟨k - 1, by omega⟩
      rw [gnmf_bad f1 mp mp0 hp hm, gnmf_bad (k1 + 1) mp mp0 hp hm]
      exact ih k1 (by omega) _ f1 (by rw [hphadv mp0 rfl]; exact hs1) (by omega)
    | PH_NONCAPTURES =>
      obtain ⟨hs1, hs2⟩ := hbound (by rw [hm]; simp)
      obtain ⟨k1, rfl⟩ : ∃ k1, k = k1 + 1 := ⟨k - 1, by omega⟩
      rw [gnmf_nc f1 mp mp0 hp hm, gnmf_nc (k1 + 1) mp mp0 hp hm]
      exact ih k1 (by omega) _ f1 (by rw [hphadv mp0 rfl]; exact hs1) (by omega)
    | PH_EVASIONS =>
      obtain ⟨hs1, hs2⟩ := hbound (by rw [hm]; simp)
      obtain ⟨k1, rfl⟩ : ∃ k1, k = k1 + 1 := ⟨k - 1, by omega⟩
      rw [gnmf_ev f1 mp mp0 hp hm, gnmf_ev (k1 + 1) mp mp0 hp hm]
      exact ih k1 (by omega) _ f1 (by rw [hphadv mp0 rfl]; exact hs1) (by omega)
    | PH_QCAPTURES =>
      obtain ⟨hs1, hs2⟩ := hbound (by rw [hm]; simp)
      obtain ⟨k1, rfl⟩ : ∃ k1, k = k1 + 1 := ⟨k - 1, by omega⟩
      rw [gnmf_qcap f1 mp mp0 hp hm, gnmf_qcap (k1 + 1) mp mp0 hp hm]
      exact ih k1 (by omega) _ f1 (by rw [hphadv mp0 rfl]; exact hs1) (by omega)
    | PH_QCHECKS =>
      obtain ⟨hs1, hs2⟩ := hbound (by rw [hm]; simp)
      obtain ⟨k1, rfl⟩ : ∃ k1, k = k1 + 1 := ⟨k - 1, by omega⟩
      rw [gnmf_qchk f1 mp mp0 hp hm, gnmf_qchk (k1 + 1) mp mp0 hp hm]
      exact ih k1 (by omega) _ f1 (by rw [hphadv mp0 rfl]; exact hs1) (by omega)
    | PH_STOP => rw [gnmf_stop f1 mp mp0 hp hm, gnmf_stop k mp mp0 hp hm]
    | PH_KILLER_1 => rw [gnmf_k1 f1 mp mp0 hp hm, gnmf_k1 k mp mp0 hp hm]
    | PH_KILLER_2 => rw [gnmf_k2 f1 mp mp0 hp hm, gnmf_k2 k mp mp0 hp hm]

/-- Any fuel of at least 18 gives the canonical get_next_move result on states
whose phase index is in the reachable range. -/
theorem getNextMoveFuel_ge_eq (mp : MovePicker) (hph : -1 ≤ mp.phaseIndex)
    (f g : Nat) (hf : 18 ≤ f) (hg : 18 ≤ g) :
    getNextMoveFuel f mp = getNextMoveFuel g mp := by
  have hsd : stopDist mp.phaseIndex ≤ 17 := by
    rw [stopDist]
    omega
  rw [getNextMoveFuel_stopDist 17 mp f hsd (by omega),
    getNextMoveFuel_stopDist 17 mp g hsd (by omega)]

/-! Plumbing for the emission-sequence lemmas. -/

theorem emitSeqT_congr (a b : MovePicker) (h : getNextMove a = getNextMove b) :
    ∀ n, emitSeqT n a = emitSeqT n b := by
  intro n
  cases n with
  | zero => rfl
  | succ n => simp only [emitSeqT, h]

theorem pickSelf_GC (mp : MovePicker) (hphase : PhaseTable mp.phaseIndex = PH_GOOD_CAPTURES)
    (hdone : bucketRest mp = []) : pickMoveFromList mp = some (MOVE_NONE, mp) := by
  rw [pickMoveFromList, hphase, pickLoopGoodCaptures,
    dif_neg (not_lt.mpr (List.drop_eq_nil_iff.mp hdone))]

theorem pickSelf_NC (mp : MovePicker) (hphase : PhaseTable mp.phaseIndex = PH_NONCAPTURES)
    (hdone : bucketRest mp = []) : pickMoveFromList mp = some (MOVE_NONE, mp) := by
  rw [pickMoveFromList, hphase, pickLoopNoncaptures,
    dif_neg (not_lt.mpr (List.drop_eq_nil_iff.mp hdone))]

theorem pickSelf_EV (mp : MovePicker) (hphase : PhaseTable mp.phaseIndex = PH_EVASIONS)
    (hdone : bucketRest mp = []) : pickMoveFromList mp = some (MOVE_NONE, mp) := by
  rw [pickMoveFromList, hphase, pickLoopEvasions,
    dif_neg (not_lt.mpr (List.drop_eq_nil_iff.mp hdone))]

theorem pickSelf_BAD (mp : MovePicker) (hphase : PhaseTable mp.phaseIndex = PH_BAD_CAPTURES)
    (hdone : badRest mp = []) : pickMoveFromList mp = some (MOVE_NONE, mp) := by
  rw [pickMoveFromList, hphase, pickLoopBadCaptures,
    dif_neg (not_lt.mpr (List.drop_eq_nil_iff.mp hdone))]

theorem pickSelf_QCAP (mp : MovePicker) (hphase : PhaseTable mp.phaseIndex = PH_QCAPTURES)
    (hdone : bucketRest mp = []) : pickMoveFromList mp = some (MOVE_NONE, mp) := by
  rw [pickMoveFromList, hphase, pickLoopQCaptures,
    dif_neg (not_lt.mpr (List.drop_eq_nil_iff.mp hdone))]

theorem pickSelf_QCHK (mp : MovePicker) (hphase : PhaseTable mp.phaseIndex = PH_QCHECKS)
    (hdone : bucketRest mp = []) : pickMoveFromList mp = some (MOVE_NONE, mp) := by
  rw [pickMoveFromList, hphase, pickLoopQChecks,
    dif_neg (not_lt.mpr (List.drop_eq_nil_iff.mp hdone))]

theorem pickSelf_default (mp : MovePicker)
    (hphase : PhaseTable mp.phaseIndex = PH_TT_MOVE ∨ PhaseTable mp.phaseIndex = PH_MATE_KILLER
      ∨ PhaseTable mp.phaseIndex = PH_KILLER_1 ∨ PhaseTable mp.phaseIndex = PH_KILLER_2
      ∨ PhaseTable mp.phaseIndex = PH_STOP) :
    pickMoveFromList mp = some (MOVE_NONE, mp) := by
  rw [pickMoveFromList]
  rcases hphase with h | h | h | h | h <;> rw [h]

/-- Two states with the same pick result that both pick the sentinel from the
same successor state make the same get_next_move step. -/
theorem getNextMove_eq_of_pick (mp mpD : MovePicker)
    (h1 : pickMoveFromList mp = some (MOVE_NONE, mpD))
    (h2 : pickMoveFromList mpD = some (MOVE_NONE, mpD)) :
    getNextMove mp = getNextMove mpD := by
  show getNextMoveFuel (31 + 1) mp = getNextMoveFuel (31 + 1) mpD
  cases hm : PhaseTable (mpD.phaseIndex + 1) with
  | PH_TT_MOVE =>
    by_cases hc : mpD.ttMove ≠ MOVE_NONE ∧ mpD.pos.moveIsLegal mpD.ttMove = true
    · rw [gnmf_tt_emit 31 mp mpD h1 hm hc, gnmf_tt_emit 31 mpD mpD h2 hm hc]
    · rw [gnmf_tt_skip 31 mp mpD h1 hm hc, gnmf_tt_skip 31 mpD mpD h2 hm hc]
  | PH_MATE_KILLER =>
    by_cases hc : mpD.mateKiller ≠ MOVE_NONE ∧ mpD.pos.moveIsLegal mpD.mateKiller = true
    · rw [gnmf_mk_emit 31 mp mpD h1 hm hc, gnmf_mk_emit 31 mpD mpD h2 hm hc]
    · rw [gnmf_mk_skip 31 mp mpD h1 hm hc, gnmf_mk_skip 31 mpD mpD h2 hm hc]
  | PH_GOOD_CAPTURES => rw [gnmf_gc 31 mp mpD h1 hm, gnmf_gc 31 mpD mpD h2 hm]
  | PH_BAD_CAPTURES => rw [gnmf_bad 31 mp mpD h1 hm, gnmf_bad 31 mpD mpD h2 hm]
  | PH_NONCAPTURES => rw [gnmf_nc 31 mp mpD h1 hm, gnmf_nc 31 mpD mpD h2 hm]
  | PH_EVASIONS => rw [gnmf_ev 31 mp mpD h1 hm, gnmf_ev 31 mpD mpD h2 hm]
  | PH_QCAPTURES => rw [gnmf_qcap 31 mp mpD h1 hm, gnmf_qcap 31 mpD mpD h2 hm]
  | PH_QCHECKS => rw [gnmf_qchk 31 mp mpD h1 hm, gnmf_qchk 31 mpD mpD h2 hm]
  | PH_STOP => rw [gnmf_stop 31 mp mpD h1 hm, gnmf_stop 31 mpD mpD h2 hm]
  | PH_KILLER_1 => rw [gnmf_k1 31 mp mpD h1 hm, gnmf_k1 31 mpD mpD h2 hm]
  | PH_KILLER_2 => rw [gnmf_k2 31 mp mpD h1 hm, gnmf_k2 31 mpD mpD h2 hm]

/-- A state that picks the sentinel from itself and whose next table row is a
generating phase hands its whole emission sequence to the generated phase
entry state. -/
theorem emitSeqT_genEntry (mp : MovePicker)
    (hself : pickMoveFromList mp = some (MOVE_NONE, mp))
    (hph : -1 ≤ mp.phaseIndex)
    (hm : PhaseTable (mp.phaseIndex + 1) = PH_GOOD_CAPTURES ∨
      PhaseTable (mp.phaseIndex + 1) = PH_BAD_CAPTURES ∨
      PhaseTable (mp.phaseIndex + 1) = PH_NONCAPTURES ∨
      PhaseTable (mp.phaseIndex + 1) = PH_EVASIONS ∨
      PhaseTable (mp.phaseIndex + 1) = PH_QCAPTURES ∨
      PhaseTable (mp.phaseIndex + 1) = PH_QCHECKS) :
    ∀ n, emitSeqT n mp = emitSeqT n (phaseEntry (advancePhase mp)) := by
  have hstep : getNextMove mp = getNextMoveFuel 31 (phaseEntry (advancePhase mp)) := by
    rcases hm with h | h | h | h | h | h
    · exact gnmf_gc 31 mp mp hself h
    · exact gnmf_bad 31 mp mp hself h
    · exact gnmf_nc 31 mp mp hself h
    · exact gnmf_ev 31 mp mp hself h
    · exact gnmf_qcap 31 mp mp hself h
    · exact gnmf_qchk 31 mp mp hself h
  have hph2 : -1 ≤ (phaseEntry (advancePhase mp)).phaseIndex := by
    rw [phaseEntry_phase, advancePhase]
    show -1 ≤ mp.phaseIndex + 1
    omega
  have heq : getNextMove mp = getNextMove (phaseEntry (advancePhase mp)) := by
    rw [hstep]
    exact getNextMoveFuel_ge_eq _ hph2 31 32 (by omega) (by omega)
  exact emitSeqT_congr _ _ heq

/-- A state that picks the sentinel from itself and whose next table row is a
stop entry emits nothing and parks the picker on the stop row. -/
theorem emitSeqT_stopEntry (mp : MovePicker) (n : Nat)
    (hself : pickMoveFromList mp = some (MOVE_NONE, mp))
    (hm : PhaseTable (mp.phaseIndex + 1) = PH_STOP) :
    emitSeqT (n + 1) mp = some ([], advancePhase mp) := by
  have hstep : getNextMove mp = some (MOVE_NONE, advancePhase mp) := gnmf_stop 31 mp mp hself hm
  rw [emitSeqT, hstep]
  rfl

theorem emitSeqT_cons (mp : MovePicker) (m : Move) (mp2 : MovePicker) (n : Nat)
    (tail : List (Move × MovegenPhase)) (mpF : MovePicker)
    (hstep : getNextMove mp = some (m, mp2)) (hm : m ≠ MOVE_NONE)
    (htail : emitSeqT n mp2 = some (tail, mpF)) :
    emitSeqT (n + 1) mp = some ((m, currentMoveType mp2) :: tail, mpF) := by
  rw [emitSeqT, hstep]
  simp [hm, htail]

theorem emitSeqT_ttEmit (mp : MovePicker) (n : Nat) (tail : List (Move × MovegenPhase))
    (mpF : MovePicker) (hself : pickMoveFromList mp = some (MOVE_NONE, mp))
    (hm : PhaseTable (mp.phaseIndex + 1) = PH_TT_MOVE)
    (hc : mp.ttMove ≠ MOVE_NONE ∧ mp.pos.moveIsLegal mp.ttMove = true)
    (htail : emitSeqT n (advancePhase mp) = some (tail, mpF)) :
    emitSeqT (n + 1) mp = some ((mp.ttMove, PH_TT_MOVE) :: tail, mpF) := by
  have hstep : getNextMove mp = some (mp.ttMove, advancePhase mp) :=
    gnmf_tt_emit 31 mp mp hself hm hc
  have htag : currentMoveType (advancePhase mp) = PH_TT_MOVE := by
    rw [currentMoveType, advancePhase]
    exact hm
  rw [emitSeqT_cons mp mp.ttMove (advancePhase mp) n tail mpF hstep hc.1 htail, htag]

theorem emitSeqT_ttSkip (mp : MovePicker) (hself : pickMoveFromList mp = some (MOVE_NONE, mp))
    (hph : -1 ≤ mp.phaseIndex) (hm : PhaseTable (mp.phaseIndex + 1) = PH_TT_MOVE)
    (hc : ¬(mp.ttMove ≠ MOVE_NONE ∧ mp.pos.moveIsLegal mp.ttMove = true)) :
    ∀ n, emitSeqT n mp = emitSeqT n (advancePhase mp) := by
  apply emitSeqT_congr
  show getNextMoveFuel (31 + 1) mp = getNextMove (advancePhase mp)
  rw [gnmf_tt_skip 31 mp mp hself hm hc]
  exact getNextMoveFuel_ge_eq _ (by rw [advancePhase]; show -1 ≤ mp.phaseIndex + 1; omega)
    31 32 (by omega) (by omega)

theorem emitSeqT_mkEmit (mp : MovePicker) (n : Nat) (tail : List (Move × MovegenPhase))
    (mpF : MovePicker) (hself : pickMoveFromList mp = some (MOVE_NONE, mp))
    (hm : PhaseTable (mp.phaseIndex + 1) = PH_MATE_KILLER)
    (hc : mp.mateKiller ≠ MOVE_NONE ∧ mp.pos.moveIsLegal mp.mateKiller = true)
    (htail : emitSeqT n (advancePhase mp) = some (tail, mpF)) :
    emitSeqT (n + 1) mp = some ((mp.mateKiller, PH_MATE_KILLER) :: tail, mpF) := by
  have hstep : getNextMove mp = some (mp.mateKiller, advancePhase mp) :=
    gnmf_mk_emit 31 mp mp hself hm hc
  have htag : currentMoveType (advancePhase mp) = PH_MATE_KILLER := by
    rw [currentMoveType, advancePhase]
    exact hm
  rw [emitSeqT_cons mp mp.mateKiller (advancePhase mp) n tail mpF hstep hc.1 htail, htag]

theorem emitSeqT_mkSkip (mp : MovePicker) (hself : pickMoveFromList mp = some (MOVE_NONE, mp))
    (hph : -1 ≤ mp.phaseIndex) (hm : PhaseTable (mp.phaseIndex + 1) = PH_MATE_KILLER)
    (hc : ¬(mp.mateKiller ≠ MOVE_NONE ∧ mp.pos.moveIsLegal mp.mateKiller = true)) :
    ∀ n, emitSeqT n mp = emitSeqT n (advancePhase mp) := by
  apply emitSeqT_congr
  show getNextMoveFuel (31 + 1) mp = getNextMove (advancePhase mp)
  rw [gnmf_mk_skip 31 mp mp hself hm hc]
  exact getNextMoveFuel_ge_eq _ (by rw [advancePhase]; show -1 ≤ mp.phaseIndex + 1; omega)
    31 32 (by omega) (by omega)

theorem sameConfig_pos {a b : MovePicker} (h : sameConfig a b) : b.pos = a.pos := h.1

theorem sameConfig_phaseIdx {a b : MovePicker} (h : sameConfig a b) :
    b.phaseIndex = a.phaseIndex := h.2.2.2.2.2.2.2.1

theorem pickDispatch_GC (mp : MovePicker) (hphase : PhaseTable mp.phaseIndex = PH_GOOD_CAPTURES) :
    pickMoveFromList mp = pickLoopGoodCaptures mp := by
  rw [pickMoveFromList, hphase]

theorem pickDispatch_NC (mp : MovePicker) (hphase : PhaseTable mp.phaseIndex = PH_NONCAPTURES) :
    pickMoveFromList mp = pickLoopNoncaptures mp := by
  rw [pickMoveFromList, hphase]

theorem pickDispatch_EV (mp : MovePicker) (hphase : PhaseTable mp.phaseIndex = PH_EVASIONS) :
    pickMoveFromList mp = pickLoopEvasions mp := by
  rw [pickMoveFromList, hphase]

theorem pickDispatch_BAD (mp : MovePicker) (hphase : PhaseTable mp.phaseIndex = PH_BAD_CAPTURES) :
    pickMoveFromList mp = pickLoopBadCaptures mp := by
  rw [pickMoveFromList, hphase]

theorem pickDispatch_QCAP (mp : MovePicker) (hphase : PhaseTable mp.phaseIndex = PH_QCAPTURES) :
    pickMoveFromList mp = pickLoopQCaptures mp := by
  rw [pickMoveFromList, hphase]

theorem pickDispatch_QCHK (mp : MovePicker) (hphase : PhaseTable mp.phaseIndex = PH_QCHECKS) :
    pickMoveFromList mp = pickLoopQChecks mp := by
  rw [pickMoveFromList, hphase]

/-! Whole-phase run lemma for PH_GOOD_CAPTURES: the phase emits, in some
order, exactly the acceptable moves of the live bucket, the first one of
maximal score, and then behaves like the fully drained state. -/

theorem emitSeqT_runGC : ∀ (N : Nat) (mp : MovePicker), (bucketRest mp).length ≤ N →
    PhaseTable mp.phaseIndex = PH_GOOD_CAPTURES →
    (∀ sm ∈ bucketRest mp, -10000000 < sm.score) →
    (∀ sm ∈ bucketRest mp, sm.move ≠ MOVE_NONE) →
    ∃ (G : List Move) (mpD : MovePicker),
      sameConfig mp mpD ∧ bucketRest mpD = [] ∧ mpD.badCaptures = mp.badCaptures ∧
      mpD.badCapturesPicked = mp.badCapturesPicked ∧
      (↑G : Multiset Move) = Multiset.map ScoredMove.move
        (Multiset.filter (fun sm => passMain mp sm.move = true) ↑(bucketRest mp)) ∧
      (∀ g0 ∈ G.head?, ∃ sm ∈ bucketRest mp, sm.move = g0 ∧
        ∀ x ∈ bucketRest mp, passMain mp x.move = true → x.score ≤ sm.score) ∧
      ∀ (n : Nat) (tail : List (Move × MovegenPhase)) (mpF : MovePicker),
        emitSeqT n mpD = some (tail, mpF) →
        emitSeqT (G.length + n) mp = some (G.map (fun g => (g, PH_GOOD_CAPTURES)) ++ tail, mpF) := by
  intro N
  induction N using Nat.strong_induction_on with
  | _ N ih =>
  intro mp hlen hphase hsc hnz
  obtain ⟨m, mp2, hres, hcfg, hbad, hbadp, hcase⟩ := pickLoopGoodCaptures_spec mp hsc hnz
  have hpick : pickMoveFromList mp = some (m, mp2) := by
    rw [pickDispatch_GC mp hphase]
    exact hres
  rcases hcase with ⟨hm, hdr, hall⟩ | ⟨hm, hpm, sm, skipped, hsm, hms, hskip, hmax⟩
  · subst hm
    refine ⟨[], mp2, hcfg, hdr, hbad, hbadp, ?_, by simp, ?_⟩
    · rw [Multiset.coe_nil]
      have hf : Multiset.filter (fun sm => passMain mp sm.move = true)
          (↑(bucketRest mp) : Multiset ScoredMove) = 0 := by
        rw [Multiset.filter_eq_nil]
        intro a ha
        rw [hall a (by exact_mod_cast ha)]
        simp
      rw [hf]
      rfl
    · intro n tail mpF htail
      have heq : emitSeqT n mp = emitSeqT n mp2 :=
        emitSeqT_congr mp mp2 (getNextMove_eq_of_pick mp mp2 hpick
          (pickSelf_GC mp2 (by rw [sameConfig_phaseIdx hcfg]; exact hphase) hdr)) n
      show emitSeqT (0 + n) mp = _
      rw [Nat.zero_add, heq, htail]
      simp
  · have hcard : (bucketRest mp2).length < (bucketRest mp).length := by
      have hc := congrArg Multiset.card hms
      simp only [Multiset.coe_card, Multiset.card_add, Multiset.card_cons] at hc
      omega
    obtain ⟨G1, mpD, hcfg2, hdr2, hbad2, hbadp2, hms2, hhead2, hglue2⟩ :=
      ih (bucketRest mp2).length (by omega) mp2 le_rfl
        (by rw [sameConfig_phaseIdx hcfg]; exact hphase)
        (by
          intro x hx
          apply hsc
          have : x ∈ (↑(bucketRest mp) : Multiset ScoredMove) := by
            rw [hms]
            exact Multiset.mem_add.mpr (Or.inr (Multiset.mem_cons_of_mem (by exact_mod_cast hx)))
          exact_mod_cast this)
        (by
          intro x hx
          apply hnz
          have : x ∈ (↑(bucketRest mp) : Multiset ScoredMove) := by
            rw [hms]
            exact Multiset.mem_add.mpr (Or.inr (Multiset.mem_cons_of_mem (by exact_mod_cast hx)))
          exact_mod_cast this)
    have hpcongr : passMain mp2 = passMain mp := passMain_congr hcfg
    refine ⟨m :: G1, mpD, sameConfig_trans hcfg hcfg2, hdr2, hbad2.trans hbad,
      hbadp2.trans hbadp, ?_, ?_, ?_⟩
    · have hfilter : Multiset.filter (fun x => passMain mp x.move = true)
          (↑(bucketRest mp) : Multiset ScoredMove)
            = sm ::ₘ Multiset.filter (fun x => passMain mp x.move = true) ↑(bucketRest mp2) := by
        rw [hms, Multiset.filter_add]
        have h0 : Multiset.filter (fun x => passMain mp x.move = true) skipped = 0 := by
          rw [Multiset.filter_eq_nil]
          intro a ha
          rw [hskip a ha]
          simp
        rw [h0, zero_add,
          @Multiset.filter_cons_of_pos ScoredMove (fun x => passMain mp x.move = true) _ _ _
            (by show passMain mp sm.move = true; rw [hsm]; exact hpm)]
      rw [hfilter, Multiset.map_cons, ← Multiset.cons_coe]
      rw [hpcongr] at hms2
      rw [hms2, hsm]
    · intro g0 hg0
      simp at hg0
      subst hg0
      refine ⟨sm, ?_, hsm, hmax⟩
      have : sm ∈ (↑(bucketRest mp) : Multiset ScoredMove) := by
        rw [hms]
        exact Multiset.mem_add.mpr (Or.inr (Multiset.mem_cons_self _ _))
      exact_mod_cast this
    · intro n tail mpF htail
      have hstep : getNextMove mp = some (m, mp2) := gnmf_emit 31 mp m mp2 hpick hm
      have htag : currentMoveType mp2 = PH_GOOD_CAPTURES := by
        rw [currentMoveType, sameConfig_phaseIdx hcfg]
        exact hphase
      have htail2 := hglue2 n tail mpF htail
      have hcons := emitSeqT_cons mp m mp2 (G1.length + n)
        (G1.map (fun g => (g, PH_GOOD_CAPTURES)) ++ tail) mpF hstep hm htail2
      rw [htag] at hcons
      have hlen2 : (m :: G1).length + n = (G1.length + n) + 1 := by
        simp [List.length_cons]
        omega
      rw [hlen2, hcons]
      simp

/-! Whole-phase run lemma for PH_NONCAPTURES. -/

theorem emitSeqT_runNC : ∀ (N : Nat) (mp : MovePicker), (bucketRest mp).length ≤ N →
    PhaseTable mp.phaseIndex = PH_NONCAPTURES →
    (∀ sm ∈ bucketRest mp, -10000000 < sm.score) →
    (∀ sm ∈ bucketRest mp, sm.move ≠ MOVE_NONE) →
    ∃ (G : List Move) (mpD : MovePicker),
      sameConfig mp mpD ∧ bucketRest mpD = [] ∧ mpD.badCaptures = mp.badCaptures ∧
      mpD.badCapturesPicked = mp.badCapturesPicked ∧
      (↑G : Multiset Move) = Multiset.map ScoredMove.move
        (Multiset.filter (fun sm => passMain mp sm.move = true) ↑(bucketRest mp)) ∧
      ∀ (n : Nat) (tail : List (Move × MovegenPhase)) (mpF : MovePicker),
        emitSeqT n mpD = some (tail, mpF) →
        emitSeqT (G.length + n) mp = some (G.map (fun g => (g, PH_NONCAPTURES)) ++ tail, mpF) := by
  intro N
  induction N using Nat.strong_induction_on with
  | _ N ih =>
  intro mp hlen hphase hsc hnz
  obtain ⟨m, mp2, hres, hcfg, hbad, hbadp, hcase⟩ := pickLoopNoncaptures_spec mp hsc hnz
  have hpick : pickMoveFromList mp = some (m, mp2) := by
    rw [pickDispatch_NC mp hphase]
    exact hres
  rcases hcase with ⟨hm, hdr, hall⟩ | ⟨hm, hpm, sm, skipped, hsm, hms, hskip⟩
  · subst hm
    refine ⟨[], mp2, hcfg, hdr, hbad, hbadp, ?_, ?_⟩
    · rw [Multiset.coe_nil]
      have hf : Multiset.filter (fun sm => passMain mp sm.move = true)
          (↑(bucketRest mp) : Multiset ScoredMove) = 0 := by
        rw [Multiset.filter_eq_nil]
        intro a ha
        rw [hall a (by exact_mod_cast ha)]
        simp
      rw [hf]
      rfl
    · intro n tail mpF htail
      have heq : emitSeqT n mp = emitSeqT n mp2 :=
        emitSeqT_congr mp mp2 (getNextMove_eq_of_pick mp mp2 hpick
          (pickSelf_NC mp2 (by rw [sameConfig_phaseIdx hcfg]; exact hphase) hdr)) n
      show emitSeqT (0 + n) mp = _
      rw [Nat.zero_add, heq, htail]
      simp
  · have hcard : (bucketRest mp2).length < (bucketRest mp).length := by
      have hc := congrArg Multiset.card hms
      simp only [Multiset.coe_card, Multiset.card_add, Multiset.card_cons] at hc
      omega
    obtain ⟨G1, mpD, hcfg2, hdr2, hbad2, hbadp2, hms2, hglue2⟩ :=
      ih (bucketRest mp2).length (by omega) mp2 le_rfl
        (by rw [sameConfig_phaseIdx hcfg]; exact hphase)
        (by
          intro x hx
          apply hsc
          have : x ∈ (↑(bucketRest mp) : Multiset ScoredMove) := by
            rw [hms]
            exact Multiset.mem_add.mpr (Or.inr (Multiset.mem_cons_of_mem (by exact_mod_cast hx)))
          exact_mod_cast this)
        (by
          intro x hx
          apply hnz
          have : x ∈ (↑(bucketRest mp) : Multiset ScoredMove) := by
            rw [hms]
            exact Multiset.mem_add.mpr (Or.inr (Multiset.mem_cons_of_mem (by exact_mod_cast hx)))
          exact_mod_cast this)
    have hpcongr : passMain mp2 = passMain mp := passMain_congr hcfg
    refine ⟨m :: G1, mpD, sameConfig_trans hcfg hcfg2, hdr2, hbad2.trans hbad,
      hbadp2.trans hbadp, ?_, ?_⟩
    · have hfilter : Multiset.filter (fun x => passMain mp x.move = true)
          (↑(bucketRest mp) : Multiset ScoredMove)
            = sm ::ₘ Multiset.filter (fun x => passMain mp x.move = true) ↑(bucketRest mp2) := by
        rw [hms, Multiset.filter_add]
        have h0 : Multiset.filter (fun x => passMain mp x.move = true) skipped = 0 := by
          rw [Multiset.filter_eq_nil]
          intro a ha
          rw [hskip a ha]
          simp
        rw [h0, zero_add,
          @Multiset.filter_cons_of_pos ScoredMove (fun x => passMain mp x.move = true) _ _ _
            (by show passMain mp sm.move = true; rw [hsm]; exact hpm)]
      rw [hfilter, Multiset.map_cons, ← Multiset.cons_coe]
      rw [hpcongr] at hms2
      rw [hms2, hsm]
    · intro n tail mpF htail
      have hstep : getNextMove mp = some (m, mp2) := gnmf_emit 31 mp m mp2 hpick hm
      have htag : currentMoveType mp2 = PH_NONCAPTURES := by
        rw [currentMoveType, sameConfig_phaseIdx hcfg]
        exact hphase
      have htail2 := hglue2 n tail mpF htail
      have hcons := emitSeqT_cons mp m mp2 (G1.length + n)
        (G1.map (fun g => (g, PH_NONCAPTURES)) ++ tail) mpF hstep hm htail2
      rw [htag] at hcons
      have hlen2 : (m :: G1).length + n = (G1.length + n) + 1 := by
        simp [List.length_cons]
        omega
      rw [hlen2, hcons]
      simp

/-! Whole-phase run lemma for PH_EVASIONS: every live bucket entry is emitted,
the first one of maximal score. -/

theorem emitSeqT_runEV : ∀ (N : Nat) (mp : MovePicker), (bucketRest mp).length ≤ N →
    PhaseTable mp.phaseIndex = PH_EVASIONS →
    (∀ sm ∈ bucketRest mp, -10000000 < sm.score) →
    (∀ sm ∈ bucketRest mp, sm.move ≠ MOVE_NONE) →
    ∃ (G : List Move) (mpD : MovePicker),
      sameConfig mp mpD ∧ bucketRest mpD = [] ∧ mpD.badCaptures = mp.badCaptures ∧
      mpD.badCapturesPicked = mp.badCapturesPicked ∧
      (↑G : Multiset Move) = Multiset.map ScoredMove.move (↑(bucketRest mp)) ∧
      (∀ g0 ∈ G.head?, ∃ sm ∈ bucketRest mp, sm.move = g0 ∧
        ∀ x ∈ bucketRest mp, x.score ≤ sm.score) ∧
      ∀ (n : Nat) (tail : List (Move × MovegenPhase)) (mpF : MovePicker),
        emitSeqT n mpD = some (tail, mpF) →
        emitSeqT (G.length + n) mp = some (G.map (fun g => (g, PH_EVASIONS)) ++ tail, mpF) := by
  intro N
  induction N using Nat.strong_induction_on with
  | _ N ih =>
  intro mp hlen hphase hsc hnz
  obtain ⟨m, mp2, hres, hcfg, hbad, hbadp, hcase⟩ := pickLoopEvasions_spec mp hsc hnz
  have hpick : pickMoveFromList mp = some (m, mp2) := by
    rw [pickDispatch_EV mp hphase]
    exact hres
  rcases hcase with ⟨hm, hmp2, hdr⟩ | ⟨hm, sm, hsm, hms, hmax⟩
  · subst hm
    refine ⟨[], mp2, hcfg, ?_, hbad, hbadp, ?_, by simp, ?_⟩
    · rw [hmp2]
      exact hdr
    · rw [Multiset.coe_nil, hdr]
      rfl
    · intro n tail mpF htail
      rw [hmp2] at htail
      show emitSeqT (0 + n) mp = _
      rw [Nat.zero_add, htail]
      simp
  · have hcard : (bucketRest mp2).length < (bucketRest mp).length := by
      have hc := congrArg Multiset.card hms
      simp only [Multiset.coe_card, Multiset.card_cons] at hc
      omega
    obtain ⟨G1, mpD, hcfg2, hdr2, hbad2, hbadp2, hms2, _, hglue2⟩ :=
      ih (bucketRest mp2).length (by omega) mp2 le_rfl
        (by rw [sameConfig_phaseIdx hcfg]; exact hphase)
        (by
          intro x hx
          apply hsc
          have : x ∈ (↑(bucketRest mp) : Multiset ScoredMove) := by
            rw [hms]
            exact Multiset.mem_cons_of_mem (by exact_mod_cast hx)
          exact_mod_cast this)
        (by
          intro x hx
          apply hnz
          have : x ∈ (↑(bucketRest mp) : Multiset ScoredMove) := by
            rw [hms]
            exact Multiset.mem_cons_of_mem (by exact_mod_cast hx)
          exact_mod_cast this)
    refine ⟨m :: G1, mpD, sameConfig_trans hcfg hcfg2, hdr2, hbad2.trans hbad,
      hbadp2.trans hbadp, ?_, ?_, ?_⟩
    · rw [hms, Multiset.map_cons, ← Multiset.cons_coe, hms2, hsm]
    · intro g0 hg0
      simp at hg0
      subst hg0
      refine ⟨sm, ?_, hsm, hmax⟩
      have : sm ∈ (↑(bucketRest mp) : Multiset ScoredMove) := by
        rw [hms]
        exact Multiset.mem_cons_self _ _
      exact_mod_cast this
    · intro n tail mpF htail
      have hstep : getNextMove mp = some (m, mp2) := gnmf_emit 31 mp m mp2 hpick hm
      have htag : currentMoveType mp2 = PH_EVASIONS := by
        rw [currentMoveType, sameConfig_phaseIdx hcfg]
        exact hphase
      have htail2 := hglue2 n tail mpF htail
      have hcons := emitSeqT_cons mp m mp2 (G1.length + n)
        (G1.map (fun g => (g, PH_EVASIONS)) ++ tail) mpF hstep hm htail2
      rw [htag] at hcons
      have hlen2 : (m :: G1).length + n = (G1.length + n) + 1 := by
        simp [List.length_cons]
        omega
      rw [hlen2, hcons]
      simp

/-! Whole-phase run lemma for PH_QCAPTURES: legality is the only filter, so
the tt move is never suppressed here. -/

theorem emitSeqT_runQCAP : ∀ (N : Nat) (mp : MovePicker), (bucketRest mp).length ≤ N →
    PhaseTable mp.phaseIndex = PH_QCAPTURES →
    (∀ sm ∈ bucketRest mp, -10000000 < sm.score) →
    (∀ sm ∈ bucketRest mp, sm.move ≠ MOVE_NONE) →
    ∃ (G : List Move) (mpD : MovePicker),
      sameConfig mp mpD ∧ bucketRest mpD = [] ∧ mpD.badCaptures = mp.badCaptures ∧
      mpD.badCapturesPicked = mp.badCapturesPicked ∧
      (↑G : Multiset Move) = Multiset.map ScoredMove.move
        (Multiset.filter (fun sm => mp.pos.plMoveIsLegal sm.move = true) ↑(bucketRest mp)) ∧
      ∀ (n : Nat) (tail : List (Move × MovegenPhase)) (mpF : MovePicker),
        emitSeqT n mpD = some (tail, mpF) →
        emitSeqT (G.length + n) mp = some (G.map (fun g => (g, PH_QCAPTURES)) ++ tail, mpF) := by
  intro N
  induction N using Nat.strong_induction_on with
  | _ N ih =>
  intro mp hlen hphase hsc hnz
  obtain ⟨m, mp2, hres, hcfg, hbad, hbadp, hcase⟩ := pickLoopQCaptures_spec mp hsc hnz
  have hpick : pickMoveFromList mp = some (m, mp2) := by
    rw [pickDispatch_QCAP mp hphase]
    exact hres
  rcases hcase with ⟨hm, hdr, hall⟩ | ⟨hm, hpm, sm, skipped, hsm, hms, hskip, _, _⟩
  · subst hm
    refine ⟨[], mp2, hcfg, hdr, hbad, hbadp, ?_, ?_⟩
    · rw [Multiset.coe_nil]
      have hf : Multiset.filter (fun sm => mp.pos.plMoveIsLegal sm.move = true)
          (↑(bucketRest mp) : Multiset ScoredMove) = 0 := by
        rw [Multiset.filter_eq_nil]
        intro a ha
        rw [hall a (by exact_mod_cast ha)]
        simp
      rw [hf]
      rfl
    · intro n tail mpF htail
      have heq : emitSeqT n mp = emitSeqT n mp2 :=
        emitSeqT_congr mp mp2 (getNextMove_eq_of_pick mp mp2 hpick
          (pickSelf_QCAP mp2 (by rw [sameConfig_phaseIdx hcfg]; exact hphase) hdr)) n
      show emitSeqT (0 + n) mp = _
      rw [Nat.zero_add, heq, htail]
      simp
  · have hcard : (bucketRest mp2).length < (bucketRest mp).length := by
      have hc := congrArg Multiset.card hms
      simp only [Multiset.coe_card, Multiset.card_add, Multiset.card_cons] at hc
      omega
    obtain ⟨G1, mpD, hcfg2, hdr2, hbad2, hbadp2, hms2, hglue2⟩ :=
      ih (bucketRest mp2).length (by omega) mp2 le_rfl
        (by rw [sameConfig_phaseIdx hcfg]; exact hphase)
        (by
          intro x hx
          apply hsc
          have : x ∈ (↑(bucketRest mp) : Multiset ScoredMove) := by
            rw [hms]
            exact Multiset.mem_add.mpr (Or.inr (Multiset.mem_cons_of_mem (by exact_mod_cast hx)))
          exact_mod_cast this)
        (by
          intro x hx
          apply hnz
          have : x ∈ (↑(bucketRest mp) : Multiset ScoredMove) := by
            rw [hms]
            exact Multiset.mem_add.mpr (Or.inr (Multiset.mem_cons_of_mem (by exact_mod_cast hx)))
          exact_mod_cast this)
    have hposeq : mp2.pos = mp.pos := sameConfig_pos hcfg
    refine ⟨m :: G1, mpD, sameConfig_trans hcfg hcfg2, hdr2, hbad2.trans hbad,
      hbadp2.trans hbadp, ?_, ?_⟩
    · have hfilter : Multiset.filter (fun x => mp.pos.plMoveIsLegal x.move = true)
          (↑(bucketRest mp) : Multiset ScoredMove)
            = sm ::ₘ Multiset.filter (fun x => mp.pos.plMoveIsLegal x.move = true)
                ↑(bucketRest mp2) := by
        rw [hms, Multiset.filter_add]
        have h0 : Multiset.filter (fun x => mp.pos.plMoveIsLegal x.move = true) skipped = 0 := by
          rw [Multiset.filter_eq_nil]
          intro a ha
          rw [hskip a ha]
          simp
        rw [h0, zero_add,
          @Multiset.filter_cons_of_pos ScoredMove (fun x => mp.pos.plMoveIsLegal x.move = true) _ _ _
            (by show mp.pos.plMoveIsLegal sm.move = true; rw [hsm]; exact hpm)]
      rw [hfilter, Multiset.map_cons, ← Multiset.cons_coe]
      rw [hposeq] at hms2
      rw [hms2, hsm]
    · intro n tail mpF htail
      have hstep : getNextMove mp = some (m, mp2) := gnmf_emit 31 mp m mp2 hpick hm
      have htag : currentMoveType mp2 = PH_QCAPTURES := by
        rw [currentMoveType, sameConfig_phaseIdx hcfg]
        exact hphase
      have htail2 := hglue2 n tail mpF htail
      have hcons := emitSeqT_cons mp m mp2 (G1.length + n)
        (G1.map (fun g => (g, PH_QCAPTURES)) ++ tail) mpF hstep hm htail2
      rw [htag] at hcons
      have hlen2 : (m :: G1).length + n = (G1.length + n) + 1 := by
        simp [List.length_cons]
        omega
      rw [hlen2, hcons]
      simp

/-! Whole-phase run lemma for PH_BAD_CAPTURES: emission in insertion order. -/

theorem emitSeqT_runBAD : ∀ (N : Nat) (mp : MovePicker), (badRest mp).length ≤ N →
    PhaseTable mp.phaseIndex = PH_BAD_CAPTURES →
    (∀ sm ∈ badRest mp, sm.move ≠ MOVE_NONE) →
    ∃ (B : List Move) (mpD : MovePicker),
      sameConfig mp mpD ∧ badRest mpD = [] ∧ mpD.moves = mp.moves ∧
      mpD.movesPicked = mp.movesPicked ∧ mpD.badCaptures = mp.badCaptures ∧
      B = ((badRest mp).filter (fun sm => passMain mp sm.move)).map ScoredMove.move ∧
      ∀ (n : Nat) (tail : List (Move × MovegenPhase)) (mpF : MovePicker),
        emitSeqT n mpD = some (tail, mpF) →
        emitSeqT (B.length + n) mp = some (B.map (fun g => (g, PH_BAD_CAPTURES)) ++ tail, mpF) := by
  intro N
  induction N using Nat.strong_induction_on with
  | _ N ih =>
  intro mp hlen hphase hnz
  obtain ⟨m, mp2, hres, hcfg, hmv, hmvp, hbad, hcase⟩ := pickLoopBadCaptures_spec mp hnz
  have hpick : pickMoveFromList mp = some (m, mp2) := by
    rw [pickDispatch_BAD mp hphase]
    exact hres
  rcases hcase with ⟨hm, hdr, hall⟩ | ⟨hm, hpm, pre, sm, hsplit, hsm, hpre⟩
  · subst hm
    refine ⟨[], mp2, hcfg, hdr, hmv, hmvp, hbad, ?_, ?_⟩
    · symm
      rw [List.map_eq_nil, List.filter_eq_nil]
      intro a ha
      rw [hall a ha]
      simp
    · intro n tail mpF htail
      have heq : emitSeqT n mp = emitSeqT n mp2 :=
        emitSeqT_congr mp mp2 (getNextMove_eq_of_pick mp mp2 hpick
          (pickSelf_BAD mp2 (by rw [sameConfig_phaseIdx hcfg]; exact hphase) hdr)) n
      show emitSeqT (0 + n) mp = _
      rw [Nat.zero_add, heq, htail]
      simp
  · have hcard : (badRest mp2).length < (badRest mp).length := by
      rw [hsplit]
      simp [List.length_append]
      omega
    obtain ⟨B1, mpD, hcfg2, hdr2, hmv2, hmvp2, hbad2, hfl2, hglue2⟩ :=
      ih (badRest mp2).length (by omega) mp2 le_rfl
        (by rw [sameConfig_phaseIdx hcfg]; exact hphase)
        (by
          intro x hx
          apply hnz
          rw [hsplit]
          exact List.mem_append.mpr (Or.inr (List.mem_cons_of_mem _ hx)))
    have hpcongr : passMain mp2 = passMain mp := passMain_congr hcfg
    refine ⟨m :: B1, mpD, sameConfig_trans hcfg hcfg2, hdr2, hmv2.trans hmv,
      hmvp2.trans hmvp, hbad2.trans hbad, ?_, ?_⟩
    · rw [hsplit, List.filter_append, List.filter_cons_of_pos (by rw [hsm]; exact hpm)]
      have hprenil : pre.filter (fun sm => passMain mp sm.move) = [] := by
        rw [List.filter_eq_nil]
        intro a ha
        rw [hpre a ha]
        simp
      rw [hprenil, List.nil_append, List.map_cons, hsm]
      rw [hfl2, hpcongr]
    · intro n tail mpF htail
      have hstep : getNextMove mp = some (m, mp2) := gnmf_emit 31 mp m mp2 hpick hm
      have htag : currentMoveType mp2 = PH_BAD_CAPTURES := by
        rw [currentMoveType, sameConfig_phaseIdx hcfg]
        exact hphase
      have htail2 := hglue2 n tail mpF htail
      have hcons := emitSeqT_cons mp m mp2 (B1.length + n)
        (B1.map (fun g => (g, PH_BAD_CAPTURES)) ++ tail) mpF hstep hm htail2
      rw [htag] at hcons
      have hlen2 : (m :: B1).length + n = (B1.length + n) + 1 := by
        simp [List.length_cons]
        omega
      rw [hlen2, hcons]
      simp

/-! Whole-phase run lemma for PH_QCHECKS: generator order, legality filter
only, no tt suppression. -/

theorem emitSeqT_runQCHK : ∀ (N : Nat) (mp : MovePicker), (bucketRest mp).length ≤ N →
    PhaseTable mp.phaseIndex = PH_QCHECKS →
    (∀ sm ∈ bucketRest mp, sm.move ≠ MOVE_NONE) →
    ∃ (Q : List Move) (mpD : MovePicker),
      sameConfig mp mpD ∧ bucketRest mpD = [] ∧ mpD.badCaptures = mp.badCaptures ∧
      mpD.badCapturesPicked = mp.badCapturesPicked ∧
      Q = ((bucketRest mp).filter (fun sm => mp.pos.plMoveIsLegal sm.move)).map ScoredMove.move ∧
      ∀ (n : Nat) (tail : List (Move × MovegenPhase)) (mpF : MovePicker),
        emitSeqT n mpD = some (tail, mpF) →
        emitSeqT (Q.length + n) mp = some (Q.map (fun g => (g, PH_QCHECKS)) ++ tail, mpF) := by
  intro N
  induction N using Nat.strong_induction_on with
  | _ N ih =>
  intro mp hlen hphase hnz
  obtain ⟨m, mp2, hres, hcfg, hmv, hbad, hbadp, hcase⟩ := pickLoopQChecks_spec mp hnz
  have hpick : pickMoveFromList mp = some (m, mp2) := by
    rw [pickDispatch_QCHK mp hphase]
    exact hres
  rcases hcase with ⟨hm, hdr, hall⟩ | ⟨hm, hpm, pre, sm, hsplit, hsm, hpre⟩
  · subst hm
    refine ⟨[], mp2, hcfg, hdr, hbad, hbadp, ?_, ?_⟩
    · symm
      rw [List.map_eq_nil, List.filter_eq_nil]
      intro a ha
      rw [hall a ha]
      simp
    · intro n tail mpF htail
      have heq : emitSeqT n mp = emitSeqT n mp2 :=
        emitSeqT_congr mp mp2 (getNextMove_eq_of_pick mp mp2 hpick
          (pickSelf_QCHK mp2 (by rw [sameConfig_phaseIdx hcfg]; exact hphase) hdr)) n
      show emitSeqT (0 + n) mp = _
      rw [Nat.zero_add, heq, htail]
      simp
  · have hcard : (bucketRest mp2).length < (bucketRest mp).length := by
      rw [hsplit]
      simp [List.length_append]
      omega
    obtain ⟨Q1, mpD, hcfg2, hdr2, hbad2, hbadp2, hfl2, hglue2⟩ :=
      ih (bucketRest mp2).length (by omega) mp2 le_rfl
        (by rw [sameConfig_phaseIdx hcfg]; exact hphase)
        (by
          intro x hx
          apply hnz
          rw [hsplit]
          exact List.mem_append.mpr (Or.inr (List.mem_cons_of_mem _ hx)))
    have hposeq : mp2.pos = mp.pos := sameConfig_pos hcfg
    refine ⟨m :: Q1, mpD, sameConfig_trans hcfg hcfg2, hdr2, hbad2.trans hbad,
      hbadp2.trans hbadp, ?_, ?_⟩
    · rw [hsplit, List.filter_append, List.filter_cons_of_pos (by rw [hsm]; exact hpm)]
      have hprenil : pre.filter (fun sm => mp.pos.plMoveIsLegal sm.move) = [] := by
        rw [List.filter_eq_nil]
        intro a ha
        rw [hpre a ha]
        simp
      rw [hprenil, List.nil_append, List.map_cons, hsm]
      rw [hfl2, hposeq]
    · intro n tail mpF htail
      have hstep : getNextMove mp = some (m, mp2) := gnmf_emit 31 mp m mp2 hpick hm
      have htag : currentMoveType mp2 = PH_QCHECKS := by
        rw [currentMoveType, sameConfig_phaseIdx hcfg]
        exact hphase
      have htail2 := hglue2 n tail mpF htail
      have hcons := emitSeqT_cons mp m mp2 (Q1.length + n)
        (Q1.map (fun g => (g, PH_QCHECKS)) ++ tail) mpF hstep hm htail2
      rw [htag] at hcons
      have hlen2 : (m :: Q1).length + n = (Q1.length + n) + 1 := by
        simp [List.length_cons]
        omega
      rw [hlen2, hcons]
      simp

/-! Projections of sameConfig and phaseEntry used by the scenario assemblies. -/

theorem sameConfig_pvNode {a b : MovePicker} (h : sameConfig a b) : b.pvNode = a.pvNode := h.2.1

theorem sameConfig_ttMove {a b : MovePicker} (h : sameConfig a b) : b.ttMove = a.ttMove := h.2.2.1

theorem sameConfig_mateKiller {a b : MovePicker} (h : sameConfig a b) :
    b.mateKiller = a.mateKiller := h.2.2.2.1

theorem sameConfig_killer1 {a b : MovePicker} (h : sameConfig a b) :
    b.killer1 = a.killer1 := h.2.2.2.2.1

theorem sameConfig_killer2 {a b : MovePicker} (h : sameConfig a b) :
    b.killer2 = a.killer2 := h.2.2.2.2.2.1

theorem sameConfig_depth {a b : MovePicker} (h : sameConfig a b) : b.depth = a.depth :=
  h.2.2.2.2.2.2.1

theorem sameConfig_finished {a b : MovePicker} (h : sameConfig a b) : b.finished = a.finished :=
  h.2.2.2.2.2.2.2.2

theorem phaseEntry_eq_GC (mp : MovePicker) (h : PhaseTable mp.phaseIndex = PH_GOOD_CAPTURES) :
    phaseEntry mp = { mp with
      moves := (scoreCaptures mp.pos (mp.pos.genCaptures.map (fun m => ⟨m, 0⟩)) mp.badCaptures).1
      badCaptures :=
        (scoreCaptures mp.pos (mp.pos.genCaptures.map (fun m => ⟨m, 0⟩)) mp.badCaptures).2
      movesPicked := 0 } := by
  rw [phaseEntry, h]

theorem phaseEntry_eq_NC (mp : MovePicker) (h : PhaseTable mp.phaseIndex = PH_NONCAPTURES) :
    phaseEntry mp = { mp with
      moves := scoreNoncapturesList mp.pos mp.killer1 mp.killer2 mp.pos.genNoncaptures
      movesPicked := 0 } := by
  rw [phaseEntry, h]

theorem phaseEntry_eq_BAD (mp : MovePicker) (h : PhaseTable mp.phaseIndex = PH_BAD_CAPTURES) :
    phaseEntry mp = { mp with badCapturesPicked := 0 } := by
  rw [phaseEntry, h]

theorem phaseEntry_eq_EV (mp : MovePicker) (h : PhaseTable mp.phaseIndex = PH_EVASIONS) :
    phaseEntry mp = { mp with
      moves := scoreEvasionsList mp.pos mp.ttMove mp.pos.genEvasions
      movesPicked := 0 } := by
  rw [phaseEntry, h]

theorem phaseEntry_eq_QCAP (mp : MovePicker) (h : PhaseTable mp.phaseIndex = PH_QCAPTURES) :
    phaseEntry mp = { mp with
      moves := scoreQcapturesList mp.pos mp.pos.genCaptures
      movesPicked := 0 } := by
  rw [phaseEntry, h]

theorem phaseEntry_eq_QCHK (mp : MovePicker) (h : PhaseTable mp.phaseIndex = PH_QCHECKS) :
    phaseEntry mp = { mp with
      moves := mp.pos.genChecks.map (fun m => ⟨m, 0⟩)
      movesPicked := 0 } := by
  rw [phaseEntry, h]

/-! List and multiset helpers for the assemblies. -/

theorem map_move_filter (pr : Move → Bool) (S : List ScoredMove) :
    Multiset.map ScoredMove.move
        (Multiset.filter (fun sm => pr sm.move = true) (↑S : Multiset ScoredMove))
      = Multiset.filter (fun m => pr m = true) (Multiset.map ScoredMove.move ↑S) := by
  induction S with
  | nil => rfl
  | cons a S ih =>
    by_cases h : pr a.move = true
    · rw [← Multiset.cons_coe,
        @Multiset.filter_cons_of_pos ScoredMove (fun sm => pr sm.move = true) _ _ _ h,
        Multiset.map_cons, Multiset.map_cons,
        @Multiset.filter_cons_of_pos Move (fun m => pr m = true) _ _ _ h, ih]
    · rw [← Multiset.cons_coe,
        @Multiset.filter_cons_of_neg ScoredMove (fun sm => pr sm.move = true) _ _ _ h,
        Multiset.map_cons,
        @Multiset.filter_cons_of_neg Move (fun m => pr m = true) _ _ _ h, ih]

theorem coe_list_filter (pr : α → Bool) (l : List α) :
    (↑(l.filter pr) : Multiset α) = Multiset.filter (fun a => pr a = true) (↑l : Multiset α) := by
  induction l with
  | nil => rfl
  | cons a l ih =>
    by_cases h : pr a = true
    · rw [List.filter_cons_of_pos h, ← Multiset.cons_coe, ← Multiset.cons_coe,
        @Multiset.filter_cons_of_pos α (fun a => pr a = true) _ _ _ h, ih]
    · rw [List.filter_cons_of_neg (by simpa using h), ← Multiset.cons_coe,
        @Multiset.filter_cons_of_neg α (fun a => pr a = true) _ _ _ h, ih]

theorem coe_list_map (f : α → β) (l : List α) :
    (↑(l.map f) : Multiset β) = Multiset.map f (↑l : Multiset α) := by
  induction l with
  | nil => rfl
  | cons a l ih => rw [List.map_cons, ← Multiset.cons_coe, ← Multiset.cons_coe,
      Multiset.map_cons, ih]

theorem zip_replicate_self (W : List Nat) (c : Move) :
    W.zip (List.replicate W.length c) = W.map (fun w => (w, c)) := by
  induction W with
  | nil => rfl
  | cons w W ih => simp [List.replicate_succ, ih]

/-! Single-shot glue: the TT and mate-killer rows contribute their move, or
nothing, to the emission sequence. -/

theorem emitSeqT_ttGlue (mp : MovePicker) (hself : pickMoveFromList mp = some (MOVE_NONE, mp))
    (hph : -1 ≤ mp.phaseIndex) (hm : PhaseTable (mp.phaseIndex + 1) = PH_TT_MOVE) :
    ∃ Tt : List Move,
      Tt = (if mp.ttMove ≠ MOVE_NONE ∧ mp.pos.moveIsLegal mp.ttMove = true
        then [mp.ttMove] else []) ∧
      ∀ (n : Nat) (tail : List (Move × MovegenPhase)) (mpF : MovePicker),
        emitSeqT n (advancePhase mp) = some (tail, mpF) →
        emitSeqT (Tt.length + n) mp = some (Tt.map (fun g => (g, PH_TT_MOVE)) ++ tail, mpF) := by
  by_cases hc : mp.ttMove ≠ MOVE_NONE ∧ mp.pos.moveIsLegal mp.ttMove = true
  · refine ⟨[mp.ttMove], (if_pos hc).symm, ?_⟩
    intro n tail mpF htail
    have := emitSeqT_ttEmit mp n tail mpF hself hm hc htail
    simpa [Nat.add_comm] using this
  · refine ⟨[], (if_neg hc).symm, ?_⟩
    intro n tail mpF htail
    have := emitSeqT_ttSkip mp hself hph hm hc n
    simpa [this] using htail

theorem emitSeqT_mkGlue (mp : MovePicker) (hself : pickMoveFromList mp = some (MOVE_NONE, mp))
    (hph : -1 ≤ mp.phaseIndex) (hm : PhaseTable (mp.phaseIndex + 1) = PH_MATE_KILLER) :
    ∃ K : List Move,
      K = (if mp.mateKiller ≠ MOVE_NONE ∧ mp.pos.moveIsLegal mp.mateKiller = true
        then [mp.mateKiller] else []) ∧
      ∀ (n : Nat) (tail : List (Move × MovegenPhase)) (mpF : MovePicker),
        emitSeqT n (advancePhase mp) = some (tail, mpF) →
        emitSeqT (K.length + n) mp = some (K.map (fun g => (g, PH_MATE_KILLER)) ++ tail, mpF) := by
  by_cases hc : mp.mateKiller ≠ MOVE_NONE ∧ mp.pos.moveIsLegal mp.mateKiller = true
  · refine ⟨[mp.mateKiller], (if_pos hc).symm, ?_⟩
    intro n tail mpF htail
    have := emitSeqT_mkEmit mp n tail mpF hself hm hc htail
    simpa [Nat.add_comm] using this
  · refine ⟨[], (if_neg hc).symm, ?_⟩
    intro n tail mpF htail
    have := emitSeqT_mkSkip mp hself hph hm hc n
    simpa [this] using htail

/-! The drains never touch the finished latch. -/

theorem pickLoopGoodCaptures_keepF : ∀ (mp : MovePicker) (r : Move × MovePicker),
    pickLoopGoodCaptures mp = some r → r.2.finished = mp.finished := by
  intro mp
  induction mp using pickLoopGoodCaptures.induct with
  | case1 mp h bi hbi =>
    intro r hr
    have hnone : pickLoopGoodCaptures mp = none := by
      rw [pickLoopGoodCaptures, dif_pos h]
      exact if_pos hbi
    rw [hnone] at hr
    cases hr
  | case2 mp h bi hbi r0 hpass =>
    intro r hr
    have hres : pickLoopGoodCaptures mp = some r0 := by
      rw [pickLoopGoodCaptures, dif_pos h]
      have hbi2 : ¬findBestIndex mp.moves mp.movesPicked = -1 := hbi
      simp only [if_neg hbi2]
      exact if_pos hpass
    rw [hres] at hr
    cases hr
    rfl
  | case3 mp h bi hbi r0 hpass ih =>
    intro r hr
    have hres : pickLoopGoodCaptures mp = pickLoopGoodCaptures r0.2 := by
      rw [pickLoopGoodCaptures, dif_pos h]
      have hbi2 : ¬findBestIndex mp.moves mp.movesPicked = -1 := hbi
      simp only [if_neg hbi2]
      exact if_neg hpass
    rw [hres] at hr
    exact (ih r hr).trans rfl
  | case4 mp h =>
    intro r hr
    rw [pickLoopGoodCaptures, dif_neg h] at hr
    cases hr
    rfl

theorem pickLoopNoncaptures_keepF : ∀ (mp : MovePicker) (r : Move × MovePicker),
    pickLoopNoncaptures mp = some r → r.2.finished = mp.finished := by
  intro mp
  induction mp using pickLoopNoncaptures.induct with
  | case1 mp h bi hbi =>
    intro r hr
    have hbi2 : (if mp.pvNode = true ∨ mp.movesPicked < 12 then
        findBestIndex mp.moves mp.movesPicked else (mp.movesPicked : Int)) = -1 := hbi
    have hnone : pickLoopNoncaptures mp = none := by
      rw [pickLoopNoncaptures, dif_pos h]
      exact if_pos hbi2
    rw [hnone] at hr
    cases hr
  | case2 mp h bi hbi r0 hpass =>
    intro r hr
    have hbi2 : ¬(if mp.pvNode = true ∨ mp.movesPicked < 12 then
        findBestIndex mp.moves mp.movesPicked else (mp.movesPicked : Int)) = -1 := hbi
    have hres : pickLoopNoncaptures mp = some r0 := by
      rw [pickLoopNoncaptures, dif_pos h]
      simp only [if_neg hbi2]
      exact if_pos hpass
    rw [hres] at hr
    cases hr
    rfl
  | case3 mp h bi hbi r0 hpass ih =>
    intro r hr
    have hbi2 : ¬(if mp.pvNode = true ∨ mp.movesPicked < 12 then
        findBestIndex mp.moves mp.movesPicked else (mp.movesPicked : Int)) = -1 := hbi
    have hres : pickLoopNoncaptures mp = pickLoopNoncaptures r0.2 := by
      rw [pickLoopNoncaptures, dif_pos h]
      simp only [if_neg hbi2]
      exact if_neg hpass
    rw [hres] at hr
    exact (ih r hr).trans rfl
  | case4 mp h =>
    intro r hr
    rw [pickLoopNoncaptures, dif_neg h] at hr
    cases hr
    rfl

theorem pickLoopEvasions_keepF (mp : MovePicker) (r : Move × MovePicker)
    (hr : pickLoopEvasions mp = some r) : r.2.finished = mp.finished := by
  rw [pickLoopEvasions] at hr
  by_cases h : mp.movesPicked < mp.moves.length
  · rw [dif_pos h] at hr
    by_cases hbi : findBestIndex mp.moves mp.movesPicked = -1
    · rw [if_pos hbi] at hr
      cases hr
    · rw [if_neg hbi] at hr
      cases hr
      rfl
  · rw [dif_neg h] at hr
    cases hr
    rfl

theorem pickLoopBadCaptures_keepF : ∀ (mp : MovePicker) (r : Move × MovePicker),
    pickLoopBadCaptures mp = some r → r.2.finished = mp.finished := by
  intro mp
  induction mp using pickLoopBadCaptures.induct with
  | case1 mp h move hpass =>
    intro r hr
    have hres : pickLoopBadCaptures mp = some (move,
        { mp with badCapturesPicked := mp.badCapturesPicked + 1 }) := by
      rw [pickLoopBadCaptures, dif_pos h]
      exact if_pos hpass
    rw [hres] at hr
    cases hr
    rfl
  | case2 mp h move mp1 hpass ih =>
    intro r hr
    have hres : pickLoopBadCaptures mp = pickLoopBadCaptures mp1 := by
      rw [pickLoopBadCaptures, dif_pos h]
      exact if_neg hpass
    rw [hres] at hr
    exact (ih r hr).trans rfl
  | case3 mp h =>
    intro r hr
    rw [pickLoopBadCaptures, dif_neg h] at hr
    cases hr
    rfl

theorem pickLoopQCaptures_keepF : ∀ (mp : MovePicker) (r : Move × MovePicker),
    pickLoopQCaptures mp = some r → r.2.finished = mp.finished := by
  intro mp
  induction mp using pickLoopQCaptures.induct with
  | case1 mp h bi hbi =>
    intro r hr
    have hbi2 : (if mp.movesPicked < 4 then
        findBestIndex mp.moves mp.movesPicked else (mp.movesPicked : Int)) = -1 := hbi
    have hnone : pickLoopQCaptures mp = none := by
      rw [pickLoopQCaptures, dif_pos h]
      exact if_pos hbi2
    rw [hnone] at hr
    cases hr
  | case2 mp h bi hbi r0 hpass =>
    intro r hr
    have hbi2 : ¬(if mp.movesPicked < 4 then
        findBestIndex mp.moves mp.movesPicked else (mp.movesPicked : Int)) = -1 := hbi
    have hres : pickLoopQCaptures mp = some r0 := by
      rw [pickLoopQCaptures, dif_pos h]
      simp only [if_neg hbi2]
      exact if_pos hpass
    rw [hres] at hr
    cases hr
    rfl
  | case3 mp h bi hbi r0 hpass ih =>
    intro r hr
    have hbi2 : ¬(if mp.movesPicked < 4 then
        findBestIndex mp.moves mp.movesPicked else (mp.movesPicked : Int)) = -1 := hbi
    have hres : pickLoopQCaptures mp = pickLoopQCaptures r0.2 := by
      rw [pickLoopQCaptures, dif_pos h]
      simp only [if_neg hbi2]
      exact if_neg hpass
    rw [hres] at hr
    exact (ih r hr).trans rfl
  | case4 mp h =>
    intro r hr
    rw [pickLoopQCaptures, dif_neg h] at hr
    cases hr
    rfl

theorem pickLoopQChecks_keepF : ∀ (mp : MovePicker) (r : Move × MovePicker),
    pickLoopQChecks mp = some r → r.2.finished = mp.finished := by
  intro mp
  induction mp using pickLoopQChecks.induct with
  | case1 mp h move hpass =>
    intro r hr
    have hres : pickLoopQChecks mp = some (move,
        { mp with movesPicked := mp.movesPicked + 1 }) := by
      rw [pickLoopQChecks, dif_pos h]
      exact if_pos hpass
    rw [hres] at hr
    cases hr
    rfl
  | case2 mp h move mp1 hpass ih =>
    intro r hr
    have hres : pickLoopQChecks mp = pickLoopQChecks mp1 := by
      rw [pickLoopQChecks, dif_pos h]
      exact if_neg hpass
    rw [hres] at hr
    exact (ih r hr).trans rfl
  | case3 mp h =>
    intro r hr
    rw [pickLoopQChecks, dif_neg h] at hr
    cases hr
    rfl

theorem pickMoveFromList_keepF (mp : MovePicker) (r : Move × MovePicker)
    (hr : pickMoveFromList mp = some r) : r.2.finished = mp.finished := by
  rw [pickMoveFromList] at hr
  cases h : PhaseTable mp.phaseIndex <;> rw [h] at hr
  case PH_GOOD_CAPTURES => exact pickLoopGoodCaptures_keepF mp r hr
  case PH_NONCAPTURES => exact pickLoopNoncaptures_keepF mp r hr
  case PH_EVASIONS => exact pickLoopEvasions_keepF mp r hr
  case PH_BAD_CAPTURES => exact pickLoopBadCaptures_keepF mp r hr
  case PH_QCAPTURES => exact pickLoopQCaptures_keepF mp r hr
  case PH_QCHECKS => exact pickLoopQChecks_keepF mp r hr
  all_goals (cases hr; rfl)

theorem phaseEntry_keepF (mp : MovePicker) : (phaseEntry mp).finished = mp.finished := by
  rw [phaseEntry]
  cases PhaseTable mp.phaseIndex <;> rfl

theorem getNextMoveFuel_keepF : ∀ (f : Nat) (mp : MovePicker) (r : Move × MovePicker),
    getNextMoveFuel f mp = some r → r.2.finished = mp.finished := by
  intro f
  induction f with
  | zero =>
    intro mp r h
    exact absurd h (by rw [getNextMoveFuel]; simp)
  | succ f ih =>
    intro mp r h
    cases hpk : pickMoveFromList mp with
    | none =>
      rw [gnmf_none f mp hpk] at h
      cases h
    | some p =>
      obtain ⟨move, mp0⟩ := p
      have hf0 : mp0.finished = mp.finished := pickMoveFromList_keepF mp (move, mp0) hpk
      by_cases hmv : move ≠ MOVE_NONE
      · rw [gnmf_emit f mp move mp0 hpk hmv] at h
        cases h
        exact hf0
      · rw [not_not] at hmv
        subst hmv
        cases hpt : PhaseTable (mp0.phaseIndex + 1) with
        | PH_TT_MOVE =>
          by_cases hc : mp0.ttMove ≠ MOVE_NONE ∧ mp0.pos.moveIsLegal mp0.ttMove = true
          · rw [gnmf_tt_emit f mp mp0 hpk hpt hc] at h
            cases h
            exact hf0
          · rw [gnmf_tt_skip f mp mp0 hpk hpt hc] at h
            exact (ih _ r h).trans hf0
        | PH_MATE_KILLER =>
          by_cases hc : mp0.mateKiller ≠ MOVE_NONE ∧ mp0.pos.moveIsLegal mp0.mateKiller = true
          · rw [gnmf_mk_emit f mp mp0 hpk hpt hc] at h
            cases h
            exact hf0
          · rw [gnmf_mk_skip f mp mp0 hpk hpt hc] at h
            exact (ih _ r h).trans hf0
        | PH_GOOD_CAPTURES =>
          rw [gnmf_gc f mp mp0 hpk hpt] at h
          exact (ih _ r h).trans ((phaseEntry_keepF _).trans hf0)
        | PH_BAD_CAPTURES =>
          rw [gnmf_bad f mp mp0 hpk hpt] at h
          exact (ih _ r h).trans ((phaseEntry_keepF _).trans hf0)
        | PH_NONCAPTURES =>
          rw [gnmf_nc f mp mp0 hpk hpt] at h
          exact (ih _ r h).trans ((phaseEntry_keepF _).trans hf0)
        | PH_EVASIONS =>
          rw [gnmf_ev f mp mp0 hpk hpt] at h
          exact (ih _ r h).trans ((phaseEntry_keepF _).trans hf0)
        | PH_QCAPTURES =>
          rw [gnmf_qcap f mp mp0 hpk hpt] at h
          exact (ih _ r h).trans ((phaseEntry_keepF _).trans hf0)
        | PH_QCHECKS =>
          rw [gnmf_qchk f mp mp0 hpk hpt] at h
          exact (ih _ r h).trans ((phaseEntry_keepF _).trans hf0)
        | PH_STOP =>
          rw [gnmf_stop f mp mp0 hpk hpt] at h
          cases h
          exact hf0
        | PH_KILLER_1 =>
          rw [gnmf_k1 f mp mp0 hpk hpt] at h
          cases h
          exact hf0
        | PH_KILLER_2 =>
          rw [gnmf_k2 f mp mp0 hpk hpt] at h
          cases h
          exact hf0

theorem getNextMove_keepF (mp : MovePicker) (r : Move × MovePicker)
    (hr : getNextMove mp = some r) : r.2.finished = mp.finished :=
  getNextMoveFuel_keepF 32 mp r hr

/-! Inversion of one emission step, and the lock-taking schedule model. -/

theorem emitSeqT_inv (n : Nat) (mp : MovePicker) (E : List (Move × MovegenPhase))
    (mpE : MovePicker) (h : emitSeqT (n + 1) mp = some (E, mpE)) :
    ∃ m mp1, getNextMove mp = some (m, mp1) ∧
      ((m = MOVE_NONE ∧ E = [] ∧ mpE = mp1) ∨
       (m ≠ MOVE_NONE ∧ ∃ l, emitSeqT n mp1 = some (l, mpE) ∧
          E = (m, currentMoveType mp1) :: l)) := by
  cases hg : getNextMove mp with
  | none =>
    rw [emitSeqT, hg] at h
    cases h
  | some p =>
    obtain ⟨m, mp1⟩ := p
    rw [emitSeqT, hg] at h
    have h2 : (if m = MOVE_NONE then some ([], mp1)
        else match emitSeqT n mp1 with
          | none => none
          | some (l, mpF) => some ((m, currentMoveType mp1) :: l, mpF)) = some (E, mpE) := h
    by_cases hm : m = MOVE_NONE
    · rw [if_pos hm] at h2
      injection h2 with hp
      exact ⟨m, mp1, rfl, Or.inl ⟨hm, (congrArg Prod.fst hp).symm, (congrArg Prod.snd hp).symm⟩⟩
    · rw [if_neg hm] at h2
      cases ht : emitSeqT n mp1 with
      | none =>
        rw [ht] at h2
        cases h2
      | some q =>
        obtain ⟨l, mpF2⟩ := q
        rw [ht] at h2
        have h3 : some ((m, currentMoveType mp1) :: l, mpF2) = some (E, mpE) := h2
        injection h3 with hp
        have hsnd : mpF2 = mpE := congrArg Prod.snd hp
        exact ⟨m, mp1, rfl, Or.inr ⟨hm, l, ht.trans (by rw [hsnd]),
          (congrArg Prod.fst hp).symm⟩⟩

theorem emitSeqT_moves_ne : ∀ (n : Nat) (mp : MovePicker) (E : List (Move × MovegenPhase))
    (mpE : MovePicker), emitSeqT n mp = some (E, mpE) → ∀ e ∈ E, e.1 ≠ MOVE_NONE := by
  intro n
  induction n with
  | zero =>
    intro mp E mpE h
    rw [emitSeqT] at h
    cases h
  | succ n ih =>
    intro mp E mpE h e he
    obtain ⟨m, mp1, hg, hcase⟩ := emitSeqT_inv n mp E mpE h
    rcases hcase with ⟨hm, hnil, _⟩ | ⟨hm, l, hl, hE⟩
    · subst hnil
      cases he
    · subst hE
      rcases List.mem_cons.mp he with h1 | h1
      · subst h1
        exact hm
      · exact ih mp1 l mpE hl e h1

theorem runSchedule_finished : ∀ (W : List Nat) (mp : MovePicker), mp.finished = true →
    runSchedule W mp = some (W.map (fun w => (w, MOVE_NONE)), mp) := by
  intro W
  induction W with
  | nil =>
    intro mp _
    rfl
  | cons w ws ih =>
    intro mp h
    have hl : getNextMoveLocked mp = some (MOVE_NONE, mp) := by
      rw [getNextMoveLocked, if_pos h]
    simp [runSchedule, hl, ih mp h]

/-- The lock-taking schedule delivers the single-threaded emission sequence in
order, one move per lock acquisition, then the sentinel to every later
acquirer. -/
theorem runSchedule_emit : ∀ (E : List (Move × MovegenPhase)) (W : List Nat)
    (mp mpE : MovePicker) (n : Nat),
    mp.finished = false → emitSeqT n mp = some (E, mpE) → E.length < W.length →
    ∃ mpF, runSchedule W mp
      = some (W.zip (E.map Prod.fst ++ List.replicate (W.length - E.length) MOVE_NONE), mpF) := by
  intro E
  induction E with
  | nil =>
    intro W mp mpE n hfin hemit hlen
    cases n with
    | zero =>
      rw [emitSeqT] at hemit
      cases hemit
    | succ n =>
      obtain ⟨m, mp1, hg, hcase⟩ := emitSeqT_inv n mp [] mpE hemit
      rcases hcase with ⟨hm, _, _⟩ | ⟨hm, l, _, hE⟩
      · subst hm
        have hnf : ¬mp.finished = true := by
          rw [hfin]
          simp
        have hl : getNextMoveLocked mp = some (MOVE_NONE, { mp1 with finished := true }) := by
          rw [getNextMoveLocked, if_neg hnf]
          simp [hg]
        cases W with
        | nil => simp at hlen
        | cons w ws =>
          refine ⟨{ mp1 with finished := true }, ?_⟩
          have hrest := runSchedule_finished ws { mp1 with finished := true } rfl
          simp [runSchedule, hl, hrest, zip_replicate_self, List.replicate_succ]
      · cases hE
  | cons e E ih =>
    intro W mp mpE n hfin hemit hlen
    cases n with
    | zero =>
      rw [emitSeqT] at hemit
      cases hemit
    | succ n =>
      obtain ⟨m, mp1, hg, hcase⟩ := emitSeqT_inv n mp (e :: E) mpE hemit
      rcases hcase with ⟨_, hnil, _⟩ | ⟨hm, l, hl2, hE⟩
      · cases hnil
      · have hfin1 : mp1.finished = false := (getNextMove_keepF mp (m, mp1) hg).trans hfin
        have hnf : ¬mp.finished = true := by
          rw [hfin]
          simp
        have hlock : getNextMoveLocked mp = some (m, mp1) := by
          rw [getNextMoveLocked, if_neg hnf]
          simp [hg, hm]
        injection hE with hE1 hE2
        subst hE1
        subst hE2
        cases W with
        | nil => simp at hlen
        | cons w ws =>
          have hlen2 : E.length < ws.length := by
            simp only [List.length_cons] at hlen
            omega
          obtain ⟨mpF, hrest⟩ := ih ws mp1 mpE n hfin1 hl2 hlen2
          refine ⟨mpF, ?_⟩
          have hsub : (w :: ws).length - (((m, currentMoveType mp1)) :: E).length
              = ws.length - E.length := by
            simp [List.length_cons]
          simp [runSchedule, hlock, hrest, hsub]

theorem map_move_filter_list (pr : Move → Bool) (S : List ScoredMove) :
    (↑((S.filter (fun sm => pr sm.move)).map ScoredMove.move) : Multiset Move)
      = Multiset.filter (fun m => pr m = true) (↑(S.map ScoredMove.move) : Multiset Move) := by
  rw [coe_list_map ScoredMove.move (S.filter (fun sm => pr sm.move)),
    coe_list_filter (fun sm => pr sm.move) S,
    coe_list_map ScoredMove.move S]
  show Multiset.map ScoredMove.move
      (Multiset.filter (fun sm => pr sm.move = true) (↑S : Multiset ScoredMove))
    = Multiset.filter (fun m => pr m = true) (Multiset.map ScoredMove.move ↑S)
  exact map_move_filter pr S

/-! Whole-run assembly for a fresh MainSearch picker: tt move, mate killer,
good captures, noncaptures and bad captures, in that order, then the
sentinel. -/

theorem mainSearchRun (mp0 : MovePicker)
    (hph : mp0.phaseIndex = -1) (hbc : mp0.badCaptures = [])
    (hscC : ∀ m ∈ mp0.pos.genCaptures, -10000000 < captureScore mp0.pos m)
    (hscN : ∀ m ∈ mp0.pos.genNoncaptures,
      -10000000 < noncaptureScore mp0.pos mp0.killer1 mp0.killer2 m)
    (hnnC : MOVE_NONE ∉ mp0.pos.genCaptures)
    (hnnN : MOVE_NONE ∉ mp0.pos.genNoncaptures) :
    ∃ (Tt K G Nl B : List Move) (mpF : MovePicker),
      emitSeqT (Tt.length + (K.length + (G.length + (Nl.length + (B.length + 1))))) mp0
        = some (Tt.map (fun g => (g, PH_TT_MOVE))
            ++ (K.map (fun g => (g, PH_MATE_KILLER))
            ++ (G.map (fun g => (g, PH_GOOD_CAPTURES))
            ++ (Nl.map (fun g => (g, PH_NONCAPTURES))
            ++ B.map (fun g => (g, PH_BAD_CAPTURES))))), mpF) ∧
      Tt = (if mp0.ttMove ≠ MOVE_NONE ∧ mp0.pos.moveIsLegal mp0.ttMove = true
        then [mp0.ttMove] else []) ∧
      K = (if mp0.mateKiller ≠ MOVE_NONE ∧ mp0.pos.moveIsLegal mp0.mateKiller = true
        then [mp0.mateKiller] else []) ∧
      (↑G : Multiset Move) = Multiset.filter (fun m => passMain mp0 m = true)
        (Multiset.filter (fun m => 0 ≤ mp0.pos.see m) ↑mp0.pos.genCaptures) ∧
      (↑Nl : Multiset Move) = Multiset.filter (fun m => passMain mp0 m = true)
        ↑mp0.pos.genNoncaptures ∧
      (↑B : Multiset Move) = Multiset.filter (fun m => passMain mp0 m = true)
        (Multiset.filter (fun m => ¬0 ≤ mp0.pos.see m) ↑mp0.pos.genCaptures) ∧
      (∀ g0 ∈ G.head?,
        ∃ sm ∈ (scoreCaptures mp0.pos (mp0.pos.genCaptures.map (fun m => ⟨m, 0⟩)) []).1,
          sm.move = g0 ∧
          ∀ x ∈ (scoreCaptures mp0.pos (mp0.pos.genCaptures.map (fun m => ⟨m, 0⟩)) []).1,
            passMain mp0 x.move = true → x.score ≤ sm.score) := by
  have h0self : pickMoveFromList mp0 = some (MOVE_NONE, mp0) :=
    pickSelf_default mp0 (Or.inr (Or.inr (Or.inr (Or.inr (by rw [hph] <;> decide)))))
  have h0tt : PhaseTable (mp0.phaseIndex + 1) = PH_TT_MOVE := by
    rw [hph] <;> decide
  obtain ⟨Tt, hTt0, httGlue⟩ := emitSeqT_ttGlue mp0 h0self (by rw [hph] <;> decide) h0tt
  have hph1 : (advancePhase mp0).phaseIndex = 0 := by
    show mp0.phaseIndex + 1 = 0
    rw [hph] <;> decide
  have h1self : pickMoveFromList (advancePhase mp0) = some (MOVE_NONE, advancePhase mp0) :=
    pickSelf_default _ (Or.inl (by rw [hph1] <;> decide))
  have h1mk : PhaseTable ((advancePhase mp0).phaseIndex + 1) = PH_MATE_KILLER := by
    rw [hph1] <;> decide
  obtain ⟨K, hK0, hmkGlue⟩ := emitSeqT_mkGlue (advancePhase mp0) h1self
    (by rw [hph1] <;> decide) h1mk
  have hK1 : K = (if mp0.mateKiller ≠ MOVE_NONE ∧ mp0.pos.moveIsLegal mp0.mateKiller = true
      then [mp0.mateKiller] else []) := hK0
  have hph2 : (advancePhase (advancePhase mp0)).phaseIndex = 1 := by
    show mp0.phaseIndex + 1 + 1 = 1
    rw [hph] <;> decide
  have h2self : pickMoveFromList (advancePhase (advancePhase mp0))
      = some (MOVE_NONE, advancePhase (advancePhase mp0)) :=
    pickSelf_default _ (Or.inr (Or.inl (by rw [hph2] <;> decide)))
  have h2gc : PhaseTable ((advancePhase (advancePhase mp0)).phaseIndex + 1)
      = PH_GOOD_CAPTURES := by
    rw [hph2] <;> decide
  have hgcEntry := emitSeqT_genEntry (advancePhase (advancePhase mp0)) h2self
    (by rw [hph2] <;> decide) (Or.inl h2gc)
  have h3gc : PhaseTable ((advancePhase (advancePhase (advancePhase mp0))).phaseIndex)
      = PH_GOOD_CAPTURES := h2gc
  have hGrec : phaseEntry (advancePhase (advancePhase (advancePhase mp0)))
      = { advancePhase (advancePhase (advancePhase mp0)) with
          moves := (scoreCaptures mp0.pos (mp0.pos.genCaptures.map (fun m => ⟨m, 0⟩)) []).1
          badCaptures :=
            (scoreCaptures mp0.pos (mp0.pos.genCaptures.map (fun m => ⟨m, 0⟩)) []).2
          movesPicked := 0 } := by
    rw [phaseEntry_eq_GC _ h3gc]
    show ({ advancePhase (advancePhase (advancePhase mp0)) with
        moves := (scoreCaptures mp0.pos (mp0.pos.genCaptures.map (fun m => ⟨m, 0⟩))
          mp0.badCaptures).1
        badCaptures := (scoreCaptures mp0.pos (mp0.pos.genCaptures.map (fun m => ⟨m, 0⟩))
          mp0.badCaptures).2
        movesPicked := 0 } : MovePicker) = _
    rw [hbc]
  have hphG : (phaseEntry (advancePhase (advancePhase (advancePhase mp0)))).phaseIndex = 2 := by
    rw [phaseEntry_phase]
    show mp0.phaseIndex + 1 + 1 + 1 = 2
    rw [hph] <;> decide
  have hGT : PhaseTable
      (phaseEntry (advancePhase (advancePhase (advancePhase mp0)))).phaseIndex
        = PH_GOOD_CAPTURES := by
    rw [hphG] <;> decide
  obtain ⟨hgood, hgoodms, newBad, hbadsplit, hbadms, hbadprops⟩ :=
    scoreCapturesLoop_spec mp0.pos (mp0.pos.genCaptures.map (fun m => ⟨m, 0⟩)) [] 0
      (by intro x hx; simp at hx)
  have hCmap : (mp0.pos.genCaptures.map (fun m => (⟨m, 0⟩ : ScoredMove))).map ScoredMove.move
      = mp0.pos.genCaptures := by
    rw [List.map_map]
    exact List.map_id mp0.pos.genCaptures
  rw [hCmap] at hgoodms hbadms
  have hsceq : scoreCaptures mp0.pos (mp0.pos.genCaptures.map (fun m => ⟨m, 0⟩)) []
      = scoreCapturesLoop mp0.pos (mp0.pos.genCaptures.map (fun m => ⟨m, 0⟩)) [] 0 := rfl
  have hbrG : bucketRest (phaseEntry (advancePhase (advancePhase (advancePhase mp0))))
      = (scoreCaptures mp0.pos (mp0.pos.genCaptures.map (fun m => ⟨m, 0⟩)) []).1 := by
    rw [bucketRest, hGrec]
    rfl
  have hfieldsG :
      (phaseEntry (advancePhase (advancePhase (advancePhase mp0)))).pos = mp0.pos ∧
      (phaseEntry (advancePhase (advancePhase (advancePhase mp0)))).ttMove = mp0.ttMove ∧
      (phaseEntry (advancePhase (advancePhase (advancePhase mp0)))).mateKiller
        = mp0.mateKiller ∧
      (phaseEntry (advancePhase (advancePhase (advancePhase mp0)))).killer1 = mp0.killer1 ∧
      (phaseEntry (advancePhase (advancePhase (advancePhase mp0)))).killer2 = mp0.killer2 := by
    rw [hGrec]
    exact ⟨rfl, rfl, rfl, rfl, rfl⟩
  have hpassG : passMain (phaseEntry (advancePhase (advancePhase (advancePhase mp0))))
      = passMain mp0 := by
    funext m
    simp only [passMain, hfieldsG.1, hfieldsG.2.1, hfieldsG.2.2.1]
  have hmoveMemC : ∀ sm ∈ (scoreCaptures mp0.pos
      (mp0.pos.genCaptures.map (fun m => ⟨m, 0⟩)) []).1, sm.move ∈ mp0.pos.genCaptures := by
    intro sm hsm
    have h1 : sm.move ∈ ((scoreCapturesLoop mp0.pos
        (mp0.pos.genCaptures.map (fun m => ⟨m, 0⟩)) [] 0).1.map ScoredMove.move) :=
      List.mem_map.mpr ⟨sm, by rw [hsceq] at hsm; exact hsm, rfl⟩
    have h2 : sm.move ∈ (↑((scoreCapturesLoop mp0.pos
        (mp0.pos.genCaptures.map (fun m => ⟨m, 0⟩)) [] 0).1.map ScoredMove.move)
          : Multiset Move) := by
      exact_mod_cast h1
    rw [hgoodms] at h2
    exact_mod_cast Multiset.mem_of_mem_filter h2
  have hscG : ∀ sm ∈ bucketRest (phaseEntry (advancePhase (advancePhase (advancePhase mp0)))),
      -10000000 < sm.score := by
    intro sm hsm
    rw [hbrG] at hsm
    have h1 := hgood sm (by rw [hsceq] at hsm; exact hsm)
    rw [h1.2]
    exact hscC sm.move (hmoveMemC sm hsm)
  have hnzG : ∀ sm ∈ bucketRest (phaseEntry (advancePhase (advancePhase (advancePhase mp0)))),
      sm.move ≠ MOVE_NONE := by
    intro sm hsm
    rw [hbrG] at hsm
    intro hz
    apply hnnC
    rw [← hz]
    exact hmoveMemC sm hsm
  obtain ⟨G, mpD, hcfgG, hdrG, hbadG, hbadpG, hmsG, hheadG, hglueG⟩ :=
    emitSeqT_runGC
      (bucketRest (phaseEntry (advancePhase (advancePhase (advancePhase mp0))))).length
      (phaseEntry (advancePhase (advancePhase (advancePhase mp0))))
      le_rfl hGT hscG hnzG
  simp only [hpassG, hbrG] at hmsG hheadG
  have hG1 : (↑G : Multiset Move) = Multiset.filter (fun m => passMain mp0 m = true)
      (Multiset.filter (fun m => 0 ≤ mp0.pos.see m) ↑mp0.pos.genCaptures) := by
    rw [hmsG, map_move_filter (passMain mp0), ← coe_list_map, hsceq, hgoodms]
  have hDphase : mpD.phaseIndex
      = (phaseEntry (advancePhase (advancePhase (advancePhase mp0)))).phaseIndex :=
    sameConfig_phaseIdx hcfgG
  have hDself : pickMoveFromList mpD = some (MOVE_NONE, mpD) :=
    pickSelf_GC mpD (by rw [hDphase]; exact hGT) hdrG
  have hDnc : PhaseTable (mpD.phaseIndex + 1) = PH_NONCAPTURES := by
    rw [hDphase, hphG] <;> decide
  have hncEntry := emitSeqT_genEntry mpD hDself (by rw [hDphase, hphG] <;> decide)
    (Or.inr (Or.inr (Or.inl hDnc)))
  have hDpos : mpD.pos = mp0.pos := (sameConfig_pos hcfgG).trans hfieldsG.1
  have hDtt : mpD.ttMove = mp0.ttMove := (sameConfig_ttMove hcfgG).trans hfieldsG.2.1
  have hDmk : mpD.mateKiller = mp0.mateKiller :=
    (sameConfig_mateKiller hcfgG).trans hfieldsG.2.2.1
  have hDk1 : mpD.killer1 = mp0.killer1 :=
    (sameConfig_killer1 hcfgG).trans hfieldsG.2.2.2.1
  have hDk2 : mpD.killer2 = mp0.killer2 :=
    (sameConfig_killer2 hcfgG).trans hfieldsG.2.2.2.2
  have hDbad : mpD.badCaptures = newBad := by
    rw [hbadG, hGrec]
    show (scoreCaptures mp0.pos (mp0.pos.genCaptures.map (fun m => ⟨m, 0⟩)) []).2 = newBad
    rw [hsceq, hbadsplit, List.nil_append]
  have hNnc : PhaseTable ((advancePhase mpD).phaseIndex) = PH_NONCAPTURES := hDnc
  have hNrec : phaseEntry (advancePhase mpD)
      = { advancePhase mpD with
          moves := scoreNoncapturesList mp0.pos mp0.killer1 mp0.killer2
            mp0.pos.genNoncaptures
          movesPicked := 0 } := by
    rw [phaseEntry_eq_NC _ hNnc]
    show ({ advancePhase mpD with
        moves := scoreNoncapturesList mpD.pos mpD.killer1 mpD.killer2 mpD.pos.genNoncaptures
        movesPicked := 0 } : MovePicker) = _
    rw [hDpos, hDk1, hDk2]
  have hphN : (phaseEntry (advancePhase mpD)).phaseIndex = 3 := by
    rw [phaseEntry_phase]
    show mpD.phaseIndex + 1 = 3
    rw [hDphase, hphG] <;> decide
  have hNT : PhaseTable (phaseEntry (advancePhase mpD)).phaseIndex = PH_NONCAPTURES := by
    rw [hphN] <;> decide
  have hbrN : bucketRest (phaseEntry (advancePhase mpD))
      = scoreNoncapturesList mp0.pos mp0.killer1 mp0.killer2 mp0.pos.genNoncaptures := by
    rw [bucketRest, hNrec]
    rfl
  have hfieldsN :
      (phaseEntry (advancePhase mpD)).pos = mp0.pos ∧
      (phaseEntry (advancePhase mpD)).ttMove = mp0.ttMove ∧
      (phaseEntry (advancePhase mpD)).mateKiller = mp0.mateKiller ∧
      (phaseEntry (advancePhase mpD)).badCaptures = newBad := by
    rw [hNrec]
    exact ⟨hDpos, hDtt, hDmk, hDbad⟩
  have hpassN : passMain (phaseEntry (advancePhase mpD)) = passMain mp0 := by
    funext m
    simp only [passMain, hfieldsN.1, hfieldsN.2.1, hfieldsN.2.2.1]
  have hscN2 : ∀ sm ∈ bucketRest (phaseEntry (advancePhase mpD)), -10000000 < sm.score := by
    intro sm hsm
    rw [hbrN] at hsm
    obtain ⟨m, hm1, hm2⟩ := List.mem_map.mp hsm
    rw [← hm2]
    exact hscN m hm1
  have hnzN : ∀ sm ∈ bucketRest (phaseEntry (advancePhase mpD)), sm.move ≠ MOVE_NONE := by
    intro sm hsm
    rw [hbrN] at hsm
    obtain ⟨m, hm1, hm2⟩ := List.mem_map.mp hsm
    rw [← hm2]
    intro hz
    apply hnnN
    rw [← hz]
    exact hm1
  obtain ⟨Nl, mpD2, hcfgN, hdrN, hbadN, hbadpN, hmsN, hglueN⟩ :=
    emitSeqT_runNC (bucketRest (phaseEntry (advancePhase mpD))).length
      (phaseEntry (advancePhase mpD)) le_rfl hNT hscN2 hnzN
  simp only [hpassN, hbrN] at hmsN
  have hNmap : (scoreNoncapturesList mp0.pos mp0.killer1 mp0.killer2
      mp0.pos.genNoncaptures).map ScoredMove.move = mp0.pos.genNoncaptures := by
    rw [scoreNoncapturesList, List.map_map]
    exact List.map_id mp0.pos.genNoncaptures
  have hNl1 : (↑Nl : Multiset Move) = Multiset.filter (fun m => passMain mp0 m = true)
      ↑mp0.pos.genNoncaptures := by
    rw [hmsN, map_move_filter (passMain mp0), ← coe_list_map, hNmap]
  have hD2phase : mpD2.phaseIndex = (phaseEntry (advancePhase mpD)).phaseIndex :=
    sameConfig_phaseIdx hcfgN
  have hD2self : pickMoveFromList mpD2 = some (MOVE_NONE, mpD2) :=
    pickSelf_NC mpD2 (by rw [hD2phase]; exact hNT) hdrN
  have hD2bad : PhaseTable (mpD2.phaseIndex + 1) = PH_BAD_CAPTURES := by
    rw [hD2phase, hphN] <;> decide
  have hbadEntry := emitSeqT_genEntry mpD2 hD2self (by rw [hD2phase, hphN] <;> decide)
    (Or.inr (Or.inl hD2bad))
  have hD2pos : mpD2.pos = mp0.pos := (sameConfig_pos hcfgN).trans hfieldsN.1
  have hD2tt : mpD2.ttMove = mp0.ttMove := (sameConfig_ttMove hcfgN).trans hfieldsN.2.1
  have hD2mk : mpD2.mateKiller = mp0.mateKiller :=
    (sameConfig_mateKiller hcfgN).trans hfieldsN.2.2.1
  have hD2badc : mpD2.badCaptures = newBad := hbadN.trans hfieldsN.2.2.2
  have hBbad : PhaseTable ((advancePhase mpD2).phaseIndex) = PH_BAD_CAPTURES := hD2bad
  have hBrec : phaseEntry (advancePhase mpD2)
      = { advancePhase mpD2 with badCapturesPicked := 0 } :=
    phaseEntry_eq_BAD _ hBbad
  have hphB : (phaseEntry (advancePhase mpD2)).phaseIndex = 4 := by
    rw [phaseEntry_phase]
    show mpD2.phaseIndex + 1 = 4
    rw [hD2phase, hphN] <;> decide
  have hBT : PhaseTable (phaseEntry (advancePhase mpD2)).phaseIndex = PH_BAD_CAPTURES := by
    rw [hphB] <;> decide
  have hbrB : badRest (phaseEntry (advancePhase mpD2)) = newBad := by
    rw [badRest, hBrec]
    show (mpD2.badCaptures).drop 0 = newBad
    rw [List.drop_zero, hD2badc]
  have hfieldsB :
      (phaseEntry (advancePhase mpD2)).pos = mp0.pos ∧
      (phaseEntry (advancePhase mpD2)).ttMove = mp0.ttMove ∧
      (phaseEntry (advancePhase mpD2)).mateKiller = mp0.mateKiller := by
    rw [hBrec]
    exact ⟨hD2pos, hD2tt, hD2mk⟩
  have hpassB : passMain (phaseEntry (advancePhase mpD2)) = passMain mp0 := by
    funext m
    simp only [passMain, hfieldsB.1, hfieldsB.2.1, hfieldsB.2.2]
  have hbadMemC : ∀ x ∈ newBad, x.move ∈ mp0.pos.genCaptures := by
    intro x hx
    have h1 : x.move ∈ (↑(newBad.map ScoredMove.move) : Multiset Move) := by
      exact_mod_cast List.mem_map.mpr ⟨x, hx, rfl⟩
    rw [hbadms] at h1
    exact_mod_cast Multiset.mem_of_mem_filter h1
  have hnzB : ∀ sm ∈ badRest (phaseEntry (advancePhase mpD2)), sm.move ≠ MOVE_NONE := by
    intro sm hsm
    rw [hbrB] at hsm
    intro hz
    apply hnnC
    rw [← hz]
    exact hbadMemC sm hsm
  obtain ⟨B, mpD3, hcfgB, hdrB, hmvB, hmvpB, hbadB, hflB, hglueB⟩ :=
    emitSeqT_runBAD (badRest (phaseEntry (advancePhase mpD2))).length
      (phaseEntry (advancePhase mpD2)) le_rfl hBT hnzB
  simp only [hpassB, hbrB] at hflB
  have hB1 : (↑B : Multiset Move) = Multiset.filter (fun m => passMain mp0 m = true)
      (Multiset.filter (fun m => ¬0 ≤ mp0.pos.see m) ↑mp0.pos.genCaptures) := by
    rw [hflB, map_move_filter_list (passMain mp0) newBad, hbadms]
  have hD3phase : mpD3.phaseIndex = (phaseEntry (advancePhase mpD2)).phaseIndex :=
    sameConfig_phaseIdx hcfgB
  have hD3self : pickMoveFromList mpD3 = some (MOVE_NONE, mpD3) :=
    pickSelf_BAD mpD3 (by rw [hD3phase]; exact hBT) hdrB
  have hD3stop : PhaseTable (mpD3.phaseIndex + 1) = PH_STOP := by
    rw [hD3phase, hphB] <;> decide
  have hstop : emitSeqT (0 + 1) mpD3 = some ([], advancePhase mpD3) :=
    emitSeqT_stopEntry mpD3 0 hD3self hD3stop
  have h1 := hglueB 1 [] (advancePhase mpD3) hstop
  rw [List.append_nil] at h1
  have h2 : emitSeqT (B.length + 1) mpD2
      = some (B.map (fun g => (g, PH_BAD_CAPTURES)), advancePhase mpD3) := by
    rw [hbadEntry]
    exact h1
  have h3 := hglueN (B.length + 1) (B.map (fun g => (g, PH_BAD_CAPTURES)))
    (advancePhase mpD3) h2
  have h4 : emitSeqT (Nl.length + (B.length + 1)) mpD
      = some (Nl.map (fun g => (g, PH_NONCAPTURES))
          ++ B.map (fun g => (g, PH_BAD_CAPTURES)), advancePhase mpD3) := by
    rw [hncEntry]
    exact h3
  have h5 := hglueG (Nl.length + (B.length + 1))
    (Nl.map (fun g => (g, PH_NONCAPTURES)) ++ B.map (fun g => (g, PH_BAD_CAPTURES)))
    (advancePhase mpD3) h4
  have h6 : emitSeqT (G.length + (Nl.length + (B.length + 1)))
      (advancePhase (advancePhase mp0))
        = some (G.map (fun g => (g, PH_GOOD_CAPTURES))
          ++ (Nl.map (fun g => (g, PH_NONCAPTURES))
          ++ B.map (fun g => (g, PH_BAD_CAPTURES))), advancePhase mpD3) := by
    rw [hgcEntry]
    exact h5
  have h7 := hmkGlue (G.length + (Nl.length + (B.length + 1)))
    (G.map (fun g => (g, PH_GOOD_CAPTURES))
      ++ (Nl.map (fun g => (g, PH_NONCAPTURES)) ++ B.map (fun g => (g, PH_BAD_CAPTURES))))
    (advancePhase mpD3) h6
  have h8 := httGlue (K.length + (G.length + (Nl.length + (B.length + 1))))
    (K.map (fun g => (g, PH_MATE_KILLER))
      ++ (G.map (fun g => (g, PH_GOOD_CAPTURES))
      ++ (Nl.map (fun g => (g, PH_NONCAPTURES)) ++ B.map (fun g => (g, PH_BAD_CAPTURES)))))
    (advancePhase mpD3) h7
  exact ⟨Tt, K, G, Nl, B, advancePhase mpD3, h8, hTt0, hK1, hG1, hNl1, hB1, hheadG⟩

/-! The MainSearch emission multiset is exactly the legal-move multiset, when
the external generator and the two legality predicates are consistent. -/

theorem count_coe_append (a : Move) (l1 l2 : List Move) :
    Multiset.count a (↑(l1 ++ l2) : Multiset Move)
      = Multiset.count a (↑l1 : Multiset Move) + Multiset.count a (↑l2 : Multiset Move) := by
  show Multiset.count a ((↑l1 : Multiset Move) + ↑l2) = _
  rw [Multiset.count_add]

theorem count_coe_opt_singleton (a b : Move) (c : Prop) [Decidable c] :
    Multiset.count a (↑(if c then [b] else []) : Multiset Move)
      = if c ∧ a = b then 1 else 0 := by
  by_cases h1 : c
  · rw [if_pos h1]
    by_cases h2 : a = b
    · rw [if_pos ⟨h1, h2⟩, Multiset.coe_count, List.count_cons]
      simp [h2]
    · rw [if_neg (fun hc => h2 hc.2), Multiset.coe_count, List.count_cons]
      simp [Ne.symm h2]
  · rw [if_neg h1, if_neg (fun hc => h1 hc.1)]
    rfl

theorem mainSearchMoves (mp0 : MovePicker)
    (hph : mp0.phaseIndex = -1) (hbc : mp0.badCaptures = [])
    (hchk : mp0.pos.isCheck = false)
    (hmk : mp0.mateKiller ≠ MOVE_NONE → mp0.mateKiller ≠ mp0.ttMove)
    (hscC : ∀ m ∈ mp0.pos.genCaptures, -10000000 < captureScore mp0.pos m)
    (hscN : ∀ m ∈ mp0.pos.genNoncaptures,
      -10000000 < noncaptureScore mp0.pos mp0.killer1 mp0.killer2 m)
    (hnnC : MOVE_NONE ∉ mp0.pos.genCaptures)
    (hnnN : MOVE_NONE ∉ mp0.pos.genNoncaptures)
    (hnodup : (mp0.pos.genCaptures ++ mp0.pos.genNoncaptures).Nodup)
    (hlegal : ∀ m, mp0.pos.moveIsLegal m = true ↔
      (m ∈ mp0.pos.genCaptures ++ mp0.pos.genNoncaptures ∧ mp0.pos.plMoveIsLegal m = true)) :
    ∃ (F : Nat) (L : List Move), emitSeq F mp0 = some L ∧
      (↑L : Multiset Move) = ↑(Pos.legalMoves mp0.pos) ∧
      L.Nodup ∧ L.length = (Pos.legalMoves mp0.pos).length := by
  obtain ⟨Tt, K, G, Nl, B, mpF, hrun, hTt, hK, hG, hNl, hB, _⟩ :=
    mainSearchRun mp0 hph hbc hscC hscN hnnC hnnN
  have hlm : Pos.legalMoves mp0.pos
      = (mp0.pos.genCaptures ++ mp0.pos.genNoncaptures).filter
          (fun m => mp0.pos.plMoveIsLegal m) := by
    rw [Pos.legalMoves, if_neg (by rw [hchk]; simp)]
  have hml : (↑(Tt ++ (K ++ (G ++ (Nl ++ B)))) : Multiset Move)
      = ↑(Pos.legalMoves mp0.pos) := by
    rw [hlm, coe_list_filter]
    refine Multiset.ext.mpr fun a => ?_
    rw [count_coe_append, count_coe_append, count_coe_append, count_coe_append,
      hG, hNl, hB, Multiset.count_filter, Multiset.count_filter, Multiset.count_filter,
      Multiset.count_filter, Multiset.count_filter, Multiset.count_filter, count_coe_append,
      hTt, hK, count_coe_opt_singleton, count_coe_opt_singleton]
    have hle : Multiset.count a (↑mp0.pos.genCaptures : Multiset Move)
        + Multiset.count a (↑mp0.pos.genNoncaptures : Multiset Move) ≤ 1 := by
      have h1 : (↑(mp0.pos.genCaptures ++ mp0.pos.genNoncaptures) : Multiset Move).Nodup :=
        Multiset.coe_nodup.mpr hnodup
      have h2 := Multiset.nodup_iff_count_le_one.mp h1 a
      rw [count_coe_append] at h2
      exact h2
    have hmemc : a ∈ mp0.pos.genCaptures ++ mp0.pos.genNoncaptures ↔
        0 < Multiset.count a (↑mp0.pos.genCaptures : Multiset Move)
          + Multiset.count a (↑mp0.pos.genNoncaptures : Multiset Move) := by
      rw [List.mem_append, Multiset.coe_count, Multiset.coe_count]
      constructor
      · rintro (h | h)
        · have := List.count_pos_iff.mpr h
          omega
        · have := List.count_pos_iff.mpr h
          omega
      · intro h
        by_cases h1 : 0 < mp0.pos.genCaptures.count a
        · exact Or.inl (List.count_pos_iff.mp h1)
        · exact Or.inr (List.count_pos_iff.mp (by omega))
    have hbridge : mp0.pos.moveIsLegal a = true ↔
        (0 < Multiset.count a (↑mp0.pos.genCaptures : Multiset Move)
          + Multiset.count a (↑mp0.pos.genNoncaptures : Multiset Move)
          ∧ mp0.pos.plMoveIsLegal a = true) := by
      rw [hlegal a, hmemc]
    have hnonec : a = MOVE_NONE →
        Multiset.count a (↑mp0.pos.genCaptures : Multiset Move) = 0
          ∧ Multiset.count a (↑mp0.pos.genNoncaptures : Multiset Move) = 0 := by
      intro h0
      rw [Multiset.coe_count, Multiset.coe_count]
      constructor
      · exact List.count_eq_zero.mpr (by rw [h0]; exact hnnC)
      · exact List.count_eq_zero.mpr (by rw [h0]; exact hnnN)
    by_cases hP : passMain mp0 a = true
    · obtain ⟨hatt, hamk, hpl⟩ := (passMain_true_iff mp0 a).mp hP
      rw [if_neg (fun hc => hatt hc.2), if_neg (fun hc => hamk hc.2)]
      simp only [if_pos hP, if_pos hpl]
      by_cases hS : 0 ≤ mp0.pos.see a
      · rw [if_pos hS, if_neg (not_not_intro hS)]
        omega
      · rw [if_neg hS, if_pos hS]
        omega
    · simp only [if_neg hP]
      by_cases hatt : a = mp0.ttMove
      · have hCKz : ¬((mp0.mateKiller ≠ MOVE_NONE
            ∧ mp0.pos.moveIsLegal mp0.mateKiller = true) ∧ a = mp0.mateKiller) := by
          rintro ⟨⟨hkne, _⟩, hak⟩
          exact hmk hkne (by rw [← hak, ← hatt])
        rw [if_neg hCKz]
        by_cases hCT : (mp0.ttMove ≠ MOVE_NONE ∧ mp0.pos.moveIsLegal mp0.ttMove = true)
            ∧ a = mp0.ttMove
        · rw [if_pos hCT]
          have hbr := hbridge.mp (by rw [hatt]; exact hCT.1.2)
          rw [if_pos hbr.2]
          omega
        · rw [if_neg hCT]
          by_cases hL : mp0.pos.plMoveIsLegal a = true
          · rw [if_pos hL]
            by_contra hne
            have hpos : 0 < Multiset.count a (↑mp0.pos.genCaptures : Multiset Move)
                + Multiset.count a (↑mp0.pos.genNoncaptures : Multiset Move) := by
              omega
            have hlegala : mp0.pos.moveIsLegal a = true := hbridge.mpr ⟨hpos, hL⟩
            have hanz : a ≠ MOVE_NONE := by
              intro h0
              obtain ⟨e1, e2⟩ := hnonec h0
              omega
            exact hCT ⟨⟨by rw [← hatt]; exact hanz, by rw [← hatt]; exact hlegala⟩, hatt⟩
          · rw [if_neg hL]
      · rw [if_neg (fun hc => hatt hc.2)]
        by_cases hamk : a = mp0.mateKiller
        · by_cases hCK : (mp0.mateKiller ≠ MOVE_NONE
              ∧ mp0.pos.moveIsLegal mp0.mateKiller = true) ∧ a = mp0.mateKiller
          · rw [if_pos hCK]
            have hbr := hbridge.mp (by rw [hamk]; exact hCK.1.2)
            rw [if_pos hbr.2]
            omega
          · rw [if_neg hCK]
            by_cases hL : mp0.pos.plMoveIsLegal a = true
            · rw [if_pos hL]
              by_contra hne
              have hpos : 0 < Multiset.count a (↑mp0.pos.genCaptures : Multiset Move)
                  + Multiset.count a (↑mp0.pos.genNoncaptures : Multiset Move) := by
                omega
              have hlegala : mp0.pos.moveIsLegal a = true := hbridge.mpr ⟨hpos, hL⟩
              have hanz : a ≠ MOVE_NONE := by
                intro h0
                obtain ⟨e1, e2⟩ := hnonec h0
                omega
              exact hCK ⟨⟨by rw [← hamk]; exact hanz, by rw [← hamk]; exact hlegala⟩, hamk⟩
            · rw [if_neg hL]
        · have hL : ¬(mp0.pos.plMoveIsLegal a = true) := fun hl =>
            hP ((passMain_true_iff mp0 a).mpr ⟨hatt, hamk, hl⟩)
          rw [if_neg (fun hc => hamk hc.2), if_neg hL]
  refine ⟨Tt.length + (K.length + (G.length + (Nl.length + (B.length + 1)))),
    Tt ++ (K ++ (G ++ (Nl ++ B))), ?_, hml, ?_, ?_⟩
  · rw [emitSeq, hrun]
    have hid : ∀ (t : MovegenPhase) (X : List Move),
        List.map (Prod.fst ∘ fun g => (g, t)) X = X := fun t X => List.map_id X
    show some (List.map Prod.fst (List.map (fun g => (g, PH_TT_MOVE)) Tt ++
        (List.map (fun g => (g, PH_MATE_KILLER)) K ++
          (List.map (fun g => (g, PH_GOOD_CAPTURES)) G ++
            (List.map (fun g => (g, PH_NONCAPTURES)) Nl
              ++ List.map (fun g => (g, PH_BAD_CAPTURES)) B))))) = _
    rw [List.map_append, List.map_append, List.map_append, List.map_append,
      List.map_map, List.map_map, List.map_map, List.map_map, List.map_map,
      hid, hid, hid, hid, hid]
  · have hperm := Multiset.coe_eq_coe.mp hml
    rw [hperm.nodup_iff, hlm]
    exact hnodup.filter _
  · exact (Multiset.coe_eq_coe.mp hml).length_eq

/-! Whole-run assembly for a fresh Evasions picker. -/

theorem evasionsRun (mp0 : MovePicker)
    (hph : mp0.phaseIndex = 5)
    (hscE : ∀ m ∈ mp0.pos.genEvasions, -10000000 < evasionScore mp0.pos mp0.ttMove m)
    (hnnE : MOVE_NONE ∉ mp0.pos.genEvasions) :
    ∃ (Ev : List Move) (mpF : MovePicker),
      emitSeqT (Ev.length + 1) mp0 = some (Ev.map (fun g => (g, PH_EVASIONS)), mpF) ∧
      (↑Ev : Multiset Move) = ↑mp0.pos.genEvasions ∧
      (∀ g0 ∈ Ev.head?, ∃ sm ∈ scoreEvasionsList mp0.pos mp0.ttMove mp0.pos.genEvasions,
        sm.move = g0 ∧ ∀ x ∈ scoreEvasionsList mp0.pos mp0.ttMove mp0.pos.genEvasions,
          x.score ≤ sm.score) := by
  have h0self : pickMoveFromList mp0 = some (MOVE_NONE, mp0) :=
    pickSelf_default mp0 (Or.inr (Or.inr (Or.inr (Or.inr (by rw [hph] <;> decide)))))
  have h0ev : PhaseTable (mp0.phaseIndex + 1) = PH_EVASIONS := by
    rw [hph] <;> decide
  have hevEntry := emitSeqT_genEntry mp0 h0self (by rw [hph] <;> decide)
    (Or.inr (Or.inr (Or.inr (Or.inl h0ev))))
  have h1ev : PhaseTable ((advancePhase mp0).phaseIndex) = PH_EVASIONS := h0ev
  have hErec : phaseEntry (advancePhase mp0)
      = { advancePhase mp0 with
          moves := scoreEvasionsList mp0.pos mp0.ttMove mp0.pos.genEvasions
          movesPicked := 0 } := by
    rw [phaseEntry_eq_EV _ h1ev]
    rfl
  have hphE : (phaseEntry (advancePhase mp0)).phaseIndex = 6 := by
    rw [phaseEntry_phase]
    show mp0.phaseIndex + 1 = 6
    rw [hph] <;> decide
  have hET : PhaseTable (phaseEntry (advancePhase mp0)).phaseIndex = PH_EVASIONS := by
    rw [hphE] <;> decide
  have hbrE : bucketRest (phaseEntry (advancePhase mp0))
      = scoreEvasionsList mp0.pos mp0.ttMove mp0.pos.genEvasions := by
    rw [bucketRest, hErec]
    rfl
  have hscE2 : ∀ sm ∈ bucketRest (phaseEntry (advancePhase mp0)), -10000000 < sm.score := by
    intro sm hsm
    rw [hbrE] at hsm
    obtain ⟨m, hm1, hm2⟩ := List.mem_map.mp hsm
    rw [← hm2]
    exact hscE m hm1
  have hnzE : ∀ sm ∈ bucketRest (phaseEntry (advancePhase mp0)), sm.move ≠ MOVE_NONE := by
    intro sm hsm
    rw [hbrE] at hsm
    obtain ⟨m, hm1, hm2⟩ := List.mem_map.mp hsm
    rw [← hm2]
    intro hz
    apply hnnE
    rw [← hz]
    exact hm1
  obtain ⟨Ev, mpD, hcfgE, hdrE, hbadE, hbadpE, hmsE, hheadE, hglueE⟩ :=
    emitSeqT_runEV (bucketRest (phaseEntry (advancePhase mp0))).length
      (phaseEntry (advancePhase mp0)) le_rfl hET hscE2 hnzE
  simp only [hbrE] at hmsE hheadE
  have hEmap : (scoreEvasionsList mp0.pos mp0.ttMove mp0.pos.genEvasions).map
      ScoredMove.move = mp0.pos.genEvasions := by
    rw [scoreEvasionsList, List.map_map]
    exact List.map_id mp0.pos.genEvasions
  have hEv1 : (↑Ev : Multiset Move) = ↑mp0.pos.genEvasions := by
    rw [hmsE, ← coe_list_map, hEmap]
  have hDphase : mpD.phaseIndex = (phaseEntry (advancePhase mp0)).phaseIndex :=
    sameConfig_phaseIdx hcfgE
  have hDself : pickMoveFromList mpD = some (MOVE_NONE, mpD) :=
    pickSelf_EV mpD (by rw [hDphase]; exact hET) hdrE
  have hDstop : PhaseTable (mpD.phaseIndex + 1) = PH_STOP := by
    rw [hDphase, hphE] <;> decide
  have hstop : emitSeqT (0 + 1) mpD = some ([], advancePhase mpD) :=
    emitSeqT_stopEntry mpD 0 hDself hDstop
  have h1 := hglueE 1 [] (advancePhase mpD) hstop
  rw [List.append_nil] at h1
  refine ⟨Ev, advancePhase mpD, ?_, hEv1, hheadE⟩
  rw [hevEntry]
  exact h1

/-! Whole-run assembly for a fresh QsearchWithChecks picker. -/

theorem qsearchWCRun (mp0 : MovePicker)
    (hph : mp0.phaseIndex = 7)
    (hscC : ∀ m ∈ mp0.pos.genCaptures, -10000000 < captureScore mp0.pos m)
    (hnnC : MOVE_NONE ∉ mp0.pos.genCaptures)
    (hnnK : MOVE_NONE ∉ mp0.pos.genChecks) :
    ∃ (Qc Qk : List Move) (mpF : MovePicker),
      emitSeqT (Qc.length + (Qk.length + 1)) mp0
        = some (Qc.map (fun g => (g, PH_QCAPTURES))
            ++ Qk.map (fun g => (g, PH_QCHECKS)), mpF) ∧
      (↑Qc : Multiset Move) = Multiset.filter (fun m => mp0.pos.plMoveIsLegal m = true)
        ↑mp0.pos.genCaptures ∧
      Qk = mp0.pos.genChecks.filter (fun m => mp0.pos.plMoveIsLegal m) := by
  have h0self : pickMoveFromList mp0 = some (MOVE_NONE, mp0) :=
    pickSelf_default mp0 (Or.inr (Or.inr (Or.inr (Or.inr (by rw [hph] <;> decide)))))
  have h0q : PhaseTable (mp0.phaseIndex + 1) = PH_QCAPTURES := by
    rw [hph] <;> decide
  have hqEntry := emitSeqT_genEntry mp0 h0self (by rw [hph] <;> decide)
    (Or.inr (Or.inr (Or.inr (Or.inr (Or.inl h0q)))))
  have h1q : PhaseTable ((advancePhase mp0).phaseIndex) = PH_QCAPTURES := h0q
  have hQrec : phaseEntry (advancePhase mp0)
      = { advancePhase mp0 with
          moves := scoreQcapturesList mp0.pos mp0.pos.genCaptures
          movesPicked := 0 } := by
    rw [phaseEntry_eq_QCAP _ h1q]
    rfl
  have hphQ : (phaseEntry (advancePhase mp0)).phaseIndex = 8 := by
    rw [phaseEntry_phase]
    show mp0.phaseIndex + 1 = 8
    rw [hph] <;> decide
  have hQT : PhaseTable (phaseEntry (advancePhase mp0)).phaseIndex = PH_QCAPTURES := by
    rw [hphQ] <;> decide
  have hbrQ : bucketRest (phaseEntry (advancePhase mp0))
      = scoreQcapturesList mp0.pos mp0.pos.genCaptures := by
    rw [bucketRest, hQrec]
    rfl
  have hposQ : (phaseEntry (advancePhase mp0)).pos = mp0.pos := by
    rw [hQrec]
    rfl
  have hscQ : ∀ sm ∈ bucketRest (phaseEntry (advancePhase mp0)), -10000000 < sm.score := by
    intro sm hsm
    rw [hbrQ] at hsm
    obtain ⟨m, hm1, hm2⟩ := List.mem_map.mp hsm
    rw [← hm2]
    exact hscC m hm1
  have hnzQ : ∀ sm ∈ bucketRest (phaseEntry (advancePhase mp0)), sm.move ≠ MOVE_NONE := by
    intro sm hsm
    rw [hbrQ] at hsm
    obtain ⟨m, hm1, hm2⟩ := List.mem_map.mp hsm
    rw [← hm2]
    intro hz
    apply hnnC
    rw [← hz]
    exact hm1
  obtain ⟨Qc, mpD, hcfgQ, hdrQ, hbadQ, hbadpQ, hmsQ, hglueQ⟩ :=
    emitSeqT_runQCAP (bucketRest (phaseEntry (advancePhase mp0))).length
      (phaseEntry (advancePhase mp0)) le_rfl hQT hscQ hnzQ
  simp only [hbrQ, hposQ] at hmsQ
  have hQmap : (scoreQcapturesList mp0.pos mp0.pos.genCaptures).map
      ScoredMove.move = mp0.pos.genCaptures := by
    rw [scoreQcapturesList, List.map_map]
    exact List.map_id mp0.pos.genCaptures
  have hQc1 : (↑Qc : Multiset Move) = Multiset.filter (fun m => mp0.pos.plMoveIsLegal m = true)
      ↑mp0.pos.genCaptures := by
    rw [hmsQ, map_move_filter (mp0.pos.plMoveIsLegal), ← coe_list_map, hQmap]
  have hDphase : mpD.phaseIndex = (phaseEntry (advancePhase mp0)).phaseIndex :=
    sameConfig_phaseIdx hcfgQ
  have hDself : pickMoveFromList mpD = some (MOVE_NONE, mpD) :=
    pickSelf_QCAP mpD (by rw [hDphase]; exact hQT) hdrQ
  have hDchk : PhaseTable (mpD.phaseIndex + 1) = PH_QCHECKS := by
    rw [hDphase, hphQ] <;> decide
  have hchkEntry := emitSeqT_genEntry mpD hDself (by rw [hDphase, hphQ] <;> decide)
    (Or.inr (Or.inr (Or.inr (Or.inr (Or.inr hDchk)))))
  have hDpos : mpD.pos = mp0.pos := (sameConfig_pos hcfgQ).trans hposQ
  have hKchk : PhaseTable ((advancePhase mpD).phaseIndex) = PH_QCHECKS := hDchk
  have hKrec : phaseEntry (advancePhase mpD)
      = { advancePhase mpD with
          moves := mp0.pos.genChecks.map (fun m => ⟨m, 0⟩)
          movesPicked := 0 } := by
    rw [phaseEntry_eq_QCHK _ hKchk]
    show ({ advancePhase mpD with
        moves := mpD.pos.genChecks.map (fun m => ⟨m, 0⟩)
        movesPicked := 0 } : MovePicker) = _
    rw [hDpos]
  have hphK : (phaseEntry (advancePhase mpD)).phaseIndex = 9 := by
    rw [phaseEntry_phase]
    show mpD.phaseIndex + 1 = 9
    rw [hDphase, hphQ] <;> decide
  have hKT : PhaseTable (phaseEntry (advancePhase mpD)).phaseIndex = PH_QCHECKS := by
    rw [hphK] <;> decide
  have hbrK : bucketRest (phaseEntry (advancePhase mpD))
      = mp0.pos.genChecks.map (fun m => ⟨m, 0⟩) := by
    rw [bucketRest, hKrec]
    rfl
  have hposK : (phaseEntry (advancePhase mpD)).pos = mp0.pos := by
    rw [hKrec]
    exact hDpos
  have hnzK : ∀ sm ∈ bucketRest (phaseEntry (advancePhase mpD)), sm.move ≠ MOVE_NONE := by
    intro sm hsm
    rw [hbrK] at hsm
    obtain ⟨m, hm1, hm2⟩ := List.mem_map.mp hsm
    rw [← hm2]
    intro hz
    apply hnnK
    rw [← hz]
    exact hm1
  obtain ⟨Qk, mpD2, hcfgK, hdrK, hbadK, hbadpK, hflK, hglueK⟩ :=
    emitSeqT_runQCHK (bucketRest (phaseEntry (advancePhase mpD))).length
      (phaseEntry (advancePhase mpD)) le_rfl hKT hnzK
  simp only [hbrK, hposK] at hflK
  have hQk1 : Qk = mp0.pos.genChecks.filter (fun m => mp0.pos.plMoveIsLegal m) := by
    rw [hflK, List.filter_map, List.map_map]
    exact List.map_id _
  have hD2phase : mpD2.phaseIndex = (phaseEntry (advancePhase mpD)).phaseIndex :=
    sameConfig_phaseIdx hcfgK
  have hD2self : pickMoveFromList mpD2 = some (MOVE_NONE, mpD2) :=
    pickSelf_QCHK mpD2 (by rw [hD2phase]; exact hKT) hdrK
  have hD2stop : PhaseTable (mpD2.phaseIndex + 1) = PH_STOP := by
    rw [hD2phase, hphK] <;> decide
  have hstop : emitSeqT (0 + 1) mpD2 = some ([], advancePhase mpD2) :=
    emitSeqT_stopEntry mpD2 0 hD2self hD2stop
  have h1 := hglueK 1 [] (advancePhase mpD2) hstop
  rw [List.append_nil] at h1
  have h2 : emitSeqT (Qk.length + 1) mpD
      = some (Qk.map (fun g => (g, PH_QCHECKS)), advancePhase mpD2) := by
    rw [hchkEntry]
    exact h1
  have h3 := hglueQ (Qk.length + 1) (Qk.map (fun g => (g, PH_QCHECKS)))
    (advancePhase mpD2) h2
  refine ⟨Qc, Qk, advancePhase mpD2, ?_, hQc1, hQk1⟩
  rw [hqEntry]
  exact h3

/-! Whole-run assembly for a fresh QsearchNoCaptures picker. -/

theorem qsearchNCRun (mp0 : MovePicker)
    (hph : mp0.phaseIndex = 10)
    (hnnK : MOVE_NONE ∉ mp0.pos.genChecks) :
    ∃ (Qk : List Move) (mpF : MovePicker),
      emitSeqT (Qk.length + 1) mp0 = some (Qk.map (fun g => (g, PH_QCHECKS)), mpF) ∧
      Qk = mp0.pos.genChecks.filter (fun m => mp0.pos.plMoveIsLegal m) := by
  have h0self : pickMoveFromList mp0 = some (MOVE_NONE, mp0) :=
    pickSelf_default mp0 (Or.inr (Or.inr (Or.inr (Or.inr (by rw [hph] <;> decide)))))
  have h0k : PhaseTable (mp0.phaseIndex + 1) = PH_QCHECKS := by
    rw [hph] <;> decide
  have hkEntry := emitSeqT_genEntry mp0 h0self (by rw [hph] <;> decide)
    (Or.inr (Or.inr (Or.inr (Or.inr (Or.inr h0k)))))
  have h1k : PhaseTable ((advancePhase mp0).phaseIndex) = PH_QCHECKS := h0k
  have hKrec : phaseEntry (advancePhase mp0)
      = { advancePhase mp0 with
          moves := mp0.pos.genChecks.map (fun m => ⟨m, 0⟩)
          movesPicked := 0 } := by
    rw [phaseEntry_eq_QCHK _ h1k]
    rfl
  have hphK : (phaseEntry (advancePhase mp0)).phaseIndex = 11 := by
    rw [phaseEntry_phase]
    show mp0.phaseIndex + 1 = 11
    rw [hph] <;> decide
  have hKT : PhaseTable (phaseEntry (advancePhase mp0)).phaseIndex = PH_QCHECKS := by
    rw [hphK] <;> decide
  have hbrK : bucketRest (phaseEntry (advancePhase mp0))
      = mp0.pos.genChecks.map (fun m => ⟨m, 0⟩) := by
    rw [bucketRest, hKrec]
    rfl
  have hposK : (phaseEntry (advancePhase mp0)).pos = mp0.pos := by
    rw [hKrec]
    rfl
  have hnzK : ∀ sm ∈ bucketRest (phaseEntry (advancePhase mp0)), sm.move ≠ MOVE_NONE := by
    intro sm hsm
    rw [hbrK] at hsm
    obtain ⟨m, hm1, hm2⟩ := List.mem_map.mp hsm
    rw [← hm2]
    intro hz
    apply hnnK
    rw [← hz]
    exact hm1
  obtain ⟨Qk, mpD, hcfgK, hdrK, hbadK, hbadpK, hflK, hglueK⟩ :=
    emitSeqT_runQCHK (bucketRest (phaseEntry (advancePhase mp0))).length
      (phaseEntry (advancePhase mp0)) le_rfl hKT hnzK
  simp only [hbrK, hposK] at hflK
  have hQk1 : Qk = mp0.pos.genChecks.filter (fun m => mp0.pos.plMoveIsLegal m) := by
    rw [hflK, List.filter_map, List.map_map]
    exact List.map_id _
  have hDphase : mpD.phaseIndex = (phaseEntry (advancePhase mp0)).phaseIndex :=
    sameConfig_phaseIdx hcfgK
  have hDself : pickMoveFromList mpD = some (MOVE_NONE, mpD) :=
    pickSelf_QCHK mpD (by rw [hDphase]; exact hKT) hdrK
  have hDstop : PhaseTable (mpD.phaseIndex + 1) = PH_STOP := by
    rw [hDphase, hphK] <;> decide
  have hstop : emitSeqT (0 + 1) mpD = some ([], advancePhase mpD) :=
    emitSeqT_stopEntry mpD 0 hDself hDstop
  have h1 := hglueK 1 [] (advancePhase mpD) hstop
  rw [List.append_nil] at h1
  refine ⟨Qk, advancePhase mpD, ?_, hQk1⟩
  rw [hkEntry]
  exact h1

/-! Whole-run assembly for a fresh QsearchWithoutChecks picker. -/

theorem qsearchWoCRun (mp0 : MovePicker)
    (hph : mp0.phaseIndex = 12)
    (hscC : ∀ m ∈ mp0.pos.genCaptures, -10000000 < captureScore mp0.pos m)
    (hnnC : MOVE_NONE ∉ mp0.pos.genCaptures) :
    ∃ (Qc : List Move) (mpF : MovePicker),
      emitSeqT (Qc.length + 1) mp0 = some (Qc.map (fun g => (g, PH_QCAPTURES)), mpF) ∧
      (↑Qc : Multiset Move) = Multiset.filter (fun m => mp0.pos.plMoveIsLegal m = true)
        ↑mp0.pos.genCaptures := by
  have h0self : pickMoveFromList mp0 = some (MOVE_NONE, mp0) :=
    pickSelf_default mp0 (Or.inr (Or.inr (Or.inr (Or.inr (by rw [hph] <;> decide)))))
  have h0q : PhaseTable (mp0.phaseIndex + 1) = PH_QCAPTURES := by
    rw [hph] <;> decide
  have hqEntry := emitSeqT_genEntry mp0 h0self (by rw [hph] <;> decide)
    (Or.inr (Or.inr (Or.inr (Or.inr (Or.inl h0q)))))
  have h1q : PhaseTable ((advancePhase mp0).phaseIndex) = PH_QCAPTURES := h0q
  have hQrec : phaseEntry (advancePhase mp0)
      = { advancePhase mp0 with
          moves := scoreQcapturesList mp0.pos mp0.pos.genCaptures
          movesPicked := 0 } := by
    rw [phaseEntry_eq_QCAP _ h1q]
    rfl
  have hphQ : (phaseEntry (advancePhase mp0)).phaseIndex = 13 := by
    rw [phaseEntry_phase]
    show mp0.phaseIndex + 1 = 13
    rw [hph] <;> decide
  have hQT : PhaseTable (phaseEntry (advancePhase mp0)).phaseIndex = PH_QCAPTURES := by
    rw [hphQ] <;> decide
  have hbrQ : bucketRest (phaseEntry (advancePhase mp0))
      = scoreQcapturesList mp0.pos mp0.pos.genCaptures := by
    rw [bucketRest, hQrec]
    rfl
  have hposQ : (phaseEntry (advancePhase mp0)).pos = mp0.pos := by
    rw [hQrec]
    rfl
  have hscQ : ∀ sm ∈ bucketRest (phaseEntry (advancePhase mp0)), -10000000 < sm.score := by
    intro sm hsm
    rw [hbrQ] at hsm
    obtain ⟨m, hm1, hm2⟩ := List.mem_map.mp hsm
    rw [← hm2]
    exact hscC m hm1
  have hnzQ : ∀ sm ∈ bucketRest (phaseEntry (advancePhase mp0)), sm.move ≠ MOVE_NONE := by
    intro sm hsm
    rw [hbrQ] at hsm
    obtain ⟨m, hm1, hm2⟩ := List.mem_map.mp hsm
    rw [← hm2]
    intro hz
    apply hnnC
    rw [← hz]
    exact hm1
  obtain ⟨Qc, mpD, hcfgQ, hdrQ, hbadQ, hbadpQ, hmsQ, hglueQ⟩ :=
    emitSeqT_runQCAP (bucketRest (phaseEntry (advancePhase mp0))).length
      (phaseEntry (advancePhase mp0)) le_rfl hQT hscQ hnzQ
  simp only [hbrQ, hposQ] at hmsQ
  have hQmap : (scoreQcapturesList mp0.pos mp0.pos.genCaptures).map
      ScoredMove.move = mp0.pos.genCaptures := by
    rw [scoreQcapturesList, List.map_map]
    exact List.map_id mp0.pos.genCaptures
  have hQc1 : (↑Qc : Multiset Move) = Multiset.filter (fun m => mp0.pos.plMoveIsLegal m = true)
      ↑mp0.pos.genCaptures := by
    rw [hmsQ, map_move_filter (mp0.pos.plMoveIsLegal), ← coe_list_map, hQmap]
  have hDphase : mpD.phaseIndex = (phaseEntry (advancePhase mp0)).phaseIndex :=
    sameConfig_phaseIdx hcfgQ
  have hDself : pickMoveFromList mpD = some (MOVE_NONE, mpD) :=
    pickSelf_QCAP mpD (by rw [hDphase]; exact hQT) hdrQ
  have hDstop : PhaseTable (mpD.phaseIndex + 1) = PH_STOP := by
    rw [hDphase, hphQ] <;> decide
  have hstop : emitSeqT (0 + 1) mpD = some ([], advancePhase mpD) :=
    emitSeqT_stopEntry mpD 0 hDself hDstop
  have h1 := hglueQ 1 [] (advancePhase mpD) hstop
  rw [List.append_nil] at h1
  refine ⟨Qc, advancePhase mpD, ?_, hQc1⟩
  rw [hqEntry]
  exact h1

/-! A fresh NoMoves picker emits nothing. -/

theorem noMovesRun (mp0 : MovePicker) (hph : mp0.phaseIndex = 14) :
    emitSeqT 1 mp0 = some ([], advancePhase mp0) := by
  have h0self : pickMoveFromList mp0 = some (MOVE_NONE, mp0) :=
    pickSelf_default mp0 (Or.inr (Or.inr (Or.inr (Or.inr (by rw [hph] <;> decide)))))
  have h0stop : PhaseTable (mp0.phaseIndex + 1) = PH_STOP := by
    rw [hph] <;> decide
  exact emitSeqT_stopEntry mp0 0 h0self h0stop

/-- C1: starting from a position with k legal moves, a fresh MainSearch picker
(not in check, positive depth) emits exactly the k legal moves, each once, and
an Evasions picker (in check) likewise; the qsearch configurations emit only
moves of the phases their row includes (captures and checks at depth 0,
captures only below depth 0, nothing in the NoMoves configuration). -/
theorem phase_completeness (p : Pos) (pv : Bool) (ttm : Move) (ss : SearchStack)
    (ei : Option EvalInfo)
    (hscC : ∀ m ∈ p.genCaptures, -10000000 < captureScore p m)
    (hscN : ∀ m ∈ p.genNoncaptures, -10000000 < noncaptureScore p ss.killers0 ss.killers1 m)
    (hscE : ∀ m ∈ p.genEvasions, -10000000 < evasionScore p ttm m)
    (hnnC : MOVE_NONE ∉ p.genCaptures) (hnnN : MOVE_NONE ∉ p.genNoncaptures)
    (hnnE : MOVE_NONE ∉ p.genEvasions) (hnnK : MOVE_NONE ∉ p.genChecks)
    (hnodup : (p.genCaptures ++ p.genNoncaptures).Nodup)
    (hnodupE : p.genEvasions.Nodup)
    (hlegal : ∀ m, p.moveIsLegal m = true ↔
      (m ∈ p.genCaptures ++ p.genNoncaptures ∧ p.plMoveIsLegal m = true)) :
    ∀ d : Int,
    (p.isCheck = false → 0 < d →
      ∃ F L, emitSeq F (mkMovePicker p pv ttm ss d ei) = some L ∧
        (↑L : Multiset Move) = ↑(Pos.legalMoves p) ∧ L.Nodup ∧
        L.length = (Pos.legalMoves p).length) ∧
    (p.isCheck = true →
      ∃ F L, emitSeq F (mkMovePicker p pv ttm ss d ei) = some L ∧
        (↑L : Multiset Move) = ↑(Pos.legalMoves p) ∧ L.Nodup ∧
        L.length = (Pos.legalMoves p).length) ∧
    (p.isCheck = false → d = 0 → noCapturesHint p ei = false →
      ∃ F L, emitSeq F (mkMovePicker p pv ttm ss d ei) = some L ∧
        ∀ m ∈ L, m ∈ p.genCaptures ∨ m ∈ p.genChecks) ∧
    (p.isCheck = false → d = 0 → noCapturesHint p ei = true →
      ∃ F L, emitSeq F (mkMovePicker p pv ttm ss d ei) = some L ∧
        ∀ m ∈ L, m ∈ p.genChecks) ∧
    (p.isCheck = false → d < 0 → noCapturesHint p ei = false →
      ∃ F L, emitSeq F (mkMovePicker p pv ttm ss d ei) = some L ∧
        ∀ m ∈ L, m ∈ p.genCaptures) ∧
    (p.isCheck = false → d < 0 → noCapturesHint p ei = true →
      emitSeq 1 (mkMovePicker p pv ttm ss d ei) = some []) := by
  intro d
  refine ⟨?_, ?_, ?_, ?_, ?_, ?_⟩
  · intro hchk hd
    have hph : (mkMovePicker p pv ttm ss d ei).phaseIndex = -1 := by
      show (if p.isCheck = true then EvasionsPhaseIndex
        else if 0 < d then MainSearchPhaseIndex
        else if d = 0 then
          (if noCapturesHint p ei = true then QsearchNoCapturesPhaseIndex
            else QsearchWithChecksPhaseIndex)
        else
          (if noCapturesHint p ei = true then NoMovesPhaseIndex
            else QsearchWithoutChecksPhaseIndex)) = -1
      rw [if_neg (by rw [hchk]; simp), if_pos hd]
      rfl
    have hmk : (mkMovePicker p pv ttm ss d ei).mateKiller ≠ MOVE_NONE →
        (mkMovePicker p pv ttm ss d ei).mateKiller
          ≠ (mkMovePicker p pv ttm ss d ei).ttMove := by
      show (if ss.mateKiller = ttm then MOVE_NONE else ss.mateKiller) ≠ MOVE_NONE →
        (if ss.mateKiller = ttm then MOVE_NONE else ss.mateKiller) ≠ ttm
      by_cases hc : ss.mateKiller = ttm
      · rw [if_pos hc]
        intro h
        exact absurd rfl h
      · rw [if_neg hc]
        intro _
        exact hc
    exact mainSearchMoves (mkMovePicker p pv ttm ss d ei) hph rfl hchk hmk
      hscC hscN hnnC hnnN hnodup hlegal
  · intro hchk
    have hph : (mkMovePicker p pv ttm ss d ei).phaseIndex = 5 := by
      show (if p.isCheck = true then EvasionsPhaseIndex
        else if 0 < d then MainSearchPhaseIndex
        else if d = 0 then
          (if noCapturesHint p ei = true then QsearchNoCapturesPhaseIndex
            else QsearchWithChecksPhaseIndex)
        else
          (if noCapturesHint p ei = true then NoMovesPhaseIndex
            else QsearchWithoutChecksPhaseIndex)) = 5
      rw [if_pos hchk]
      rfl
    obtain ⟨Ev, mpF, hrun, hms, _⟩ :=
      evasionsRun (mkMovePicker p pv ttm ss d ei) hph hscE hnnE
    have hlm : Pos.legalMoves p = p.genEvasions := by
      rw [Pos.legalMoves, if_pos hchk]
    refine ⟨Ev.length + 1, Ev, ?_, ?_, ?_, ?_⟩
    · rw [emitSeq, hrun]
      have hid : List.map (Prod.fst ∘ fun g => (g, PH_EVASIONS)) Ev = Ev := List.map_id Ev
      show some (List.map Prod.fst (Ev.map (fun g => (g, PH_EVASIONS)))) = _
      rw [List.map_map, hid]
    · rw [hlm]
      exact hms
    · exact ((Multiset.coe_eq_coe.mp hms).nodup_iff).mpr hnodupE
    · rw [hlm]
      exact (Multiset.coe_eq_coe.mp hms).length_eq
  · intro hchk hd0 hhint
    have hph : (mkMovePicker p pv ttm ss d ei).phaseIndex = 7 := by
      show (if p.isCheck = true then EvasionsPhaseIndex
        else if 0 < d then MainSearchPhaseIndex
        else if d = 0 then
          (if noCapturesHint p ei = true then QsearchNoCapturesPhaseIndex
            else QsearchWithChecksPhaseIndex)
        else
          (if noCapturesHint p ei = true then NoMovesPhaseIndex
            else QsearchWithoutChecksPhaseIndex)) = 7
      rw [if_neg (by rw [hchk]; simp), if_neg (by omega), if_pos hd0,
        if_neg (by rw [hhint]; simp)]
      rfl
    obtain ⟨Qc, Qk, mpF, hrun, hQc, hQk⟩ :=
      qsearchWCRun (mkMovePicker p pv ttm ss d ei) hph hscC hnnC hnnK
    refine ⟨Qc.length + (Qk.length + 1), Qc ++ Qk, ?_, ?_⟩
    · rw [emitSeq, hrun]
      have hid1 : List.map (Prod.fst ∘ fun g => (g, PH_QCAPTURES)) Qc = Qc := List.map_id Qc
      have hid2 : List.map (Prod.fst ∘ fun g => (g, PH_QCHECKS)) Qk = Qk := List.map_id Qk
      show some (List.map Prod.fst (Qc.map (fun g => (g, PH_QCAPTURES))
        ++ Qk.map (fun g => (g, PH_QCHECKS)))) = _
      rw [List.map_append, List.map_map, List.map_map, hid1, hid2]
    · intro m hm
      rcases List.mem_append.mp hm with h1 | h1
      · left
        have h2 : m ∈ (↑Qc : Multiset Move) := by exact_mod_cast h1
        rw [hQc] at h2
        exact_mod_cast Multiset.mem_of_mem_filter h2
      · right
        rw [hQk] at h1
        exact (List.mem_filter.mp h1).1
  · intro hchk hd0 hhint
    have hph : (mkMovePicker p pv ttm ss d ei).phaseIndex = 10 := by
      show (if p.isCheck = true then EvasionsPhaseIndex
        else if 0 < d then MainSearchPhaseIndex
        else if d = 0 then
          (if noCapturesHint p ei = true then QsearchNoCapturesPhaseIndex
            else QsearchWithChecksPhaseIndex)
        else
          (if noCapturesHint p ei = true then NoMovesPhaseIndex
            else QsearchWithoutChecksPhaseIndex)) = 10
      rw [if_neg (by rw [hchk]; simp), if_neg (by omega), if_pos hd0, if_pos hhint]
      rfl
    obtain ⟨Qk, mpF, hrun, hQk⟩ :=
      qsearchNCRun (mkMovePicker p pv ttm ss d ei) hph hnnK
    refine ⟨Qk.length + 1, Qk, ?_, ?_⟩
    · rw [emitSeq, hrun]
      have hid : List.map (Prod.fst ∘ fun g => (g, PH_QCHECKS)) Qk = Qk := List.map_id Qk
      show some (List.map Prod.fst (Qk.map (fun g => (g, PH_QCHECKS)))) = _
      rw [List.map_map, hid]
    · intro m hm
      rw [hQk] at hm
      exact (List.mem_filter.mp hm).1
  · intro hchk hdneg hhint
    have hph : (mkMovePicker p pv ttm ss d ei).phaseIndex = 12 := by
      show (if p.isCheck = true then EvasionsPhaseIndex
        else if 0 < d then MainSearchPhaseIndex
        else if d = 0 then
          (if noCapturesHint p ei = true then QsearchNoCapturesPhaseIndex
            else QsearchWithChecksPhaseIndex)
        else
          (if noCapturesHint p ei = true then NoMovesPhaseIndex
            else QsearchWithoutChecksPhaseIndex)) = 12
      rw [if_neg (by rw [hchk]; simp), if_neg (by omega), if_neg (by omega),
        if_neg (by rw [hhint]; simp)]
      rfl
    obtain ⟨Qc, mpF, hrun, hQc⟩ :=
      qsearchWoCRun (mkMovePicker p pv ttm ss d ei) hph hscC hnnC
    refine ⟨Qc.length + 1, Qc, ?_, ?_⟩
    · rw [emitSeq, hrun]
      have hid : List.map (Prod.fst ∘ fun g => (g, PH_QCAPTURES)) Qc = Qc := List.map_id Qc
      show some (List.map Prod.fst (Qc.map (fun g => (g, PH_QCAPTURES)))) = _
      rw [List.map_map, hid]
    · intro m hm
      have h2 : m ∈ (↑Qc : Multiset Move) := by exact_mod_cast hm
      rw [hQc] at h2
      exact_mod_cast Multiset.mem_of_mem_filter h2
  · intro hchk hdneg hhint
    have hph : (mkMovePicker p pv ttm ss d ei).phaseIndex = 14 := by
      show (if p.isCheck = true then EvasionsPhaseIndex
        else if 0 < d then MainSearchPhaseIndex
        else if d = 0 then
          (if noCapturesHint p ei = true then QsearchNoCapturesPhaseIndex
            else QsearchWithChecksPhaseIndex)
        else
          (if noCapturesHint p ei = true then NoMovesPhaseIndex
            else QsearchWithoutChecksPhaseIndex)) = 14
      rw [if_neg (by rw [hchk]; simp), if_neg (by omega), if_neg (by omega), if_pos hhint]
      rfl
    have hrun := noMovesRun (mkMovePicker p pv ttm ss d ei) hph
    rw [emitSeq, hrun]
    rfl

/-- Witness for C1 on the concrete position posW at depth 1: the MainSearch
picker emits exactly the legal moves. -/
theorem phase_completeness_witness :
    ∃ F L, emitSeq F (mkMovePicker posW false 0 ssW 1 none) = some L ∧
      (↑L : Multiset Move) = ↑(Pos.legalMoves posW) ∧ L.Nodup ∧
      L.length = (Pos.legalMoves posW).length := by
  have h := phase_completeness posW false 0 ssW none
    (by decide) (by decide) (by decide) (by decide) (by decide) (by decide) (by decide)
    (by decide) (by decide)
    (by
      show ∀ m : Nat, ((m == 5) || (m == 6) || (m == 11)) = true
        ↔ (m ∈ ([5, 6] : List Nat) ++ [11, 12] ∧ (m != 12) = true)
      intro m
      simp
      omega) 1
  exact h.1 rfl (by decide)

/-- C2 counterexample: a GOOD_CAPTURES drain whose highest-scored legal capture
is the tt move yields a different, lower-scored move first, refuting the claim
that the first GOOD_CAPTURES yield is the highest-scored legal move of the
bucket. -/
theorem gc_first_yield_skips_tt :
    ∃ (m : Move) (mp2 : MovePicker),
      PhaseTable mpX.phaseIndex = PH_GOOD_CAPTURES ∧
      pickMoveFromList mpX = some (m, mp2) ∧ m ≠ MOVE_NONE ∧
      ∃ sm ∈ bucketRest mpX, mpX.pos.plMoveIsLegal sm.move = true ∧
        ∀ x ∈ bucketRest mpX, x.move = m → x.score < sm.score := by
  obtain ⟨m, mp2, hres, _, _, _, hcase⟩ :=
    pickLoopGoodCaptures_spec mpX (by decide) (by decide)
  have hpick : pickMoveFromList mpX = some (m, mp2) := by
    rw [pickDispatch_GC mpX (by decide)]
    exact hres
  rcases hcase with ⟨_, _, hall⟩ | ⟨hm, hpm, sm, skipped, hsm, hms, _, _⟩
  · exact absurd (hall ⟨7, 50⟩ (by decide)) (by decide)
  · have hsmmem : sm ∈ bucketRest mpX := by
      have h1 : sm ∈ (↑(bucketRest mpX) : Multiset ScoredMove) := by
        rw [hms]
        exact Multiset.mem_add.mpr (Or.inr (Multiset.mem_cons_self _ _))
      exact_mod_cast h1
    have hsm2 : sm = ⟨5, 100⟩ ∨ sm = ⟨7, 50⟩ := by
      have : bucketRest mpX = [⟨5, 100⟩, ⟨7, 50⟩] := by decide
      rw [this] at hsmmem
      simpa using hsmmem
    have hm7 : m = 7 := by
      rcases hsm2 with h | h
      · rw [← hsm, h] at hpm
        exact absurd hpm (by decide)
      · rw [← hsm, h]
    refine ⟨m, mp2, by decide, hpick, hm, ⟨5, 100⟩, by decide, by decide, ?_⟩
    intro x hx hxm
    rw [hm7] at hxm
    have : bucketRest mpX = [⟨5, 100⟩, ⟨7, 50⟩] := by decide
    rw [this] at hx
    rcases List.mem_cons.mp hx with h | h
    · rw [h] at hxm
      exact absurd hxm (by decide)
    · rcases List.mem_cons.mp h with h2 | h2
      · rw [h2]
        decide
      · simp at h2

/-- C2 (amended): every GOOD_CAPTURES yield has SEE at least 0 and the bucket
is scored by captureScore; captures with negative SEE move to badCaptures with
score SEE and are yielded only in BAD_CAPTURES, after the whole GOOD_CAPTURES
segment; the first GOOD_CAPTURES yield is the highest-scored bucket move among
those passing the main-search filter (legal, not the tt move, not the mate
killer). -/
theorem gc_see_partition_and_order (p : Pos) (pv : Bool) (ttm : Move) (ss : SearchStack)
    (d : Int) (ei : Option EvalInfo)
    (hchk : p.isCheck = false) (hd : 0 < d)
    (hscC : ∀ m ∈ p.genCaptures, -10000000 < captureScore p m)
    (hscN : ∀ m ∈ p.genNoncaptures, -10000000 < noncaptureScore p ss.killers0 ss.killers1 m)
    (hnnC : MOVE_NONE ∉ p.genCaptures) (hnnN : MOVE_NONE ∉ p.genNoncaptures) :
    (∀ x ∈ (scoreCaptures p (p.genCaptures.map (fun m => ⟨m, 0⟩)) []).1,
      0 ≤ p.see x.move ∧ x.score = captureScore p x.move) ∧
    (∃ newBad, (scoreCaptures p (p.genCaptures.map (fun m => ⟨m, 0⟩)) []).2 = newBad ∧
      (↑(newBad.map ScoredMove.move) : Multiset Move)
        = Multiset.filter (fun m => ¬0 ≤ p.see m) ↑p.genCaptures ∧
      ∀ x ∈ newBad, p.see x.move < 0 ∧ x.score = p.see x.move) ∧
    (∃ (Tt K G Nl B : List Move) (mpF : MovePicker),
      emitSeqT (Tt.length + (K.length + (G.length + (Nl.length + (B.length + 1)))))
          (mkMovePicker p pv ttm ss d ei)
        = some (Tt.map (fun g => (g, PH_TT_MOVE))
            ++ (K.map (fun g => (g, PH_MATE_KILLER))
            ++ (G.map (fun g => (g, PH_GOOD_CAPTURES))
            ++ (Nl.map (fun g => (g, PH_NONCAPTURES))
            ++ B.map (fun g => (g, PH_BAD_CAPTURES))))), mpF) ∧
      (∀ g ∈ G, 0 ≤ p.see g) ∧
      (↑B : Multiset Move)
        = Multiset.filter (fun m => passMain (mkMovePicker p pv ttm ss d ei) m = true)
            (Multiset.filter (fun m => ¬0 ≤ p.see m) ↑p.genCaptures) ∧
      (∀ g0 ∈ G.head?,
        ∃ sm ∈ (scoreCaptures p (p.genCaptures.map (fun m => ⟨m, 0⟩)) []).1,
          sm.move = g0 ∧
          ∀ x ∈ (scoreCaptures p (p.genCaptures.map (fun m => ⟨m, 0⟩)) []).1,
            passMain (mkMovePicker p pv ttm ss d ei) x.move = true → x.score ≤ sm.score)) := by
  obtain ⟨hgood, hgoodms, newBad, hbadsplit, hbadms, hbadprops⟩ :=
    scoreCapturesLoop_spec p (p.genCaptures.map (fun m => ⟨m, 0⟩)) [] 0
      (by intro x hx; simp at hx)
  have hCmap : (p.genCaptures.map (fun m => (⟨m, 0⟩ : ScoredMove))).map ScoredMove.move
      = p.genCaptures := by
    rw [List.map_map]
    exact List.map_id p.genCaptures
  rw [hCmap] at hgoodms hbadms
  have hsceq : scoreCaptures p (p.genCaptures.map (fun m => ⟨m, 0⟩)) []
      = scoreCapturesLoop p (p.genCaptures.map (fun m => ⟨m, 0⟩)) [] 0 := rfl
  refine ⟨by rw [hsceq]; exact hgood, ⟨newBad, by rw [hsceq, hbadsplit, List.nil_append],
    hbadms, fun x hx => ⟨(hbadprops x hx).1, (hbadprops x hx).2⟩⟩, ?_⟩
  have hph : (mkMovePicker p pv ttm ss d ei).phaseIndex = -1 := by
    show (if p.isCheck = true then EvasionsPhaseIndex
      else if 0 < d then MainSearchPhaseIndex
      else if d = 0 then
        (if noCapturesHint p ei = true then QsearchNoCapturesPhaseIndex
          else QsearchWithChecksPhaseIndex)
      else
        (if noCapturesHint p ei = true then NoMovesPhaseIndex
          else QsearchWithoutChecksPhaseIndex)) = -1
    rw [if_neg (by rw [hchk]; simp), if_pos hd]
    rfl
  obtain ⟨Tt, K, G, Nl, B, mpF, hrun, hTt, hK, hG, hNl, hB, hhead⟩ :=
    mainSearchRun (mkMovePicker p pv ttm ss d ei) hph rfl hscC hscN hnnC hnnN
  refine ⟨Tt, K, G, Nl, B, mpF, hrun, ?_, hB, hhead⟩
  intro g hg
  have h1 : g ∈ (↑G : Multiset Move) := by exact_mod_cast hg
  rw [hG] at h1
  exact (Multiset.mem_filter.mp (Multiset.mem_of_mem_filter h1)).2

/-- Witness for C2's amended theorem at a concrete position and depth 1 with
the tt move set to the top capture: the full MainSearch run exists. -/
theorem gc_see_partition_and_order_witness :
    ∃ (Tt K G Nl B : List Move) (mpF : MovePicker),
      emitSeqT (Tt.length + (K.length + (G.length + (Nl.length + (B.length + 1)))))
          (mkMovePicker posW false 5 ssW 1 none)
        = some (Tt.map (fun g => (g, PH_TT_MOVE))
            ++ (K.map (fun g => (g, PH_MATE_KILLER))
            ++ (G.map (fun g => (g, PH_GOOD_CAPTURES))
            ++ (Nl.map (fun g => (g, PH_NONCAPTURES))
            ++ B.map (fun g => (g, PH_BAD_CAPTURES))))), mpF) := by
  obtain ⟨_, _, Tt, K, G, Nl, B, mpF, hrun, _⟩ :=
    gc_see_partition_and_order posW false 5 ssW 1 none rfl (by decide)
      (by decide) (by decide) (by decide) (by decide)
  exact ⟨Tt, K, G, Nl, B, mpF, hrun⟩

/-- C3: the constructor nulls the mate killer exactly when it equals the
supplied tt move, selects the phase row from check status, depth and the
no-captures hint, and the hint holds iff eval info is present, the side to
move attacks no opponent piece, no specialized eval applies, there is no
en-passant square and no own pawn on the 7th rank. -/
theorem constructor_config (p : Pos) (pv : Bool) (ttm : Move) (ss : SearchStack)
    (d : Int) (ei : Option EvalInfo) :
    ((mkMovePicker p pv ttm ss d ei).mateKiller
      = if ss.mateKiller = ttm then MOVE_NONE else ss.mateKiller) ∧
    (ss.mateKiller = ttm → (mkMovePicker p pv ttm ss d ei).mateKiller = MOVE_NONE) ∧
    (p.isCheck = true →
      (mkMovePicker p pv ttm ss d ei).phaseIndex = EvasionsPhaseIndex) ∧
    (p.isCheck = false → 0 < d →
      (mkMovePicker p pv ttm ss d ei).phaseIndex = MainSearchPhaseIndex) ∧
    (p.isCheck = false → d = 0 →
      (mkMovePicker p pv ttm ss d ei).phaseIndex
        = (if noCapturesHint p ei = true then QsearchNoCapturesPhaseIndex
            else QsearchWithChecksPhaseIndex)) ∧
    (p.isCheck = false → d < 0 →
      (mkMovePicker p pv ttm ss d ei).phaseIndex
        = (if noCapturesHint p ei = true then NoMovesPhaseIndex
            else QsearchWithoutChecksPhaseIndex)) ∧
    (∀ e, noCapturesHint p (some e) = true ↔
      (e.attackedByUsIntersectsThem = false ∧ e.specializedEvalExists = false ∧
        p.epSquareIsNone = true ∧ p.hasPawnOn7thUs = false)) ∧
    (noCapturesHint p none = false) := by
  refine ⟨rfl, ?_, ?_, ?_, ?_, ?_, ?_, rfl⟩
  · intro h
    show (if ss.mateKiller = ttm then MOVE_NONE else ss.mateKiller) = MOVE_NONE
    rw [if_pos h]
  · intro h
    show (if p.isCheck = true then EvasionsPhaseIndex
      else if 0 < d then MainSearchPhaseIndex
      else if d = 0 then
        (if noCapturesHint p ei = true then QsearchNoCapturesPhaseIndex
          else QsearchWithChecksPhaseIndex)
      else
        (if noCapturesHint p ei = true then NoMovesPhaseIndex
          else QsearchWithoutChecksPhaseIndex)) = EvasionsPhaseIndex
    rw [if_pos h]
  · intro h hd
    show (if p.isCheck = true then EvasionsPhaseIndex
      else if 0 < d then MainSearchPhaseIndex
      else if d = 0 then
        (if noCapturesHint p ei = true then QsearchNoCapturesPhaseIndex
          else QsearchWithChecksPhaseIndex)
      else
        (if noCapturesHint p ei = true then NoMovesPhaseIndex
          else QsearchWithoutChecksPhaseIndex)) = MainSearchPhaseIndex
    rw [if_neg (by rw [h]; simp), if_pos hd]
  · intro h hd
    show (if p.isCheck = true then EvasionsPhaseIndex
      else if 0 < d then MainSearchPhaseIndex
      else if d = 0 then
        (if noCapturesHint p ei = true then QsearchNoCapturesPhaseIndex
          else QsearchWithChecksPhaseIndex)
      else
        (if noCapturesHint p ei = true then NoMovesPhaseIndex
          else QsearchWithoutChecksPhaseIndex)) = _
    rw [if_neg (by rw [h]; simp), if_neg (by omega), if_pos hd]
  · intro h hd
    show (if p.isCheck = true then EvasionsPhaseIndex
      else if 0 < d then MainSearchPhaseIndex
      else if d = 0 then
        (if noCapturesHint p ei = true then QsearchNoCapturesPhaseIndex
          else QsearchWithChecksPhaseIndex)
      else
        (if noCapturesHint p ei = true then NoMovesPhaseIndex
          else QsearchWithoutChecksPhaseIndex)) = _
    rw [if_neg (by rw [h]; simp), if_neg (by omega), if_neg (by omega)]
  · intro e
    rw [noCapturesHint]
    simp [Bool.and_eq_true, Bool.not_eq_true']
    tauto

/-- Witness for C3: on the concrete position posX at depth 1, the constructor
selects the MainSearch row. -/
theorem constructor_config_witness :
    (mkMovePicker posX false 0 ssW 1 none).phaseIndex = MainSearchPhaseIndex :=
  (constructor_config posX false 0 ssW 1 none).2.2.2.1 (by decide) (by decide)

/-- C4: the lock-taking get_next_move returns the sentinel at once when the
finished latch is set, passes a non-sentinel pull through unchanged, latches
finished exactly when the inner pull returns the sentinel, and after any
locked call that returned the sentinel every later locked call on that picker
returns the sentinel from the unchanged state. -/
theorem locked_finished_latch (mp : MovePicker) :
    (mp.finished = true → getNextMoveLocked mp = some (MOVE_NONE, mp)) ∧
    (∀ m mp1, mp.finished = false → getNextMove mp = some (m, mp1) → m ≠ MOVE_NONE →
      getNextMoveLocked mp = some (m, mp1)) ∧
    (∀ mp1, mp.finished = false → getNextMove mp = some (MOVE_NONE, mp1) →
      getNextMoveLocked mp = some (MOVE_NONE, { mp1 with finished := true })) ∧
    (∀ m mp2, getNextMoveLocked mp = some (m, mp2) → m = MOVE_NONE →
      mp2.finished = true ∧
        ∀ k mp3, getNextMoveLocked mp2 = some (k, mp3) → k = MOVE_NONE ∧ mp3 = mp2) := by
  refine ⟨?_, ?_, ?_, ?_⟩
  · intro h
    rw [getNextMoveLocked, if_pos h]
  · intro m mp1 hfin hg hm
    rw [getNextMoveLocked, if_neg (by rw [hfin]; simp)]
    simp [hg, hm]
  · intro mp1 hfin hg
    rw [getNextMoveLocked, if_neg (by rw [hfin]; simp)]
    simp [hg]
  · intro m mp2 hlock hm
    subst hm
    by_cases hfin : mp.finished = true
    · rw [getNextMoveLocked, if_pos hfin] at hlock
      injection hlock with hp
      have hmp2 : mp2 = mp := (congrArg Prod.snd hp).symm
      subst hmp2
      refine ⟨hfin, ?_⟩
      intro k mp3 h3
      rw [getNextMoveLocked, if_pos hfin] at h3
      injection h3 with hp3
      exact ⟨(congrArg Prod.fst hp3).symm, (congrArg Prod.snd hp3).symm⟩
    · rw [getNextMoveLocked, if_neg hfin] at hlock
      cases hg : getNextMove mp with
      | none =>
        rw [hg] at hlock
        cases hlock
      | some q =>
        obtain ⟨m1, mp1⟩ := q
        rw [hg] at hlock
        have hlock2 : (if m1 = MOVE_NONE then some (MOVE_NONE, { mp1 with finished := true })
            else some (m1, mp1)) = some (MOVE_NONE, mp2) := hlock
        by_cases hm1 : m1 = MOVE_NONE
        · rw [if_pos hm1] at hlock2
          injection hlock2 with hp
          have hmp2 : mp2 = { mp1 with finished := true } := (congrArg Prod.snd hp).symm
          subst hmp2
          refine ⟨rfl, ?_⟩
          intro k mp3 h3
          rw [getNextMoveLocked, if_pos rfl] at h3
          injection h3 with hp3
          exact ⟨(congrArg Prod.fst hp3).symm, (congrArg Prod.snd hp3).symm⟩
        · rw [if_neg hm1] at hlock2
          injection hlock2 with hp
          exact absurd (congrArg Prod.fst hp) hm1
  
/-- Witness for C4: the locked entry point on a finished picker returns the
sentinel without pulling. -/
theorem locked_finished_latch_witness :
    getNextMoveLocked mpDone = some (MOVE_NONE, mpDone) :=
  (locked_finished_latch mpDone).1 rfl

/-- C5: a thread is available to help a master iff it is not searching and
either owns no split points or the top split point of its own stack has the
master's index bit set in its slaves mask. -/
theorem is_available_to_iff (t master : Thread) :
    t.isAvailableTo master = true ↔
      (t.searching = false ∧ (t.splitPointsSize = 0 ∨
        ((t.splitPoints.getD (t.splitPointsSize - 1) default).slavesMask
          &&& (1 <<< master.idx)) ≠ 0)) := by
  by_cases hs : t.searching = true
  · rw [Thread.isAvailableTo, if_pos hs]
    simp [hs]
  · rw [Thread.isAvailableTo, if_neg hs]
    rw [Bool.not_eq_true] at hs
    simp [hs]

/-- C6: when split returns, the caller's node counter equals its pre-split
value plus sp.nodes, the master is searching again with its split stack size,
parent split point and active position restored, and the best-move and
best-value out-parameters hold the split point's final values. -/
theorem split_frame_effects (fake : Bool) (t : Thread) (posNodes posRef spRef : Nat)
    (alpha beta bestValue : Int) (bestMove : Move) (depth : Int) (threatMove : Move)
    (moveCount : Nat) (nodeType : Int) (cutNode : Bool) (recruited : List Nat)
    (outcome : SplitOutcome) :
    (Thread.split fake t posNodes posRef spRef alpha beta bestValue bestMove depth
        threatMove moveCount nodeType cutNode recruited outcome).posNodes
      = posNodes + (Thread.split fake t posNodes posRef spRef alpha beta bestValue bestMove
          depth threatMove moveCount nodeType cutNode recruited outcome).sp.nodes ∧
    (Thread.split fake t posNodes posRef spRef alpha beta bestValue bestMove depth
        threatMove moveCount nodeType cutNode recruited outcome).master.searching = true ∧
    (Thread.split fake t posNodes posRef spRef alpha beta bestValue bestMove depth
        threatMove moveCount nodeType cutNode recruited outcome).master.splitPointsSize
      = t.splitPointsSize ∧
    (Thread.split fake t posNodes posRef spRef alpha beta bestValue bestMove depth
        threatMove moveCount nodeType cutNode recruited outcome).master.activeSplitPoint
      = (Thread.split fake t posNodes posRef spRef alpha beta bestValue bestMove depth
          threatMove moveCount nodeType cutNode recruited outcome).sp.parentSplitPoint ∧
    (Thread.split fake t posNodes posRef spRef alpha beta bestValue bestMove depth
        threatMove moveCount nodeType cutNode recruited outcome).sp.parentSplitPoint
      = t.activeSplitPoint ∧
    (Thread.split fake t posNodes posRef spRef alpha beta bestValue bestMove depth
        threatMove moveCount nodeType cutNode recruited outcome).master.activePosition
      = some posRef ∧
    (Thread.split fake t posNodes posRef spRef alpha beta bestValue bestMove depth
        threatMove moveCount nodeType cutNode recruited outcome).bestMove
      = (Thread.split fake t posNodes posRef spRef alpha beta bestValue bestMove depth
          threatMove moveCount nodeType cutNode recruited outcome).sp.bestMove ∧
    (Thread.split fake t posNodes posRef spRef alpha beta bestValue bestMove depth
        threatMove moveCount nodeType cutNode recruited outcome).bestValue
      = (Thread.split fake t posNodes posRef spRef alpha beta bestValue bestMove depth
          threatMove moveCount nodeType cutNode recruited outcome).sp.bestValue := by
  by_cases hloop : (!recruited.isEmpty || fake) = true <;>
    refine ⟨?_, ?_, ?_, ?_, ?_, ?_, ?_, ?_⟩ <;>
    simp [Thread.split, hloop]

/-- C7: in the QCAPTURES phase a single draw selects by best score while fewer
than four moves were picked and by front slot afterwards, skips only illegal
moves, and over the whole phase every legal bucket entry, the tt move
included, is yielded. -/
theorem qcaptures_rules (mp : MovePicker)
    (hphase : PhaseTable mp.phaseIndex = PH_QCAPTURES)
    (hsc : ∀ sm ∈ bucketRest mp, -10000000 < sm.score)
    (hnz : ∀ sm ∈ bucketRest mp, sm.move ≠ MOVE_NONE) :
    (∃ m mp2, pickMoveFromList mp = some (m, mp2) ∧ sameConfig mp mp2 ∧
      ((m = MOVE_NONE ∧ ∀ sm ∈ bucketRest mp, mp.pos.plMoveIsLegal sm.move = false)
        ∨ (m ≠ MOVE_NONE ∧ mp.pos.plMoveIsLegal m = true ∧
            (mp.movesPicked < 4 →
              (∀ x ∈ bucketRest mp, mp.pos.plMoveIsLegal x.move = true) →
              ∃ sm ∈ bucketRest mp, sm.move = m ∧
                ∀ x ∈ bucketRest mp, x.score ≤ sm.score) ∧
            (4 ≤ mp.movesPicked →
              ∃ pre sm rest, bucketRest mp = pre ++ sm :: rest ∧ sm.move = m ∧
                ∀ x ∈ pre, mp.pos.plMoveIsLegal x.move = false)))) ∧
    (∃ (G : List Move) (mpD : MovePicker), sameConfig mp mpD ∧ bucketRest mpD = [] ∧
      (↑G : Multiset Move) = Multiset.map ScoredMove.move
        (Multiset.filter (fun sm => mp.pos.plMoveIsLegal sm.move = true) ↑(bucketRest mp)) ∧
      (∀ sm ∈ bucketRest mp, mp.pos.plMoveIsLegal sm.move = true → sm.move ∈ G) ∧
      ∀ (n : Nat) (tail : List (Move × MovegenPhase)) (mpF : MovePicker),
        emitSeqT n mpD = some (tail, mpF) →
        emitSeqT (G.length + n) mp
          = some (G.map (fun g => (g, PH_QCAPTURES)) ++ tail, mpF)) := by
  constructor
  · obtain ⟨m, mp2, hres, hcfg, _, _, hcase⟩ := pickLoopQCaptures_spec mp hsc hnz
    have hpick : pickMoveFromList mp = some (m, mp2) := by
      rw [pickDispatch_QCAP mp hphase]
      exact hres
    refine ⟨m, mp2, hpick, hcfg, ?_⟩
    rcases hcase with ⟨hm, _, hall⟩ | ⟨hm, hpm, sm, skipped, hsm, hms, hskip, hlt4, hge4⟩
    · exact Or.inl ⟨hm, hall⟩
    · refine Or.inr ⟨hm, hpm, ?_, ?_⟩
      · intro h4 hall2
        refine ⟨sm, ?_, hsm, hlt4 h4 hall2⟩
        have h1 : sm ∈ (↑(bucketRest mp) : Multiset ScoredMove) := by
          rw [hms]
          exact Multiset.mem_add.mpr (Or.inr (Multiset.mem_cons_self _ _))
        exact_mod_cast h1
      · intro h4
        obtain ⟨pre, hpre, hprefail⟩ := hge4 h4
        exact ⟨pre, sm, bucketRest mp2, hpre, hsm, hprefail⟩
  · obtain ⟨G, mpD, hcfg, hdr, _, _, hms, hglue⟩ :=
      emitSeqT_runQCAP (bucketRest mp).length mp le_rfl hphase hsc hnz
    refine ⟨G, mpD, hcfg, hdr, hms, ?_, hglue⟩
    intro sm hsm hleg
    have h1 : sm ∈ Multiset.filter (fun sm => mp.pos.plMoveIsLegal sm.move = true)
        (↑(bucketRest mp) : Multiset ScoredMove) :=
      Multiset.mem_filter.mpr ⟨by exact_mod_cast hsm, hleg⟩
    have h2 : sm.move ∈ (↑G : Multiset Move) := by
      rw [hms]
      exact Multiset.mem_map.mpr ⟨sm, h1, rfl⟩
    exact_mod_cast h2

/-- Witness for C7 on a concrete QCAPTURES picker whose bucket holds the tt
move: the drain yields a move. -/
theorem qcaptures_rules_witness :
    ∃ m mp2, pickMoveFromList mpQ = some (m, mp2) := by
  obtain ⟨⟨m, mp2, hres, _⟩, _⟩ := qcaptures_rules mpQ (by decide) (by decide) (by decide)
  exact ⟨m, mp2, hres⟩

/-- C8: a spin-option assignment never surfaces an error and never leaves the
configured range (an out-of-range value is dropped, an in-range value is
stored), and the minimum split depth computed by read_uci_options is 4 plies
(below 8 threads) or 7 plies for a configured 0, is max(4 plies, value) for a
nonzero configured value, and in every case is at least 4 plies. -/
theorem read_options_min_split_depth (o : SpinOption) (v : Int)
    (hwf : o.minValue ≤ o.currentValue ∧ o.currentValue ≤ o.maxValue)
    (onePly msd : Int) (req : Nat) (hp : 0 < onePly) :
    (o.minValue ≤ (SpinOption.assign o v).currentValue
      ∧ (SpinOption.assign o v).currentValue ≤ o.maxValue) ∧
    (¬(v < o.minValue ∨ o.maxValue < v) → (SpinOption.assign o v).currentValue = v) ∧
    (msd = 0 → readMinimumSplitDepth onePly msd req = (if req < 8 then 4 else 7) * onePly) ∧
    (msd ≠ 0 → readMinimumSplitDepth onePly msd req = max (4 * onePly) (msd * onePly)) ∧
    (4 * onePly ≤ readMinimumSplitDepth onePly msd req) := by
  have hassign : ∀ w : Int, SpinOption.assign o w
      = if w < o.minValue ∨ o.maxValue < w then o else { o with currentValue := w } := by
    intro w
    rw [SpinOption.assign]
    by_cases hc : w < o.minValue ∨ o.maxValue < w
    · rw [if_pos hc, if_pos]
      simp only [Bool.or_eq_true, decide_eq_true_eq]
      exact hc
    · rw [if_neg hc, if_neg]
      simp only [Bool.or_eq_true, decide_eq_true_eq]
      exact hc
  have hmeq : readMinimumSplitDepth onePly msd req
      = (if msd * onePly = 0 then (if req < 8 then 4 else 7) * onePly
          else max (4 * onePly) (msd * onePly)) := rfl
  have hz : msd * onePly = 0 ↔ msd = 0 := by
    constructor
    · intro h
      rcases mul_eq_zero.mp h with h1 | h1
      · exact h1
      · omega
    · intro h
      rw [h, zero_mul]
  refine ⟨?_, ?_, ?_, ?_, ?_⟩
  · rw [hassign v]
    by_cases hc : v < o.minValue ∨ o.maxValue < v
    · rw [if_pos hc]
      exact hwf
    · rw [if_neg hc]
      constructor
      · show o.minValue ≤ v
        omega
      · show v ≤ o.maxValue
        omega
  · intro hc
    rw [hassign v, if_neg hc]
  · intro h0
    rw [hmeq, if_pos (hz.mpr h0)]
  · intro h0
    rw [hmeq, if_neg (fun hc => h0 (hz.mp hc))]
  · rw [hmeq]
    by_cases hc : msd * onePly = 0
    · rw [if_pos hc]
      by_cases hr : req < 8
      · rw [if_pos hr]
      · rw [if_neg hr]
        exact mul_le_mul_of_nonneg_right (by norm_num) (le_of_lt hp)
    · rw [if_neg hc]
      exact le_max_left _ _

/-- Witness for C8 at a concrete option and configuration: spin range, split
depth cases and the 4-ply floor at one concrete instance. -/
theorem read_options_min_split_depth_witness :
    4 * 2 ≤ readMinimumSplitDepth 2 0 2 :=
  (read_options_min_split_depth ⟨1, 0, 12⟩ 5 (by decide) 2 0 2 (by decide)).2.2.2.2

/-- C9: when N workers drain one picker through the lock-taking entry point,
the moves they collectively receive are exactly the single-threaded emission
sequence, in order, and no move is delivered to two workers. -/
theorem locked_schedule_matches_single_thread (W : List Nat) (mp : MovePicker) (n : Nat)
    (E : List (Move × MovegenPhase)) (mpE : MovePicker)
    (hfin : mp.finished = false) (hemit : emitSeqT n mp = some (E, mpE))
    (hlen : E.length < W.length) (hnd : (E.map Prod.fst).Nodup) :
    ∃ evs mpF, runSchedule W mp = some (evs, mpF) ∧
      (evs.map Prod.snd).filter (fun m => m != MOVE_NONE) = E.map Prod.fst ∧
      ∀ w1 w2 m, (w1, m) ∈ evs → (w2, m) ∈ evs → m ≠ MOVE_NONE → w1 = w2 := by
  obtain ⟨mpF, hrs⟩ := runSchedule_emit E W mp mpE n hfin hemit hlen
  have hlenD : (E.map Prod.fst ++ List.replicate (W.length - E.length) MOVE_NONE).length
      = W.length := by
    simp only [List.length_append, List.length_map, List.length_replicate]
    omega
  refine ⟨_, mpF, hrs, ?_, ?_⟩
  · rw [List.map_snd_zip _ _ (le_of_eq hlenD), List.filter_append]
    have h1 : (E.map Prod.fst).filter (fun m => m != MOVE_NONE) = E.map Prod.fst := by
      rw [List.filter_eq_self]
      intro m hm
      obtain ⟨e, he, hem⟩ := List.mem_map.mp hm
      have := emitSeqT_moves_ne n mp E mpE hemit e he
      rw [hem] at this
      simpa using this
    have h2 : (List.replicate (W.length - E.length) MOVE_NONE).filter
        (fun m => m != MOVE_NONE) = [] := by
      induction (W.length - E.length) with
      | zero => rfl
      | succ k ih => simpa [List.replicate_succ] using ih
    rw [h1, h2, List.append_nil]
  · intro w1 w2 m h1 h2 hm
    obtain ⟨i, hi, hgi⟩ := List.mem_iff_getElem.mp h1
    obtain ⟨j, hj, hgj⟩ := List.mem_iff_getElem.mp h2
    have hzl : (W.zip (E.map Prod.fst
        ++ List.replicate (W.length - E.length) MOVE_NONE)).length = W.length := by
      rw [List.length_zip, hlenD, Nat.min_self]
    have hiW : i < W.length := by rw [hzl] at hi; exact hi
    have hjW : j < W.length := by rw [hzl] at hj; exact hj
    have hiD : i < (E.map Prod.fst ++ List.replicate (W.length - E.length)
        MOVE_NONE).length := by rw [hlenD]; exact hiW
    have hjD : j < (E.map Prod.fst ++ List.replicate (W.length - E.length)
        MOVE_NONE).length := by rw [hlenD]; exact hjW
    rw [List.getElem_zip] at hgi hgj
    have hwi : W[i] = w1 := congrArg Prod.fst hgi
    have hdi : (E.map Prod.fst ++ List.replicate (W.length - E.length) MOVE_NONE)[i] = m :=
      congrArg Prod.snd hgi
    have hwj : W[j] = w2 := congrArg Prod.fst hgj
    have hdj : (E.map Prod.fst ++ List.replicate (W.length - E.length) MOVE_NONE)[j] = m :=
      congrArg Prod.snd hgj
    have hiE : i < (E.map Prod.fst).length := by
      by_contra hge
      rw [not_lt] at hge
      rw [List.getElem_append_right hge] at hdi
      rw [List.getElem_replicate] at hdi
      exact hm hdi.symm
    have hjE : j < (E.map Prod.fst).length := by
      by_contra hge
      rw [not_lt] at hge
      rw [List.getElem_append_right hge] at hdj
      rw [List.getElem_replicate] at hdj
      exact hm hdj.symm
    rw [List.getElem_append_left hiE] at hdi
    rw [List.getElem_append_left hjE] at hdj
    have hij : i = j := (hnd.getElem_inj_iff).mp (hdi.trans hdj.symm)
    subst hij
    rw [← hwi, ← hwj]

/-- Witness for C9: two workers draining a fresh NoMoves picker both receive
the sentinel; the schedule runs to completion. -/
theorem locked_schedule_matches_single_thread_witness :
    ∃ evs mpF, runSchedule [0, 1]
      (mkMovePicker posX false 0 ssW (-1) (some ⟨false, false⟩)) = some (evs, mpF) := by
  have hemit : emitSeqT 1 (mkMovePicker posX false 0 ssW (-1) (some ⟨false, false⟩))
      = some ([], advancePhase (mkMovePicker posX false 0 ssW (-1) (some ⟨false, false⟩))) :=
    noMovesRun _ (by decide)
  obtain ⟨evs, mpF, hrs, _, _⟩ := locked_schedule_matches_single_thread [0, 1] _ 1 [] _
    rfl hemit (by decide) (by decide)
  exact ⟨evs, mpF, hrs⟩

/-- C10 (refuted): a freshly constructed MainSearch picker carries phase index
MainSearchPhaseIndex = -1, so its very first pick_move_from_list call reads
PhaseTable at a negative index, outside the table's initialized bounds. -/
theorem mainsearch_first_phase_read_oob :
    (mkMovePicker posX false 0 ssW 1 none).phaseIndex = MainSearchPhaseIndex ∧
    MainSearchPhaseIndex < 0 := by
  constructor
  · decide
  · decide

end StockfishCore